import Mathlib

/-! BTC perpetual-contract calculator (`src/BtcCalculator.jsx`).

A shallow embedding of `parseValidFloat` and `performCalculations`, in two
forms that follow the same source lines.

* The exact embedding (`parseValidFloat`, `performCalculations`, ...) computes
  with exact rationals (`ℚ`): rounding and overflow of IEEE doubles are
  outside it, and so is the special value `Infinity` (it appears only as the
  default bounds of `parseValidFloat`, modelled by an absent bound, and the
  numeral text `Infinity` is not read by its `parseFloat`). `NaN` is modelled:
  as the raw value `JsValue.nan`, and as `none` where a computation
  (`parseFloat`, the actual liquidation price) may yield it. It carries the
  properties about which branch runs and which fields are written.
* The double-precision embedding (`parseValidFloatD`, `performCalculationsD`,
  ..., every name ending in `D`) computes with the numbers of JavaScript: IEEE
  754 binary64 values with `NaN` and the infinities, every operation rounded
  to the nearest value. It carries the properties that depend on the value of
  a computed number (C1, C6, C7, C14).

Conventions common to both.

* `null` is `none`.
* Texts produced by `toFixed` and the fixed texts `"N/A"`, `"∞"` are values of
  the type `Text`.
* The React state written by `performCalculations` is the record `State`;
  the function is a state transformer, one `set…` call after the other.
-/

namespace BtcCalculator

/-! ## Constants -/

def MIN_LEVERAGE : ℚ := 1
def MAX_LEVERAGE : ℚ := 125
/-- The maintenance margin rate, 0.4%. -/
def MAINT_MARGIN_RATE : ℚ := 4 / 1000
/-- The fee rate, 0.05%. -/
def DEFAULT_FEE_RATE : ℚ := 5 / 10000
/-- The state `feeRate`: `useState(DEFAULT_FEE_RATE)` without a setter. -/
def feeRate : ℚ := DEFAULT_FEE_RATE

/-! ## Raw values and the built-ins `trim`, `parseFloat`, `toFixed` -/

/-- A raw JavaScript value as `parseValidFloat` may receive it: a finite
number, `NaN`, a string, or a value of another type (`other`, with the text
`ToString` gives for it). -/
inductive JsValue where
  | num (v : ℚ)
  | nan
  | str (s : String)
  | other (text : String)
  deriving DecidableEq, Repr

/-- White space and line terminators of ECMAScript (what `trim` strips and
`parseFloat` skips). -/
def isJsWhiteSpace (c : Char) : Bool :=
  let n := c.toNat
  n == 9 || n == 10 || n == 11 || n == 12 || n == 13 || n == 32 || n == 160 ||
  n == 0x1680 || (0x2000 ≤ n && n ≤ 0x200A) || n == 0x2028 || n == 0x2029 ||
  n == 0x202F || n == 0x205F || n == 0x3000 || n == 0xFEFF

/-- The method `String.prototype.trim`, on the characters of the string. -/
def jsTrim (cs : List Char) : List Char :=
  ((cs.dropWhile isJsWhiteSpace).reverse.dropWhile isJsWhiteSpace).reverse

/-- Reads a run of decimal digits: the value accumulated on `acc`, the number
of digits read added to `n`, and the rest of the text. -/
def takeDigits (acc n : Nat) : List Char → Nat × Nat × List Char
  | [] => (acc, n, [])
  | c :: cs =>
    if c.isDigit then takeDigits (acc * 10 + (c.toNat - 48)) (n + 1) cs
    else (acc, n, c :: cs)

/-- The optional exponent part (`e`/`E`, optional sign, digits) at the head of
`cs`: its value and the rest; `(0, cs)` when there is no complete one. -/
def scanExponent (cs : List Char) : Int × List Char :=
  match cs with
  | [] => (0, cs)
  | c :: ds =>
    if c = 'e' ∨ c = 'E' then
      match ds with
      | [] => (0, cs)
      | s :: es =>
        if s = '+' then
          match takeDigits 0 0 es with
          | (v, k, rest) => if k = 0 then (0, cs) else ((v : Int), rest)
        else if s = '-' then
          match takeDigits 0 0 es with
          | (v, k, rest) => if k = 0 then (0, cs) else (-(v : Int), rest)
        else
          match takeDigits 0 0 ds with
          | (v, k, rest) => if k = 0 then (0, cs) else ((v : Int), rest)
    else (0, cs)

/-- The longest unsigned decimal literal at the head of `cs` (digits, optional
fraction, optional exponent): its mantissa `m` and decimal exponent `e`
(the value is `m * 10 ^ e`) and the rest; `none` when there is none. -/
def scanUnsigned (cs : List Char) : Option (Nat × Int × List Char) :=
  match takeDigits 0 0 cs with
  | (i, ni, r1) =>
    match r1 with
    | [] => if ni = 0 then none else some (i, 0, [])
    | c :: r2 =>
      if c = '.' then
        match takeDigits i 0 r2 with
        | (m, nf, r3) =>
          if ni = 0 ∧ nf = 0 then none
          else
            match scanExponent r3 with
            | (e, r4) => some (m, e - (nf : Int), r4)
      else if ni = 0 then none
      else
        match scanExponent r1 with
        | (e, r4) => some (i, e, r4)

/-- The longest signed decimal literal at the head of `cs`, white space
skipped: sign, mantissa, decimal exponent and the rest of the text. -/
def scanFloat (cs : List Char) : Option (Bool × Nat × Int × List Char) :=
  match cs.dropWhile isJsWhiteSpace with
  | [] => none
  | c :: ds =>
    if c = '-' then (scanUnsigned ds).map (fun r => (true, r))
    else if c = '+' then (scanUnsigned ds).map (fun r => (false, r))
    else (scanUnsigned (c :: ds)).map (fun r => (false, r))

/-- The number a scanned literal denotes. -/
def literalValue (neg : Bool) (m : Nat) (e : Int) : ℚ :=
  (if neg then -1 else 1) * (m : ℚ) * (10 : ℚ) ^ e

/-- The global `parseFloat` on the characters of a string: the value of the
longest decimal literal the text starts with, `none` (`NaN`) when there is
none. The literal `Infinity`, whose value is no rational number, is not among
the literals read. -/
def parseFloatChars (cs : List Char) : Option ℚ :=
  match scanFloat cs with
  | none => none
  | some (neg, m, e, _) => some (literalValue neg m e)

/-- The global `parseFloat` applied to a raw value (`ToString` first). -/
def parseFloat : JsValue → Option ℚ
  | .num v => some v
  | .nan => none
  | .str s => parseFloatChars s.data
  | .other text => parseFloatChars text.data

/-- A text shown to the user: a decimal with a fixed number of digits after the
point (`units / 10 ^ digits`, with a minus sign when `neg`), the general
`ToString` text of a number, `"N/A"` or `"∞"`. -/
inductive Text where
  | fixed (neg : Bool) (units : Nat) (digits : Nat)
  | general (v : ℚ)
  | na
  | infinite
  deriving DecidableEq, Repr

/-- The method `Number.prototype.toFixed`: the sign is taken off first, numbers
of absolute value `10 ^ 21` and more are written by `ToString`, the others
are rounded to the nearest multiple of `10 ^ (-digits)`, the larger one on a
tie. -/
def toFixed (x : ℚ) (digits : Nat) : Text :=
  if (10 : ℚ) ^ 21 ≤ |x| then .general x
  else .fixed (decide (x < 0)) (⌊|x| * (10 : ℚ) ^ digits + 1 / 2⌋).toNat digits

/-- The number a text reads as (`parseFloat` of it); `none` for `"N/A"`
and `"∞"`. -/
def Text.value : Text → Option ℚ
  | .fixed neg units digits =>
    some ((if neg then -1 else 1) * (units : ℚ) / (10 : ℚ) ^ digits)
  | .general v => some v
  | .na => none
  | .infinite => none

/-! ## `parseValidFloat` -/

/-- The test `value >= min`, an absent bound being `-Infinity`. -/
def geMin (v : ℚ) : Option ℚ → Bool
  | none => true
  | some m => decide (m ≤ v)

/-- The test `value <= max`, an absent bound being `Infinity`. -/
def leMax (v : ℚ) : Option ℚ → Bool
  | none => true
  | some m => decide (v ≤ m)

/-- The function `parseValidFloat(value, min, max, allowZero)`. -/
def parseValidFloat (value : JsValue) (min max : Option ℚ) (allowZero : Bool) :
    Option ℚ :=
  match value with
  | .num v =>
    if (if allowZero then decide (0 ≤ v) else decide (0 < v)) && geMin v min && leMax v max
    then some v
    else none
  | .nan => none
  | .other _ => none
  | .str s =>
    if jsTrim s.data = [] then none
    else
      match parseFloatChars (jsTrim s.data) with
      | none => none
      | some num =>
        if (!allowZero && decide (num ≤ 0)) || (allowZero && decide (num < 0)) ||
            !geMin num min || !leMax num max
        then none
        else some num

/-- Truthiness of a parsed value: `null`, `0` (and `NaN`) are falsy. -/
def truthy : Option ℚ → Bool
  | none => false
  | some v => decide (v ≠ 0)

/-! ## The component state and `performCalculations` -/

/-- The state `direction`: the code only compares it with `"long"` and
`"short"`; `other` is any other value. -/
inductive Direction where
  | long
  | short
  | other
  deriving DecidableEq, Repr

/-- The messages `performCalculations` passes to `setError`. -/
inductive CalcError where
  /-- The text "請輸入有效的可用資金 (> 0)". -/
  | invalidFunds
  /-- The text "槓桿必須在 1~125 之間". -/
  | leverageOutOfRange
  /-- The text "做多時，預設強平價必須低於開倉價". -/
  | longLiqNotBelowEntry
  /-- The text "做空時，預設強平價必須高於開倉價". -/
  | shortLiqNotAboveEntry
  /-- The text "推算槓桿 (…x) 超出範圍 (1~125)", with the derived leverage
  written by `toFixed(2)`. -/
  | derivedOutOfRange (shown : Text)
  /-- The text "無法根據輸入價格計算槓桿". -/
  | cannotDerive
  deriving DecidableEq, Repr

/-- The record passed to `setCalculationResult`. -/
structure CalcResult where
  grossPnl : Text
  totalFee : Text
  netPnl : Text
  netPnlTwd : Text
  rRatio : Text
  actualLiqPrice : Text
  deriving DecidableEq, Repr

/-- The inputs `performCalculations` reads: the form state and the exchange
rate `usdtToTwd` (`none` is `null`). -/
structure Inputs where
  direction : Direction
  manualLeverageInput : JsValue
  fundsInput : JsValue
  positionPercent : JsValue
  entryPriceInput : JsValue
  liqPresetInput : JsValue
  targetPriceInput : JsValue
  usdtToTwd : Option ℚ
  deriving DecidableEq, Repr

/-- The state `performCalculations` writes. -/
structure State where
  error : Option CalcError
  margin : Text
  derivedLeverage : Option ℚ
  finalLeverage : Option ℚ
  positionSize : Text
  calculationResult : Option CalcResult
  deriving DecidableEq, Repr

/-- The state of a freshly mounted component (and after `resetSettings`):
margin `"0.00"`, position size `"0.000000"`, everything else `null`. -/
def initialResultState : State :=
  { error := none, margin := .fixed false 0 2, derivedLeverage := none,
    finalLeverage := none, positionSize := .fixed false 0 6,
    calculationResult := none }

/-- The flag `isLeverageManuallySet`:
`manualLeverageInput !== "" && !isNaN(parseFloat(manualLeverageInput))`. -/
def isLeverageManuallySet (manualLeverageInput : JsValue) : Bool :=
  decide (manualLeverageInput ≠ .str "") && (parseFloat manualLeverageInput).isSome

/-- What step 3 of `performCalculations` leaves behind: the local
`currentError`, the local `leverageToUse`, and the value given to
`setDerivedLeverage` (`none` when it is not called). -/
structure Resolution where
  currentError : Option CalcError
  leverageToUse : Option ℚ
  derivedLeverage : Option ℚ
  deriving DecidableEq, Repr

/-- The denominator of the leverage derivation: the `long` formula for
`long`, the other one for every other direction. -/
def derivationDenominator (direction : Direction) (parsedEntry parsedLiqPreset : ℚ) : ℚ :=
  if direction = .long then 1 + MAINT_MARGIN_RATE - parsedLiqPreset / parsedEntry
  else parsedLiqPreset / parsedEntry - 1 + MAINT_MARGIN_RATE

/-- Step 3 of `performCalculations` ("確定並驗證槓桿"): the manual leverage
when it is set, otherwise the leverage derived from the entry price and the
preset liquidation price. -/
def resolveLeverage (direction : Direction) (manualLeverageInput : JsValue)
    (parsedEntry parsedLiqPreset : Option ℚ) : Resolution :=
  if isLeverageManuallySet manualLeverageInput then
    match parseValidFloat manualLeverageInput (some MIN_LEVERAGE) (some MAX_LEVERAGE) false with
    | none => { currentError := some .leverageOutOfRange, leverageToUse := none,
                derivedLeverage := none }
    | some parsedManualLeverage =>
      { currentError := none, leverageToUse := some parsedManualLeverage,
        derivedLeverage := none }
  else
    match parsedEntry, parsedLiqPreset with
    | some entry, some liqPreset =>
      if truthy (some entry) && truthy (some liqPreset) then
        if direction = .long ∧ liqPreset ≥ entry then
          { currentError := some .longLiqNotBelowEntry, leverageToUse := none,
            derivedLeverage := none }
        else if direction = .short ∧ liqPreset ≤ entry then
          { currentError := some .shortLiqNotAboveEntry, leverageToUse := none,
            derivedLeverage := none }
        else
          let denominator := derivationDenominator direction entry liqPreset
          if denominator ≤ 1 / 10 ^ 9 then
            { currentError := some .cannotDerive, leverageToUse := none,
              derivedLeverage := none }
          else
            let calculatedDerivedLev := 1 / denominator
            if calculatedDerivedLev < MIN_LEVERAGE ∨ calculatedDerivedLev > MAX_LEVERAGE then
              { currentError := some (.derivedOutOfRange (toFixed calculatedDerivedLev 2)),
                leverageToUse := none, derivedLeverage := some calculatedDerivedLev }
            else
              { currentError := none, leverageToUse := some calculatedDerivedLev,
                derivedLeverage := some calculatedDerivedLev }
      else { currentError := none, leverageToUse := none, derivedLeverage := none }
    | _, _ => { currentError := none, leverageToUse := none, derivedLeverage := none }

/-- Step 2 ("計算保證金"): the local `calculatedMargin`. -/
def calcMargin (parsedFunds parsedPosPercent : Option ℚ) : ℚ :=
  match parsedFunds, parsedPosPercent with
  | some funds, some percent =>
    if truthy (some funds) && truthy (some percent) then funds * percent / 100 else 0
  | _, _ => 0

/-- Step 4 ("計算倉位大小"): the local `calculatedSize`. -/
def calcSize (calculatedMargin : ℚ) (leverageToUse parsedEntry : Option ℚ) : ℚ :=
  match leverageToUse, parsedEntry with
  | some leverage, some entry =>
    if decide (calculatedMargin > 0) && truthy (some entry) then
      calculatedMargin * leverage / entry
    else 0
  | _, _ => 0

/-- The local `liqP` of step 5 ("計算實際強平價"): the liquidation price of a
position opened at `parsedEntry` with `leverageToUse`. -/
def liqPrice (direction : Direction) (parsedEntry leverageToUse : ℚ) : ℚ :=
  if direction = .long then parsedEntry * (1 - 1 / leverageToUse + MAINT_MARGIN_RATE)
  else parsedEntry * (1 + 1 / leverageToUse - MAINT_MARGIN_RATE)

/-- The local `actualLiqPriceNum` of step 5: `liqP` when it is positive,
`none` (`NaN`) otherwise. -/
def actualLiqPriceNum (direction : Direction) (parsedEntry leverageToUse : ℚ) : Option ℚ :=
  if liqPrice direction parsedEntry leverageToUse > 0
  then some (liqPrice direction parsedEntry leverageToUse)
  else none

/-- The local `totalRisk` of step 5, for an applicable liquidation price. -/
def totalRisk (direction : Direction) (calculatedSize entryValue entryFee liqPrice : ℚ) : ℚ :=
  let riskExitValue := calculatedSize * liqPrice
  let potentialLossAmount :=
    if direction = .long then entryValue - riskExitValue else riskExitValue - entryValue
  let riskEntryFee := entryFee
  let riskExitFee := riskExitValue * feeRate
  potentialLossAmount + riskEntryFee + riskExitFee

/-- The local `rRatio` of step 5 ("計算風險回報比"). -/
def riskRewardText (direction : Direction) (calculatedSize entryValue entryFee netPnl : ℚ)
    (actualLiq : Option ℚ) : Text :=
  match actualLiq with
  | none => .na
  | some liqPrice =>
    if totalRisk direction calculatedSize entryValue entryFee liqPrice > 1 / 10 ^ 9 then
      toFixed (|netPnl| / totalRisk direction calculatedSize entryValue entryFee liqPrice) 2
    else if netPnl > 0 then .infinite
    else .na

/-- The locals of step 5 ("計算 PNL, Fee, R/R") that the result record is
written from. -/
structure PnlLocals where
  actualLiq : Option ℚ
  entryValue : ℚ
  exitValue : ℚ
  grossPnl : ℚ
  totalFee : ℚ
  netPnl : ℚ
  deriving DecidableEq, Repr

/-- The locals of step 5 for a position of `calculatedSize`. -/
def pnlLocals (direction : Direction) (calculatedSize leverageToUse parsedEntry parsedTarget : ℚ) :
    PnlLocals :=
  let entryValue := calculatedSize * parsedEntry
  let exitValue := calculatedSize * parsedTarget
  let grossPnl := if direction = .long then exitValue - entryValue else entryValue - exitValue
  let entryFee := entryValue * feeRate
  let exitFee := exitValue * feeRate
  let totalFee := entryFee + exitFee
  { actualLiq := actualLiqPriceNum direction parsedEntry leverageToUse,
    entryValue := entryValue, exitValue := exitValue, grossPnl := grossPnl,
    totalFee := totalFee, netPnl := grossPnl - totalFee }

/-- The record step 5 passes to `setCalculationResult`. -/
def pnlResult (direction : Direction) (usdtToTwd : Option ℚ)
    (calculatedSize leverageToUse parsedEntry parsedTarget : ℚ) : CalcResult :=
  let l := pnlLocals direction calculatedSize leverageToUse parsedEntry parsedTarget
  { grossPnl := toFixed l.grossPnl 2,
    totalFee := toFixed l.totalFee 2,
    netPnl := toFixed l.netPnl 2,
    netPnlTwd :=
      match usdtToTwd with
      | some rate => toFixed (l.netPnl * rate) 2
      | none => .na,
    rRatio := riskRewardText direction calculatedSize l.entryValue (l.entryValue * feeRate)
      l.netPnl l.actualLiq,
    actualLiqPrice :=
      match l.actualLiq with
      | some liqP => toFixed liqP 2
      | none => .na }

/-- Step 5 as a whole: the result record, when the position size is positive
and leverage, entry price and target price are there. -/
def calcPnl (direction : Direction) (usdtToTwd : Option ℚ) (calculatedSize : ℚ)
    (leverageToUse parsedEntry parsedTarget : Option ℚ) : Option CalcResult :=
  match leverageToUse, parsedEntry, parsedTarget with
  | some leverage, some entry, some target =>
    if decide (calculatedSize > 0) && truthy (some entry) && truthy (some target) then
      some (pnlResult direction usdtToTwd calculatedSize leverage entry target)
    else none
  | _, _, _ => none

/-- The local `parsedFunds`: `parseValidFloat(fundsInput, 0.01)`. -/
def Inputs.parsedFunds (inp : Inputs) : Option ℚ :=
  parseValidFloat inp.fundsInput (some (1 / 100)) none false

/-- The local `parsedPosPercent`: `parseValidFloat(positionPercent, 1, 100)`. -/
def Inputs.parsedPosPercent (inp : Inputs) : Option ℚ :=
  parseValidFloat inp.positionPercent (some 1) (some 100) false

/-- The local `parsedEntry`: `parseValidFloat(entryPriceInput, 0.01)`. -/
def Inputs.parsedEntry (inp : Inputs) : Option ℚ :=
  parseValidFloat inp.entryPriceInput (some (1 / 100)) none false

/-- The local `parsedLiqPreset`: `parseValidFloat(liqPresetInput, 0.01)`. -/
def Inputs.parsedLiqPreset (inp : Inputs) : Option ℚ :=
  parseValidFloat inp.liqPresetInput (some (1 / 100)) none false

/-- The local `parsedTarget`: `parseValidFloat(targetPriceInput, 0.01)`. -/
def Inputs.parsedTarget (inp : Inputs) : Option ℚ :=
  parseValidFloat inp.targetPriceInput (some (1 / 100)) none false

/-- The callback `performCalculations`, from the state before it runs to the
state after it. -/
def performCalculations (inp : Inputs) (st : State) : State :=
  -- setError(null); setDerivedLeverage(null); setFinalLeverage(null); setCalculationResult(null)
  let st := { st with error := none, derivedLeverage := none, finalLeverage := none,
                      calculationResult := none }
  -- 1. parsing
  let parsedFunds := inp.parsedFunds
  let parsedPosPercent := inp.parsedPosPercent
  let parsedEntry := inp.parsedEntry
  let parsedLiqPreset := inp.parsedLiqPreset
  let parsedTarget := inp.parsedTarget
  if !(truthy parsedFunds) then
    { st with error := some .invalidFunds }
  else
    -- 2. margin
    let calculatedMargin := calcMargin parsedFunds parsedPosPercent
    let marginText :=
      if truthy parsedFunds && truthy parsedPosPercent then toFixed calculatedMargin 2
      else .fixed false 0 2
    let st := { st with margin := marginText }
    -- 3. leverage
    let r := resolveLeverage inp.direction inp.manualLeverageInput parsedEntry parsedLiqPreset
    let st := { st with derivedLeverage := r.derivedLeverage }
    if r.currentError.isSome then
      { st with error := r.currentError }
    else
      let st := { st with finalLeverage := r.leverageToUse }
      -- 4. position size
      let calculatedSize := calcSize calculatedMargin r.leverageToUse parsedEntry
      let sizeText :=
        if decide (calculatedMargin > 0) && r.leverageToUse.isSome && truthy parsedEntry
        then toFixed calculatedSize 6
        else .fixed false 0 6
      let st := { st with positionSize := sizeText }
      -- 5. PnL
      let result :=
        calcPnl inp.direction inp.usdtToTwd calculatedSize r.leverageToUse parsedEntry parsedTarget
      let st := { st with calculationResult := result }
      { st with error := r.currentError }

/-! ## The exchange rate and `fetchExchangeRate` -/

/-- The state `twdFetchStatus`: `"loading"`, `"success"` or `"error"`. -/
inductive FetchStatus where
  | loading
  | success
  | error
  deriving DecidableEq, Repr

/-- The state `fetchExchangeRate` writes: the rate `usdtToTwd` (`none` is
`null`) and the status of the last fetch. -/
structure RateState where
  usdtToTwd : Option ℚ
  twdFetchStatus : FetchStatus
  deriving DecidableEq, Repr

/-- The rate state of a freshly mounted component: `useState(null)` and
`useState("loading")`. -/
def initialRateState : RateState :=
  { usdtToTwd := none, twdFetchStatus := .loading }

/-- What one call of `fetchExchangeRate` meets: `fetch` or `response.json()`
throws (`rejected`), the response is not `ok` (`notOk`), or a body arrives, with
the number `data?.rates?.TWD` holds (`body`, `none` when there is none). -/
inductive FetchOutcome where
  | rejected
  | notOk
  | body (twd : Option ℚ)
  deriving DecidableEq, Repr

/-- One call of `fetchExchangeRate` run to its end: the rate is stored when
the body holds a truthy `rates.TWD`; every other outcome ends in the `catch`
block, which calls `setUsdtToTwd(null)`. -/
def fetchExchangeRate (outcome : FetchOutcome) (s : RateState) : RateState :=
  -- setTwdFetchStatus("loading")
  let s := { s with twdFetchStatus := .loading }
  match outcome with
  | .body (some twd) =>
    if twd ≠ 0 then { s with usdtToTwd := some twd, twdFetchStatus := .success }
    else { s with usdtToTwd := none, twdFetchStatus := .error }
  | _ => { s with usdtToTwd := none, twdFetchStatus := .error }

/-- The fetches at start-up and on the hourly timer, one after the other. -/
def runFetches (outcomes : List FetchOutcome) (s : RateState) : RateState :=
  outcomes.foldl (fun acc outcome => fetchExchangeRate outcome acc) s

/-! ## Notions the claims are stated with -/

/-- The first end-to-end example of the specification: short, funds 1000,
position 10%, entry price 60000, manual leverage 10, target price 58000 (the
text fields as the form holds them, the percentage as a number). -/
def example1 : Inputs :=
  { direction := .short, manualLeverageInput := .str "10", fundsInput := .str "1000",
    positionPercent := .num 10, entryPriceInput := .str "60000", liqPresetInput := .str "",
    targetPriceInput := .str "58000", usdtToTwd := none }

/-- The text `performCalculations` gives to `setMargin` once the funds are
valid. -/
def marginText (inp : Inputs) : Text :=
  if truthy inp.parsedFunds && truthy inp.parsedPosPercent
  then toFixed (calcMargin inp.parsedFunds inp.parsedPosPercent) 2
  else .fixed false 0 2

/-- The outcome of step 3 on the inputs. -/
def resolution (inp : Inputs) : Resolution :=
  resolveLeverage inp.direction inp.manualLeverageInput inp.parsedEntry inp.parsedLiqPreset

/-- The text `performCalculations` gives to `setPositionSize` when step 3
ends without an error. -/
def sizeText (inp : Inputs) : Text :=
  if decide (calcMargin inp.parsedFunds inp.parsedPosPercent > 0) &&
      (resolution inp).leverageToUse.isSome && truthy inp.parsedEntry
  then toFixed (calcSize (calcMargin inp.parsedFunds inp.parsedPosPercent)
    (resolution inp).leverageToUse inp.parsedEntry) 6
  else .fixed false 0 6


/-- The number a raw value stands for when `parseValidFloat` looks at it: the
number itself, or what `parseFloat` reads at the head of the trimmed text of a
string that is not blank; `none` for `NaN`, for a value of another type, for a
blank string and for a text that starts with no numeral. -/
def readsAs : JsValue → Option ℚ
  | .num v => some v
  | .nan => none
  | .other _ => none
  | .str s => if jsTrim s.data = [] then none else parseFloatChars (jsTrim s.data)

/-- The number a string is a representation of, in the words of the
specification ("a string representation" of a number, white space around it
allowed): a decimal literal takes the whole trimmed text; `none` for every
other string. -/
def representsNumber (s : String) : Option ℚ :=
  match scanFloat (jsTrim s.data) with
  | some (neg, m, e, []) => some (literalValue neg m e)
  | _ => none

/-- The validity test of `parseValidFloat` on a number: the sign condition
`allowZero ? v >= 0 : v > 0` and both bounds. -/
def withinLimits (v : ℚ) (min max : Option ℚ) (allowZero : Bool) : Bool :=
  (if allowZero then decide (0 ≤ v) else decide (0 < v)) && geMin v min && leMax v max

/-- The rate a fetch outcome delivers when it is a success in the words of the
specification ("success with rate r"): a body with a rate that is not zero;
`none` for a failure. -/
def FetchOutcome.successRate : FetchOutcome → Option ℚ
  | .body (some twd) => if twd ≠ 0 then some twd else none
  | _ => none

/-- The rate of the most recent success in a sequence of fetch outcomes, in
the words of the specification ("last successful value"); `none` when no
outcome is a success. -/
def lastSuccessRate (outcomes : List FetchOutcome) : Option ℚ :=
  outcomes.reverse.findSome? FetchOutcome.successRate

/-! ## The double-precision embedding

The definitions above compute with exact rationals. The definitions of this
section follow the same source lines with the numbers of JavaScript: IEEE 754
binary64 values, every operation rounded to the nearest value (ties to even),
with overflow to `Infinity`, gradual underflow, and `NaN`. The sign of zero is
not kept (no operation of the calculator divides by a zero). Their names end
in `D`. -/

/-- A value of the type Number: `NaN`, `Infinity` or `-Infinity`, or a finite
number, given by its exact value. -/
inductive Dbl where
  | nan
  | inf (neg : Bool)
  | fin (q : ℚ)
  deriving DecidableEq, Repr

/-- The integer nearest to `y`, the even one on a tie. -/
def roundHalfEven (y : ℚ) : ℤ :=
  if y - ⌊y⌋ < 1 / 2 then ⌊y⌋
  else if 1 / 2 < y - ⌊y⌋ then ⌊y⌋ + 1
  else if ⌊y⌋ % 2 = 0 then ⌊y⌋
  else ⌊y⌋ + 1

/-- The spacing of the binary64 values around the magnitude `a`: 52 binary
places below its leading bit, and `2 ^ (-1074)` below `2 ^ (-1022)`. -/
def quantum (a : ℚ) : ℚ :=
  (2 : ℚ) ^ (max (Int.log 2 a) (-1022) - 52)

/-- The magnitude `a` rounded to a multiple of the spacing around it. -/
def roundMagnitude (a : ℚ) : ℚ :=
  (roundHalfEven (a / quantum a) : ℚ) * quantum a

/-- The binary64 value a real number rounds to: the nearest one, the even one
on a tie, and an infinity from `2 ^ 1024` on. -/
def roundToDouble (x : ℚ) : Dbl :=
  if (2 : ℚ) ^ 1024 ≤ roundMagnitude |x| then .inf (decide (x < 0))
  else .fin (if x < 0 then -roundMagnitude |x| else roundMagnitude |x|)

/-- Unary minus. -/
def Dbl.neg : Dbl → Dbl
  | .nan => .nan
  | .inf s => .inf (!s)
  | .fin x => .fin (-x)

/-- The operator `+`. -/
def Dbl.add : Dbl → Dbl → Dbl
  | .nan, _ => .nan
  | _, .nan => .nan
  | .inf s, .inf t => if s = t then .inf s else .nan
  | .inf s, .fin _ => .inf s
  | .fin _, .inf t => .inf t
  | .fin x, .fin y => roundToDouble (x + y)

/-- The operator `-`. -/
def Dbl.sub (a b : Dbl) : Dbl := a.add b.neg

/-- The operator `*`. -/
def Dbl.mul : Dbl → Dbl → Dbl
  | .nan, _ => .nan
  | _, .nan => .nan
  | .inf s, .inf t => .inf (s != t)
  | .inf s, .fin y => if y = 0 then .nan else .inf (s != decide (y < 0))
  | .fin x, .inf t => if x = 0 then .nan else .inf (decide (x < 0) != t)
  | .fin x, .fin y => roundToDouble (x * y)

/-- The operator `/` (a zero divisor counts as positive). -/
def Dbl.div : Dbl → Dbl → Dbl
  | .nan, _ => .nan
  | _, .nan => .nan
  | .inf _, .inf _ => .nan
  | .inf s, .fin y => .inf (s != decide (y < 0))
  | .fin _, .inf _ => .fin 0
  | .fin x, .fin y =>
    if y = 0 then (if x = 0 then .nan else .inf (decide (x < 0)))
    else roundToDouble (x / y)

/-- The function `Math.abs`. -/
def Dbl.abs : Dbl → Dbl
  | .nan => .nan
  | .inf _ => .inf false
  | .fin x => .fin |x|

/-- The operator `<`. -/
def Dbl.lt : Dbl → Dbl → Bool
  | .nan, _ => false
  | _, .nan => false
  | .inf s, .inf t => s && !t
  | .inf s, .fin _ => s
  | .fin _, .inf t => !t
  | .fin x, .fin y => decide (x < y)

/-- The operator `<=`. -/
def Dbl.le : Dbl → Dbl → Bool
  | .nan, _ => false
  | _, .nan => false
  | .inf s, .inf t => s || !t
  | .inf s, .fin _ => s
  | .fin _, .inf t => !t
  | .fin x, .fin y => decide (x ≤ y)

/-- The operator `>`. -/
def Dbl.gt (a b : Dbl) : Bool := b.lt a

/-- The operator `>=`. -/
def Dbl.ge (a b : Dbl) : Bool := b.le a

/-- The function `isNaN` on a number. -/
def Dbl.isNaN : Dbl → Bool
  | .nan => true
  | _ => false

/-- The constant `MIN_LEVERAGE`. -/
def MIN_LEVERAGE_D : Dbl := .fin 1
/-- The constant `MAX_LEVERAGE`. -/
def MAX_LEVERAGE_D : Dbl := .fin 125
/-- The constant `MAINT_MARGIN_RATE`: the literal `0.004`. -/
def MAINT_MARGIN_RATE_D : Dbl := roundToDouble (4 / 1000)
/-- The state `feeRate`, `DEFAULT_FEE_RATE`: the literal `0.0005`. -/
def feeRateD : Dbl := roundToDouble (5 / 10000)
/-- The literal `0.01`, the lower bound of funds and prices. -/
def CENT_D : Dbl := roundToDouble (1 / 100)
/-- The literal `1e-9`. -/
def EPSILON_D : Dbl := roundToDouble (1 / 10 ^ 9)

/-- A raw JavaScript value: a number (`NaN` and the infinities included), a
string, or a value of another type (with the text `ToString` gives for it). -/
inductive JsValueD where
  | num (d : Dbl)
  | str (s : String)
  | other (text : String)
  deriving DecidableEq, Repr

/-- The characters of the literal `Infinity`. -/
def infinityChars : List Char := ['I', 'n', 'f', 'i', 'n', 'i', 't', 'y']

/-- The literal `Infinity` at the head of `cs`, white space skipped, with an
optional sign: the sign, or `none` when the text does not start with it. -/
def scanInfinity (cs : List Char) : Option Bool :=
  match cs.dropWhile isJsWhiteSpace with
  | [] => none
  | c :: ds =>
    if c = '-' then (if infinityChars.isPrefixOf ds then some true else none)
    else if c = '+' then (if infinityChars.isPrefixOf ds then some false else none)
    else if infinityChars.isPrefixOf (c :: ds) then some false
    else none

/-- The global `parseFloat` on the characters of a string: the number the
longest decimal literal at the head of the text rounds to, an infinity for
the literal `Infinity`, `NaN` when the text starts with neither. -/
def parseFloatCharsD (cs : List Char) : Dbl :=
  match scanFloat cs with
  | some (neg, m, e, _) => roundToDouble (literalValue neg m e)
  | none =>
    match scanInfinity cs with
    | some neg => .inf neg
    | none => .nan

/-- The global `parseFloat` applied to a raw value (`ToString` first). -/
def parseFloatD : JsValueD → Dbl
  | .num d => d
  | .str s => parseFloatCharsD s.data
  | .other text => parseFloatCharsD text.data

/-- The function `parseValidFloat(value, min, max, allowZero)`; the defaults of
`min` and `max` are `.inf true` and `.inf false`. -/
def parseValidFloatD (value : JsValueD) (min max : Dbl) (allowZero : Bool) : Option Dbl :=
  match value with
  | .num d =>
    if d.isNaN then none
    else if (if allowZero then d.ge (.fin 0) else d.gt (.fin 0)) && d.ge min && d.le max
    then some d
    else none
  | .other _ => none
  | .str s =>
    if jsTrim s.data = [] then none
    else
      if (parseFloatCharsD (jsTrim s.data)).isNaN ||
          (!allowZero && (parseFloatCharsD (jsTrim s.data)).le (.fin 0)) ||
          (allowZero && (parseFloatCharsD (jsTrim s.data)).lt (.fin 0)) ||
          (parseFloatCharsD (jsTrim s.data)).lt min ||
          (parseFloatCharsD (jsTrim s.data)).gt max
      then none
      else some (parseFloatCharsD (jsTrim s.data))

/-- Truthiness of a parsed value: `null`, `0` and `NaN` are falsy. -/
def truthyD : Option Dbl → Bool
  | none => false
  | some .nan => false
  | some (.inf _) => true
  | some (.fin x) => decide (x ≠ 0)

/-- A text written from a number: one of the texts of `Text`, or `"NaN"`,
`"Infinity"`, `"-Infinity"`. -/
inductive TextD where
  | text (t : Text)
  | nanText
  | infinityText (neg : Bool)
  deriving DecidableEq, Repr

/-- The method `Number.prototype.toFixed` on a number. -/
def toFixedD (d : Dbl) (digits : Nat) : TextD :=
  match d with
  | .nan => .nanText
  | .inf s => .infinityText s
  | .fin x => .text (toFixed x digits)

/-- The messages `performCalculations` passes to `setError` (see `CalcError`). -/
inductive CalcErrorD where
  | invalidFunds
  | leverageOutOfRange
  | longLiqNotBelowEntry
  | shortLiqNotAboveEntry
  | derivedOutOfRange (shown : TextD)
  | cannotDerive
  deriving DecidableEq, Repr

/-- The record passed to `setCalculationResult`. -/
structure CalcResultD where
  grossPnl : TextD
  totalFee : TextD
  netPnl : TextD
  netPnlTwd : TextD
  rRatio : TextD
  actualLiqPrice : TextD
  deriving DecidableEq, Repr

/-- The inputs `performCalculations` reads. -/
structure InputsD where
  direction : Direction
  manualLeverageInput : JsValueD
  fundsInput : JsValueD
  positionPercent : JsValueD
  entryPriceInput : JsValueD
  liqPresetInput : JsValueD
  targetPriceInput : JsValueD
  usdtToTwd : Option Dbl
  deriving DecidableEq, Repr

/-- The state `performCalculations` writes. -/
structure StateD where
  error : Option CalcErrorD
  margin : TextD
  derivedLeverage : Option Dbl
  finalLeverage : Option Dbl
  positionSize : TextD
  calculationResult : Option CalcResultD
  deriving DecidableEq, Repr

/-- The state of a freshly mounted component. -/
def initialResultStateD : StateD :=
  { error := none, margin := .text (.fixed false 0 2), derivedLeverage := none,
    finalLeverage := none, positionSize := .text (.fixed false 0 6),
    calculationResult := none }

/-- The flag `isLeverageManuallySet`. -/
def isLeverageManuallySetD (manualLeverageInput : JsValueD) : Bool :=
  decide (manualLeverageInput ≠ .str "") && !(parseFloatD manualLeverageInput).isNaN

/-- What step 3 leaves behind (see `Resolution`). -/
structure ResolutionD where
  currentError : Option CalcErrorD
  leverageToUse : Option Dbl
  derivedLeverage : Option Dbl
  deriving DecidableEq, Repr

/-- The denominator of the leverage derivation:
`1 + MAINT_MARGIN_RATE - parsedLiqPreset / parsedEntry` for `long`,
`parsedLiqPreset / parsedEntry - 1 + MAINT_MARGIN_RATE` otherwise. -/
def derivationDenominatorD (direction : Direction) (parsedEntry parsedLiqPreset : Dbl) : Dbl :=
  if direction = .long then
    ((Dbl.fin 1).add MAINT_MARGIN_RATE_D).sub (parsedLiqPreset.div parsedEntry)
  else ((parsedLiqPreset.div parsedEntry).sub (.fin 1)).add MAINT_MARGIN_RATE_D

/-- Step 3 of `performCalculations`. -/
def resolveLeverageD (direction : Direction) (manualLeverageInput : JsValueD)
    (parsedEntry parsedLiqPreset : Option Dbl) : ResolutionD :=
  if isLeverageManuallySetD manualLeverageInput then
    match parseValidFloatD manualLeverageInput MIN_LEVERAGE_D MAX_LEVERAGE_D false with
    | none => { currentError := some .leverageOutOfRange, leverageToUse := none,
                derivedLeverage := none }
    | some parsedManualLeverage =>
      { currentError := none, leverageToUse := some parsedManualLeverage,
        derivedLeverage := none }
  else
    match parsedEntry, parsedLiqPreset with
    | some entry, some liqPreset =>
      if truthyD (some entry) && truthyD (some liqPreset) then
        if direction = .long ∧ liqPreset.ge entry = true then
          { currentError := some .longLiqNotBelowEntry, leverageToUse := none,
            derivedLeverage := none }
        else if direction = .short ∧ liqPreset.le entry = true then
          { currentError := some .shortLiqNotAboveEntry, leverageToUse := none,
            derivedLeverage := none }
        else
          let denominator := derivationDenominatorD direction entry liqPreset
          if denominator.le EPSILON_D = true then
            { currentError := some .cannotDerive, leverageToUse := none,
              derivedLeverage := none }
          else
            let calculatedDerivedLev := (Dbl.fin 1).div denominator
            if calculatedDerivedLev.lt MIN_LEVERAGE_D = true ∨
                calculatedDerivedLev.gt MAX_LEVERAGE_D = true then
              { currentError := some (.derivedOutOfRange (toFixedD calculatedDerivedLev 2)),
                leverageToUse := none, derivedLeverage := some calculatedDerivedLev }
            else
              { currentError := none, leverageToUse := some calculatedDerivedLev,
                derivedLeverage := some calculatedDerivedLev }
      else { currentError := none, leverageToUse := none, derivedLeverage := none }
    | _, _ => { currentError := none, leverageToUse := none, derivedLeverage := none }

/-- Step 2: the local `calculatedMargin`. -/
def calcMarginD (parsedFunds parsedPosPercent : Option Dbl) : Dbl :=
  match parsedFunds, parsedPosPercent with
  | some funds, some percent =>
    if truthyD (some funds) && truthyD (some percent) then (funds.mul percent).div (.fin 100)
    else .fin 0
  | _, _ => .fin 0

/-- Step 4: the local `calculatedSize`. -/
def calcSizeD (calculatedMargin : Dbl) (leverageToUse parsedEntry : Option Dbl) : Dbl :=
  match leverageToUse, parsedEntry with
  | some leverage, some entry =>
    if calculatedMargin.gt (.fin 0) && truthyD (some entry) then
      (calculatedMargin.mul leverage).div entry
    else .fin 0
  | _, _ => .fin 0

/-- The local `liqP` of step 5:
`parsedEntry * (1 - 1 / leverageToUse + MAINT_MARGIN_RATE)` for `long`,
`parsedEntry * (1 + 1 / leverageToUse - MAINT_MARGIN_RATE)` otherwise. -/
def liqPriceD (direction : Direction) (parsedEntry leverageToUse : Dbl) : Dbl :=
  if direction = .long then
    parsedEntry.mul ((((Dbl.fin 1).sub ((Dbl.fin 1).div leverageToUse))).add MAINT_MARGIN_RATE_D)
  else
    parsedEntry.mul ((((Dbl.fin 1).add ((Dbl.fin 1).div leverageToUse))).sub MAINT_MARGIN_RATE_D)

/-- The local `actualLiqPriceNum` of step 5: `liqP` when `liqP > 0`, `NaN`
otherwise. -/
def actualLiqPriceNumD (direction : Direction) (parsedEntry leverageToUse : Dbl) : Dbl :=
  if (liqPriceD direction parsedEntry leverageToUse).gt (.fin 0)
  then liqPriceD direction parsedEntry leverageToUse
  else .nan

/-- The local `totalRisk` of step 5. -/
def totalRiskD (direction : Direction) (calculatedSize entryValue entryFee liqPrice : Dbl) :
    Dbl :=
  let riskExitValue := calculatedSize.mul liqPrice
  let potentialLossAmount :=
    if direction = .long then entryValue.sub riskExitValue else riskExitValue.sub entryValue
  let riskEntryFee := entryFee
  let riskExitFee := riskExitValue.mul feeRateD
  (potentialLossAmount.add riskEntryFee).add riskExitFee

/-- The local `rRatio` of step 5. -/
def riskRewardTextD (direction : Direction) (calculatedSize entryValue entryFee netPnl : Dbl)
    (actualLiq : Dbl) : TextD :=
  if actualLiq.isNaN then .text .na
  else if (totalRiskD direction calculatedSize entryValue entryFee actualLiq).gt EPSILON_D then
    toFixedD (netPnl.abs.div (totalRiskD direction calculatedSize entryValue entryFee actualLiq)) 2
  else if netPnl.gt (.fin 0) then .text .infinite
  else .text .na

/-- The locals of step 5 that the result record is written from. -/
structure PnlLocalsD where
  actualLiq : Dbl
  entryValue : Dbl
  exitValue : Dbl
  grossPnl : Dbl
  totalFee : Dbl
  netPnl : Dbl
  deriving DecidableEq, Repr

/-- The locals of step 5 for a position of `calculatedSize`. -/
def pnlLocalsD (direction : Direction)
    (calculatedSize leverageToUse parsedEntry parsedTarget : Dbl) : PnlLocalsD :=
  let entryValue := calculatedSize.mul parsedEntry
  let exitValue := calculatedSize.mul parsedTarget
  let grossPnl :=
    if direction = .long then exitValue.sub entryValue else entryValue.sub exitValue
  let entryFee := entryValue.mul feeRateD
  let exitFee := exitValue.mul feeRateD
  let totalFee := entryFee.add exitFee
  { actualLiq := actualLiqPriceNumD direction parsedEntry leverageToUse,
    entryValue := entryValue, exitValue := exitValue, grossPnl := grossPnl,
    totalFee := totalFee, netPnl := grossPnl.sub totalFee }

/-- The record step 5 passes to `setCalculationResult`. -/
def pnlResultD (direction : Direction) (usdtToTwd : Option Dbl)
    (calculatedSize leverageToUse parsedEntry parsedTarget : Dbl) : CalcResultD :=
  let l := pnlLocalsD direction calculatedSize leverageToUse parsedEntry parsedTarget
  { grossPnl := toFixedD l.grossPnl 2,
    totalFee := toFixedD l.totalFee 2,
    netPnl := toFixedD l.netPnl 2,
    netPnlTwd :=
      match usdtToTwd with
      | some rate => toFixedD (l.netPnl.mul rate) 2
      | none => .text .na,
    rRatio := riskRewardTextD direction calculatedSize l.entryValue (l.entryValue.mul feeRateD)
      l.netPnl l.actualLiq,
    actualLiqPrice :=
      if l.actualLiq.isNaN then .text .na else toFixedD l.actualLiq 2 }

/-- Step 5 as a whole. -/
def calcPnlD (direction : Direction) (usdtToTwd : Option Dbl) (calculatedSize : Dbl)
    (leverageToUse parsedEntry parsedTarget : Option Dbl) : Option CalcResultD :=
  match leverageToUse, parsedEntry, parsedTarget with
  | some leverage, some entry, some target =>
    if calculatedSize.gt (.fin 0) && truthyD (some entry) && truthyD (some target) then
      some (pnlResultD direction usdtToTwd calculatedSize leverage entry target)
    else none
  | _, _, _ => none

/-- The local `parsedFunds`. -/
def InputsD.parsedFunds (inp : InputsD) : Option Dbl :=
  parseValidFloatD inp.fundsInput CENT_D (.inf false) false

/-- The local `parsedPosPercent`. -/
def InputsD.parsedPosPercent (inp : InputsD) : Option Dbl :=
  parseValidFloatD inp.positionPercent (.fin 1) (.fin 100) false

/-- The local `parsedEntry`. -/
def InputsD.parsedEntry (inp : InputsD) : Option Dbl :=
  parseValidFloatD inp.entryPriceInput CENT_D (.inf false) false

/-- The local `parsedLiqPreset`. -/
def InputsD.parsedLiqPreset (inp : InputsD) : Option Dbl :=
  parseValidFloatD inp.liqPresetInput CENT_D (.inf false) false

/-- The local `parsedTarget`. -/
def InputsD.parsedTarget (inp : InputsD) : Option Dbl :=
  parseValidFloatD inp.targetPriceInput CENT_D (.inf false) false

/-- The callback `performCalculations` on the numbers of JavaScript, from the
state before it runs to the state after it. -/
def performCalculationsD (inp : InputsD) (st : StateD) : StateD :=
  let st := { st with error := none, derivedLeverage := none, finalLeverage := none,
                      calculationResult := none }
  let parsedFunds := inp.parsedFunds
  let parsedPosPercent := inp.parsedPosPercent
  let parsedEntry := inp.parsedEntry
  let parsedLiqPreset := inp.parsedLiqPreset
  let parsedTarget := inp.parsedTarget
  if !(truthyD parsedFunds) then
    { st with error := some .invalidFunds }
  else
    let calculatedMargin := calcMarginD parsedFunds parsedPosPercent
    let marginText :=
      if truthyD parsedFunds && truthyD parsedPosPercent then toFixedD calculatedMargin 2
      else .text (.fixed false 0 2)
    let st := { st with margin := marginText }
    let r := resolveLeverageD inp.direction inp.manualLeverageInput parsedEntry parsedLiqPreset
    let st := { st with derivedLeverage := r.derivedLeverage }
    if r.currentError.isSome then
      { st with error := r.currentError }
    else
      let st := { st with finalLeverage := r.leverageToUse }
      let calculatedSize := calcSizeD calculatedMargin r.leverageToUse parsedEntry
      let sizeText :=
        if calculatedMargin.gt (.fin 0) && r.leverageToUse.isSome && truthyD parsedEntry
        then toFixedD calculatedSize 6
        else .text (.fixed false 0 6)
      let st := { st with positionSize := sizeText }
      let result :=
        calcPnlD inp.direction inp.usdtToTwd calculatedSize r.leverageToUse parsedEntry parsedTarget
      let st := { st with calculationResult := result }
      { st with error := r.currentError }

/-- The number a raw value stands for when `parseValidFloat` reads it: a number
other than `NaN` stands for itself, a string that is not blank for the number
`parseFloat` reads at the head of its trimmed text; `none` when there is no
such number. -/
def readsAsD : JsValueD → Option Dbl
  | .num d => if d.isNaN then none else some d
  | .other _ => none
  | .str s =>
    if jsTrim s.data = [] then none
    else if (parseFloatCharsD (jsTrim s.data)).isNaN then none
    else some (parseFloatCharsD (jsTrim s.data))

/-- The validity test of `parseValidFloat` on a number: the sign condition
`allowZero ? v >= 0 : v > 0` and both bounds. -/
def withinLimitsD (d min max : Dbl) (allowZero : Bool) : Bool :=
  (if allowZero then d.ge (.fin 0) else d.gt (.fin 0)) && d.ge min && d.le max

/-- The inputs of a leverage round trip: funds of 1000 at 10%, no manual
leverage, the entry price `entry`, and as preset liquidation price the price
the forward formula of `performCalculations` gives for `entry` and
`leverage`. -/
def roundTripInputsD (direction : Direction) (entry leverage : Dbl) : InputsD :=
  { direction := direction, manualLeverageInput := .str "", fundsInput := .num (.fin 1000),
    positionPercent := .num (.fin 10), entryPriceInput := .num entry,
    liqPresetInput := .num (liqPriceD direction entry leverage), targetPriceInput := .str "",
    usdtToTwd := none }

/-- The first end-to-end example of the specification, as the component holds
it: the text fields as strings, the percentage as a number. -/
def example1D : InputsD :=
  { direction := .short, manualLeverageInput := .str "10", fundsInput := .str "1000",
    positionPercent := .num (.fin 10), entryPriceInput := .str "60000",
    liqPresetInput := .str "", targetPriceInput := .str "58000", usdtToTwd := none }

/-- The first example with funds of `1e308` at 100% and the leverage 125. -/
def overflowInputsD : InputsD :=
  { direction := .short, manualLeverageInput := .str "125", fundsInput := .str "1e308",
    positionPercent := .num (.fin 100), entryPriceInput := .str "60000",
    liqPresetInput := .str "", targetPriceInput := .str "58000", usdtToTwd := none }

/-! ## Lemmas on the built-ins and on `parseValidFloat` -/

theorem dropWhile_append_of_all {p : Char → Bool} (pre cs : List Char)
    (h : ∀ c ∈ pre, p c = true) : (pre ++ cs).dropWhile p = cs.dropWhile p := by
  induction pre with
  | nil => rfl
  | cons a t ih =>
    have ha : p a = true := h a (List.mem_cons_self a t)
    have ht : ∀ c ∈ t, p c = true := fun c hc => h c (List.mem_cons_of_mem a hc)
    simp [List.dropWhile, ha, ih ht]

theorem dropWhile_append_of_ne_nil {p : Char → Bool} (cs post : List Char)
    (h : cs.dropWhile p ≠ []) : (cs ++ post).dropWhile p = cs.dropWhile p ++ post := by
  induction cs with
  | nil => simp at h
  | cons a t ih =>
    by_cases ha : p a = true
    · simp only [List.dropWhile, ha, List.cons_append] at h ⊢
      exact ih h
    · simp [List.dropWhile, ha]

theorem dropWhile_eq_nil_of_all {p : Char → Bool} (cs : List Char)
    (h : ∀ c ∈ cs, p c = true) : cs.dropWhile p = [] := by
  have := dropWhile_append_of_all cs [] h
  simpa using this

/-- White space around a text does not change what `trim` returns. -/
theorem jsTrim_pad (pre cs post : List Char)
    (hpre : ∀ c ∈ pre, isJsWhiteSpace c = true) (hpost : ∀ c ∈ post, isJsWhiteSpace c = true) :
    jsTrim (pre ++ cs ++ post) = jsTrim cs := by
  unfold jsTrim
  rw [List.append_assoc, dropWhile_append_of_all pre _ hpre]
  by_cases hcs : cs.dropWhile isJsWhiteSpace = []
  · have hall : ∀ c ∈ cs ++ post, isJsWhiteSpace c = true := by
      intro c hc
      rcases List.mem_append.1 hc with h | h
      · by_contra hne
        have := List.dropWhile_eq_nil_iff.1 hcs c h
        exact hne this
      · exact hpost c h
    rw [dropWhile_eq_nil_of_all _ hall, hcs]
  · rw [dropWhile_append_of_ne_nil cs post hcs, List.reverse_append,
      dropWhile_append_of_all post.reverse _ (by
        intro c hc
        exact hpost c (List.mem_reverse.1 hc))]

theorem parseValidFloat_num (v : ℚ) (min max : Option ℚ) (allowZero : Bool) :
    parseValidFloat (.num v) min max allowZero =
      if (if allowZero then decide (0 ≤ v) else decide (0 < v)) && geMin v min && leMax v max
      then some v else none := rfl

/-- Every value `parseValidFloat` returns passed the sign test and both
bounds. -/
theorem parseValidFloat_some {value : JsValue} {min max : Option ℚ} {allowZero : Bool} {r : ℚ}
    (h : parseValidFloat value min max allowZero = some r) :
    (if allowZero then 0 ≤ r else 0 < r) ∧ geMin r min = true ∧ leMax r max = true := by
  cases value with
  | num v =>
    rw [parseValidFloat_num] at h
    by_cases hc : ((if allowZero then decide (0 ≤ v) else decide (0 < v)) && geMin v min &&
        leMax v max) = true
    · rw [if_pos hc] at h
      cases h
      simp only [Bool.and_eq_true] at hc
      refine ⟨?_, hc.1.2, hc.2⟩
      cases allowZero <;> simpa using hc.1.1
    · rw [if_neg hc] at h
      cases h
  | nan => cases h
  | other t => cases h
  | str s =>
    unfold parseValidFloat at h
    simp only at h
    split at h
    · cases h
    · split at h
      · cases h
      · rename_i num hnum
        split at h
        · cases h
        · rename_i hc
          cases h
          simp only [Bool.or_eq_true, Bool.and_eq_true, Bool.not_eq_true', decide_eq_true_eq,
            not_or, not_and, Bool.not_eq_false] at hc
          obtain ⟨⟨⟨h1, h2⟩, h3⟩, h4⟩ := hc
          refine ⟨?_, by simpa using h3, by simpa using h4⟩
          cases allowZero
          · simpa using h1
          · simpa using h2

theorem parseValidFloat_pos {value : JsValue} {min max : Option ℚ} {r : ℚ}
    (h : parseValidFloat value min max false = some r) : 0 < r := by
  simpa using (parseValidFloat_some h).1

theorem truthy_of_parse {value : JsValue} {min max : Option ℚ} {r : ℚ}
    (h : parseValidFloat value min max false = some r) : truthy (some r) = true := by
  have := parseValidFloat_pos h
  simp [truthy, this.ne.symm]

theorem truthy_eq_true_iff {x : Option ℚ} : truthy x = true ↔ ∃ r, x = some r ∧ r ≠ 0 := by
  cases x <;> simp [truthy]

theorem scanFloat_ne_nil {cs : List Char} {r : Bool × Nat × Int × List Char}
    (h : scanFloat cs = some r) : cs ≠ [] := by
  intro hcs
  subst hcs
  simp [scanFloat] at h

/-- On every raw value `parseValidFloat` is the validity test applied to the
number the value stands for. -/
theorem parseValidFloat_eq (value : JsValue) (min max : Option ℚ) (allowZero : Bool) :
    parseValidFloat value min max allowZero =
      match readsAs value with
      | none => none
      | some v => if withinLimits v min max allowZero = true then some v else none := by
  cases value with
  | num v => rfl
  | nan => rfl
  | other t => rfl
  | str s =>
    unfold parseValidFloat readsAs
    simp only
    by_cases hb : jsTrim s.data = []
    · simp only [hb, if_true]
    · simp only [hb, if_false]
      cases hp : parseFloatChars (jsTrim s.data) with
      | none => rfl
      | some num =>
        simp only
        have hcond : ((!allowZero && decide (num ≤ 0)) || (allowZero && decide (num < 0)) ||
            !geMin num min || !leMax num max) = !withinLimits num min max allowZero := by
          unfold withinLimits
          have e1 : decide (num ≤ 0) = !decide (0 < num) := by
            by_cases h : 0 < num <;> simp [h, not_lt.1, le_of_not_lt]
          have e2 : decide (num < 0) = !decide (0 ≤ num) := by
            by_cases h : 0 ≤ num <;> simp [h, not_le.1, lt_of_not_le]
          cases allowZero <;> cases geMin num min <;> cases leMax num max <;> simp [e1, e2]
        rw [hcond]
        cases withinLimits num min max allowZero <;> rfl

/-- A string whose numeral is outside the limits is rejected. -/
theorem parseValidFloat_str_rejected (s : String) (neg : Bool) (m : Nat) (e : Int)
    (rest : List Char) (v : ℚ) {min max : Option ℚ} {allowZero : Bool}
    (hscan : scanFloat (jsTrim s.data) = some (neg, m, e, rest))
    (hv : literalValue neg m e = v) (hlim : withinLimits v min max allowZero = false) :
    parseValidFloat (.str s) min max allowZero = none := by
  have hne := scanFloat_ne_nil hscan
  rw [parseValidFloat_eq]
  simp only [readsAs, hne, if_false, parseFloatChars, hscan, hv, hlim, Bool.false_eq_true]

theorem readsAs_of_representsNumber {s : String} {v : ℚ} (h : representsNumber s = some v) :
    readsAs (.str s) = some v := by
  unfold representsNumber at h
  split at h
  · rename_i neg m e hscan
    cases h
    have hne := scanFloat_ne_nil hscan
    simp only [readsAs, hne, if_false, parseFloatChars, hscan]
  · cases h

theorem parseValidFloat_str_of_scan (s : String) (neg : Bool) (m : Nat) (e : Int)
    (rest : List Char) {v : ℚ} {min max : Option ℚ} {allowZero : Bool}
    (hscan : scanFloat (jsTrim s.data) = some (neg, m, e, rest))
    (hv : literalValue neg m e = v) (hlim : withinLimits v min max allowZero = true) :
    parseValidFloat (.str s) min max allowZero = some v := by
  have hne := scanFloat_ne_nil hscan
  rw [parseValidFloat_eq]
  simp only [readsAs, hne, if_false, parseFloatChars, hscan, hv, hlim, if_true]

/-! ## The shape of the state `performCalculations` leaves -/

/-- Invalid funds: the early return after `setError`. -/
theorem performCalculations_invalidFunds (inp : Inputs) (st : State)
    (h : truthy inp.parsedFunds = false) :
    performCalculations inp st =
      { error := some .invalidFunds, margin := st.margin, derivedLeverage := none,
        finalLeverage := none, positionSize := st.positionSize, calculationResult := none } := by
  simp [performCalculations, h]

/-- Valid funds and an error in step 3: the early return after `setError`. -/
theorem performCalculations_leverageError (inp : Inputs) (st : State) (e : CalcError)
    (h : truthy inp.parsedFunds = true) (he : (resolution inp).currentError = some e) :
    performCalculations inp st =
      { error := some e, margin := marginText inp,
        derivedLeverage := (resolution inp).derivedLeverage,
        finalLeverage := none, positionSize := st.positionSize, calculationResult := none } := by
  unfold resolution at he
  simp [performCalculations, h, he, marginText, resolution]

/-- Valid funds and no error in step 3: the run to the end. -/
theorem performCalculations_noError (inp : Inputs) (st : State)
    (h : truthy inp.parsedFunds = true) (he : (resolution inp).currentError = none) :
    performCalculations inp st =
      { error := none, margin := marginText inp,
        derivedLeverage := (resolution inp).derivedLeverage,
        finalLeverage := (resolution inp).leverageToUse,
        positionSize := sizeText inp,
        calculationResult :=
          calcPnl inp.direction inp.usdtToTwd
            (calcSize (calcMargin inp.parsedFunds inp.parsedPosPercent)
              (resolution inp).leverageToUse inp.parsedEntry)
            (resolution inp).leverageToUse inp.parsedEntry inp.parsedTarget } := by
  unfold resolution at he
  simp [performCalculations, h, he, marginText, sizeText, resolution]

/-! ## The cases of the leverage resolution -/

theorem resolveLeverage_manual_invalid (direction : Direction) (manual : JsValue)
    (parsedEntry parsedLiqPreset : Option ℚ) (hm : isLeverageManuallySet manual = true)
    (hp : parseValidFloat manual (some MIN_LEVERAGE) (some MAX_LEVERAGE) false = none) :
    resolveLeverage direction manual parsedEntry parsedLiqPreset =
      { currentError := some .leverageOutOfRange, leverageToUse := none,
        derivedLeverage := none } := by
  simp [resolveLeverage, hm, hp]

theorem resolveLeverage_manual_valid (direction : Direction) (manual : JsValue)
    (parsedEntry parsedLiqPreset : Option ℚ) (l : ℚ) (hm : isLeverageManuallySet manual = true)
    (hp : parseValidFloat manual (some MIN_LEVERAGE) (some MAX_LEVERAGE) false = some l) :
    resolveLeverage direction manual parsedEntry parsedLiqPreset =
      { currentError := none, leverageToUse := some l, derivedLeverage := none } := by
  simp [resolveLeverage, hm, hp]

theorem resolveLeverage_incomplete (direction : Direction) (manual : JsValue)
    (parsedEntry parsedLiqPreset : Option ℚ) (hm : isLeverageManuallySet manual = false)
    (hi : truthy parsedEntry = false ∨ truthy parsedLiqPreset = false) :
    resolveLeverage direction manual parsedEntry parsedLiqPreset =
      { currentError := none, leverageToUse := none, derivedLeverage := none } := by
  unfold resolveLeverage
  simp only [hm, Bool.false_eq_true, if_false]
  cases parsedEntry with
  | none => cases parsedLiqPreset <;> rfl
  | some e =>
    cases parsedLiqPreset with
    | none => rfl
    | some q =>
      have : (truthy (some e) && truthy (some q)) = false := by
        rcases hi with h | h <;> simp [h]
      simp only [this, Bool.false_eq_true, if_false]

/-- The derivation proper, for a truthy entry price and preset liquidation
price and no manual leverage. -/
theorem resolveLeverage_derive (direction : Direction) (manual : JsValue) (entry liqPreset : ℚ)
    (hm : isLeverageManuallySet manual = false) (he : entry ≠ 0) (hl : liqPreset ≠ 0) :
    resolveLeverage direction manual (some entry) (some liqPreset) =
      if direction = .long ∧ liqPreset ≥ entry then
        { currentError := some .longLiqNotBelowEntry, leverageToUse := none,
          derivedLeverage := none }
      else if direction = .short ∧ liqPreset ≤ entry then
        { currentError := some .shortLiqNotAboveEntry, leverageToUse := none,
          derivedLeverage := none }
      else if derivationDenominator direction entry liqPreset ≤ 1 / 10 ^ 9 then
        { currentError := some .cannotDerive, leverageToUse := none, derivedLeverage := none }
      else if 1 / derivationDenominator direction entry liqPreset < MIN_LEVERAGE ∨
          1 / derivationDenominator direction entry liqPreset > MAX_LEVERAGE then
        { currentError :=
            some (.derivedOutOfRange (toFixed (1 / derivationDenominator direction entry liqPreset) 2)),
          leverageToUse := none,
          derivedLeverage := some (1 / derivationDenominator direction entry liqPreset) }
      else
        { currentError := none,
          leverageToUse := some (1 / derivationDenominator direction entry liqPreset),
          derivedLeverage := some (1 / derivationDenominator direction entry liqPreset) } := by
  unfold resolveLeverage
  simp only [hm, Bool.false_eq_true, if_false, truthy, he, hl, ne_eq, not_false_eq_true,
    decide_True, Bool.and_self, if_true]

/-- With a valid ordering of the two prices the denominator exceeds the
maintenance margin rate. -/
theorem derivationDenominator_gt (direction : Direction) (entry liqPreset : ℚ) (he : 0 < entry)
    (hord : (direction = .long ∧ liqPreset < entry) ∨ (direction = .short ∧ entry < liqPreset)) :
    MAINT_MARGIN_RATE < derivationDenominator direction entry liqPreset := by
  unfold derivationDenominator
  rcases hord with ⟨hd, h⟩ | ⟨hd, h⟩
  · have : liqPreset / entry < 1 := (div_lt_one he).2 h
    simp only [hd, if_true]
    linarith
  · have : 1 < liqPreset / entry := (one_lt_div he).2 h
    simp only [hd, if_false]
    rw [if_neg (by decide)]
    linarith


/-! ## What the leverage resolution guarantees -/

/-- Every leverage step 3 hands on lies between the two bounds. -/
theorem resolveLeverage_bounds (direction : Direction) (manual : JsValue)
    (parsedEntry parsedLiqPreset : Option ℚ) (l : ℚ)
    (h : (resolveLeverage direction manual parsedEntry parsedLiqPreset).leverageToUse = some l) :
    MIN_LEVERAGE ≤ l ∧ l ≤ MAX_LEVERAGE := by
  by_cases hm : isLeverageManuallySet manual = true
  · cases hp : parseValidFloat manual (some MIN_LEVERAGE) (some MAX_LEVERAGE) false with
    | none =>
      rw [resolveLeverage_manual_invalid _ _ _ _ hm hp] at h
      cases h
    | some v =>
      rw [resolveLeverage_manual_valid _ _ _ _ v hm hp] at h
      cases h
      have hb := parseValidFloat_some hp
      simpa [geMin, leMax] using hb.2
  · have hm : isLeverageManuallySet manual = false := by simpa using hm
    by_cases hi : truthy parsedEntry = false ∨ truthy parsedLiqPreset = false
    · rw [resolveLeverage_incomplete _ _ _ _ hm hi] at h
      cases h
    · simp only [not_or, Bool.not_eq_false] at hi
      obtain ⟨e, rfl, he⟩ := truthy_eq_true_iff.1 hi.1
      obtain ⟨q, rfl, hq⟩ := truthy_eq_true_iff.1 hi.2
      rw [resolveLeverage_derive _ _ _ _ hm he hq] at h
      split at h
      · cases h
      · split at h
        · cases h
        · split at h
          · cases h
          · split at h
            · cases h
            · rename_i hr
              cases h
              simpa [not_or, not_lt] using hr

/-- An error of step 3 leaves no leverage to use. -/
theorem resolveLeverage_error (direction : Direction) (manual : JsValue)
    (parsedEntry parsedLiqPreset : Option ℚ) (e : CalcError)
    (h : (resolveLeverage direction manual parsedEntry parsedLiqPreset).currentError = some e) :
    (resolveLeverage direction manual parsedEntry parsedLiqPreset).leverageToUse = none := by
  by_cases hm : isLeverageManuallySet manual = true
  · cases hp : parseValidFloat manual (some MIN_LEVERAGE) (some MAX_LEVERAGE) false with
    | none => rw [resolveLeverage_manual_invalid _ _ _ _ hm hp]
    | some v =>
      rw [resolveLeverage_manual_valid _ _ _ _ v hm hp] at h
      cases h
  · have hm : isLeverageManuallySet manual = false := by simpa using hm
    by_cases hi : truthy parsedEntry = false ∨ truthy parsedLiqPreset = false
    · rw [resolveLeverage_incomplete _ _ _ _ hm hi]
    · simp only [not_or, Bool.not_eq_false] at hi
      obtain ⟨v, rfl, he⟩ := truthy_eq_true_iff.1 hi.1
      obtain ⟨q, rfl, hq⟩ := truthy_eq_true_iff.1 hi.2
      rw [resolveLeverage_derive _ _ _ _ hm he hq] at h ⊢
      split
      · rfl
      · split
        · rfl
        · split
          · rfl
          · split
            · rfl
            · rename_i h1 h2 h3 h4
              rw [if_neg h1, if_neg h2, if_neg h3, if_neg h4] at h
              cases h

/-- Step 3 never raises the funds error. -/
theorem resolveLeverage_ne_invalidFunds (direction : Direction) (manual : JsValue)
    (parsedEntry parsedLiqPreset : Option ℚ) :
    (resolveLeverage direction manual parsedEntry parsedLiqPreset).currentError ≠
      some .invalidFunds := by
  by_cases hm : isLeverageManuallySet manual = true
  · cases hp : parseValidFloat manual (some MIN_LEVERAGE) (some MAX_LEVERAGE) false with
    | none =>
      rw [resolveLeverage_manual_invalid _ _ _ _ hm hp]
      simp
    | some v =>
      rw [resolveLeverage_manual_valid _ _ _ _ v hm hp]
      simp
  · have hm : isLeverageManuallySet manual = false := by simpa using hm
    by_cases hi : truthy parsedEntry = false ∨ truthy parsedLiqPreset = false
    · rw [resolveLeverage_incomplete _ _ _ _ hm hi]
      simp
    · simp only [not_or, Bool.not_eq_false] at hi
      obtain ⟨v, rfl, he⟩ := truthy_eq_true_iff.1 hi.1
      obtain ⟨q, rfl, hq⟩ := truthy_eq_true_iff.1 hi.2
      rw [resolveLeverage_derive _ _ _ _ hm he hq]
      split
      · simp
      · split
        · simp
        · split
          · simp
          · split <;> simp

/-- The state after `performCalculations`, whatever the inputs: the three
ways it can end. -/
theorem performCalculations_cases (inp : Inputs) (st : State) :
    (truthy inp.parsedFunds = false ∧
      performCalculations inp st =
        { error := some .invalidFunds, margin := st.margin, derivedLeverage := none,
          finalLeverage := none, positionSize := st.positionSize, calculationResult := none }) ∨
    (∃ e, truthy inp.parsedFunds = true ∧ (resolution inp).currentError = some e ∧
      (resolution inp).leverageToUse = none ∧
      performCalculations inp st =
        { error := some e, margin := marginText inp,
          derivedLeverage := (resolution inp).derivedLeverage,
          finalLeverage := none, positionSize := st.positionSize, calculationResult := none }) ∨
    (truthy inp.parsedFunds = true ∧ (resolution inp).currentError = none ∧
      performCalculations inp st =
        { error := none, margin := marginText inp,
          derivedLeverage := (resolution inp).derivedLeverage,
          finalLeverage := (resolution inp).leverageToUse,
          positionSize := sizeText inp,
          calculationResult :=
            calcPnl inp.direction inp.usdtToTwd
              (calcSize (calcMargin inp.parsedFunds inp.parsedPosPercent)
                (resolution inp).leverageToUse inp.parsedEntry)
              (resolution inp).leverageToUse inp.parsedEntry inp.parsedTarget }) := by
  cases hf : truthy inp.parsedFunds with
  | false => exact Or.inl ⟨rfl, performCalculations_invalidFunds inp st hf⟩
  | true =>
    cases he : (resolution inp).currentError with
    | some e =>
      exact Or.inr (Or.inl ⟨e, rfl, rfl, resolveLeverage_error _ _ _ _ e he,
        performCalculations_leverageError inp st e hf he⟩)
    | none => exact Or.inr (Or.inr ⟨rfl, rfl, performCalculations_noError inp st hf he⟩)

/-- A result record comes with a leverage, an entry price and a target price,
and is computed from them and the margin. -/
theorem calcPnl_some {direction : Direction} {rate : Option ℚ} {margin : ℚ}
    {leverageToUse parsedEntry parsedTarget : Option ℚ} {res : CalcResult}
    (h : calcPnl direction rate (calcSize margin leverageToUse parsedEntry) leverageToUse
      parsedEntry parsedTarget = some res) :
    ∃ l E T, leverageToUse = some l ∧ parsedEntry = some E ∧ parsedTarget = some T ∧
      E ≠ 0 ∧ T ≠ 0 ∧ 0 < margin ∧ 0 < margin * l / E ∧
      calcSize margin leverageToUse parsedEntry = margin * l / E ∧
      res = pnlResult direction rate (margin * l / E) l E T := by
  cases leverageToUse with
  | none => simp [calcPnl] at h
  | some l =>
    cases parsedEntry with
    | none => simp [calcPnl] at h
    | some E =>
      cases parsedTarget with
      | none => simp [calcPnl] at h
      | some T =>
        simp only [calcPnl] at h
        split at h
        · rename_i hc
          cases h
          simp only [Bool.and_eq_true, decide_eq_true_eq, truthy, ne_eq] at hc
          obtain ⟨⟨hs, hE⟩, hT⟩ := hc
          have hE' : E ≠ 0 := by simpa using hE
          have hT' : T ≠ 0 := by simpa using hT
          have hm : 0 < margin := by
            by_contra hneg
            simp [calcSize, hneg] at hs
          have hsz : calcSize margin (some l) (some E) = margin * l / E := by
            simp [calcSize, hm, truthy, hE']
          rw [hsz] at hs ⊢
          exact ⟨l, E, T, rfl, rfl, rfl, hE', hT', hm, hs, rfl, rfl⟩
        · cases h

/-! ## The texts `toFixed` writes -/

theorem toFixed_of_lt (x : ℚ) (digits : Nat) (h : |x| < (10 : ℚ) ^ 21) :
    toFixed x digits =
      .fixed (decide (x < 0)) (⌊|x| * (10 : ℚ) ^ digits + 1 / 2⌋).toNat digits := by
  unfold toFixed
  rw [if_neg (not_le.2 h)]

/-- The units `toFixed` writes for a number between `n - 1/2` and `n + 1/2`
(in units of the last digit). -/
theorem toFixed_eq_of_bounds (x : ℚ) (digits n : Nat) (h0 : 0 ≤ x) (h : x < (10 : ℚ) ^ 21)
    (hlo : (n : ℚ) ≤ x * (10 : ℚ) ^ digits + 1 / 2)
    (hhi : x * (10 : ℚ) ^ digits + 1 / 2 < (n : ℚ) + 1) :
    toFixed x digits = .fixed false n digits := by
  rw [toFixed_of_lt x digits (by rwa [abs_of_nonneg h0]), abs_of_nonneg h0]
  have hfl : ⌊x * (10 : ℚ) ^ digits + 1 / 2⌋ = (n : ℤ) := by
    rw [Int.floor_eq_iff]
    exact ⟨by exact_mod_cast hlo, by exact_mod_cast hhi⟩
  rw [hfl]
  simp [not_lt.2 h0]

/-- The text `toFixed` writes for a number below `10 ^ 21` in absolute value
reads as a number at most half a unit of the last digit away from it. -/
theorem toFixed_value_close (x : ℚ) (digits : Nat) (h : |x| < (10 : ℚ) ^ 21) :
    ∃ v, (toFixed x digits).value = some v ∧ |v - x| ≤ 1 / (2 * (10 : ℚ) ^ digits) := by
  have hp : (0 : ℚ) < (10 : ℚ) ^ digits := by positivity
  have hnn : (0 : ℚ) ≤ |x| * (10 : ℚ) ^ digits + 1 / 2 := by positivity
  have hfl0 : 0 ≤ ⌊|x| * (10 : ℚ) ^ digits + 1 / 2⌋ := Int.floor_nonneg.2 hnn
  have hcast : ((⌊|x| * (10 : ℚ) ^ digits + 1 / 2⌋.toNat : ℕ) : ℚ) =
      ((⌊|x| * (10 : ℚ) ^ digits + 1 / 2⌋ : ℤ) : ℚ) := by
    have := Int.toNat_of_nonneg hfl0
    exact_mod_cast this
  have h1 : ((⌊|x| * (10 : ℚ) ^ digits + 1 / 2⌋ : ℤ) : ℚ) ≤ |x| * (10 : ℚ) ^ digits + 1 / 2 :=
    Int.floor_le _
  have h2 : |x| * (10 : ℚ) ^ digits + 1 / 2 < ((⌊|x| * (10 : ℚ) ^ digits + 1 / 2⌋ : ℤ) : ℚ) + 1 :=
    Int.lt_floor_add_one _
  rw [toFixed_of_lt x digits h]
  simp only [Text.value, hcast]
  set u : ℚ := ((⌊|x| * (10 : ℚ) ^ digits + 1 / 2⌋ : ℤ) : ℚ) with hu
  have hclose : abs (u / (10 : ℚ) ^ digits - abs x) ≤ 1 / (2 * (10 : ℚ) ^ digits) := by
    have e1 : u / (10 : ℚ) ^ digits - abs x = (u - abs x * (10 : ℚ) ^ digits) / (10 : ℚ) ^ digits := by
      rw [sub_div, mul_div_assoc, div_self hp.ne.symm, mul_one]
    have e2 : 1 / (2 * (10 : ℚ) ^ digits) = (1 / 2) / (10 : ℚ) ^ digits := by
      rw [div_div]
    rw [e1, e2, abs_div, abs_of_pos hp]
    apply div_le_div_of_nonneg_right _ hp.le
    rw [abs_le]
    constructor <;> linarith
  by_cases hx : x < 0
  · refine ⟨-1 * u / (10 : ℚ) ^ digits, by simp [hx], ?_⟩
    rw [abs_of_neg hx] at hclose
    have : -1 * u / (10 : ℚ) ^ digits - x = -(u / (10 : ℚ) ^ digits - -x) := by ring
    rw [this, abs_neg]
    exact hclose
  · refine ⟨1 * u / (10 : ℚ) ^ digits, by simp [hx], ?_⟩
    rw [abs_of_nonneg (not_lt.1 hx)] at hclose
    rw [one_mul]
    exact hclose

/-- On numbers that are not negative the text `toFixed` writes grows with the
number. -/
theorem toFixed_value_mono (x y : ℚ) (digits : Nat) (hx : 0 ≤ x) (hxy : x ≤ y) :
    ∃ a b, (toFixed x digits).value = some a ∧ (toFixed y digits).value = some b ∧ a ≤ b := by
  have hy : 0 ≤ y := le_trans hx hxy
  have hp : (0 : ℚ) < (10 : ℚ) ^ digits := by positivity
  have key : ∀ z : ℚ, 0 ≤ z → z < (10 : ℚ) ^ 21 →
      (toFixed z digits).value =
        some (((⌊z * (10 : ℚ) ^ digits + 1 / 2⌋ : ℤ) : ℚ) / (10 : ℚ) ^ digits) := by
    intro z hz hlt
    have hfl0 : 0 ≤ ⌊z * (10 : ℚ) ^ digits + 1 / 2⌋ := Int.floor_nonneg.2 (by positivity)
    have hcast : ((⌊z * (10 : ℚ) ^ digits + 1 / 2⌋.toNat : ℕ) : ℚ) =
        ((⌊z * (10 : ℚ) ^ digits + 1 / 2⌋ : ℤ) : ℚ) := by
      have := Int.toNat_of_nonneg hfl0
      exact_mod_cast this
    rw [toFixed_of_lt z digits (by rwa [abs_of_nonneg hz]), abs_of_nonneg hz]
    simp only [Text.value, hcast]
    simp [not_lt.2 hz]
  have big : ∀ z : ℚ, (10 : ℚ) ^ 21 ≤ z → (toFixed z digits).value = some z := by
    intro z hz
    have : (10 : ℚ) ^ 21 ≤ |z| := le_trans hz (le_abs_self z)
    simp [toFixed, this, Text.value]
  by_cases hyb : y < (10 : ℚ) ^ 21
  · have hxb : x < (10 : ℚ) ^ 21 := lt_of_le_of_lt hxy hyb
    refine ⟨_, _, key x hx hxb, key y hy hyb, ?_⟩
    apply div_le_div_of_nonneg_right _ hp.le
    have : ⌊x * (10 : ℚ) ^ digits + 1 / 2⌋ ≤ ⌊y * (10 : ℚ) ^ digits + 1 / 2⌋ :=
      Int.floor_mono (by nlinarith)
    exact_mod_cast this
  · have hyb : (10 : ℚ) ^ 21 ≤ y := not_lt.1 hyb
    by_cases hxb : x < (10 : ℚ) ^ 21
    · refine ⟨_, _, key x hx hxb, big y hyb, ?_⟩
      rw [div_le_iff₀ hp]
      have h1 : ((⌊x * (10 : ℚ) ^ digits + 1 / 2⌋ : ℤ) : ℚ) ≤ x * (10 : ℚ) ^ digits + 1 / 2 :=
        Int.floor_le _
      have hfl : ⌊x * (10 : ℚ) ^ digits + 1 / 2⌋ ≤ ((10 ^ 21 * 10 ^ digits : ℕ) : ℤ) := by
        have hlt : x * (10 : ℚ) ^ digits + 1 / 2 < ((10 ^ 21 * 10 ^ digits : ℕ) : ℚ) + 1 := by
          push_cast
          nlinarith
        have := Int.floor_le_floor (le_of_lt hlt)
        rw [show (((10 ^ 21 * 10 ^ digits : ℕ) : ℚ) + 1) = (((10 ^ 21 * 10 ^ digits + 1 : ℕ) : ℤ) : ℚ)
          from by push_cast; ring, Int.floor_intCast] at this
        have hne : ⌊x * (10 : ℚ) ^ digits + 1 / 2⌋ ≠ ((10 ^ 21 * 10 ^ digits + 1 : ℕ) : ℤ) := by
          intro heq
          have h3 := Int.floor_le (x * (10 : ℚ) ^ digits + 1 / 2)
          rw [heq] at h3
          push_cast at h3
          nlinarith
        omega
      have hc : ((⌊x * (10 : ℚ) ^ digits + 1 / 2⌋ : ℤ) : ℚ) ≤ (10 : ℚ) ^ 21 * (10 : ℚ) ^ digits := by
        have : ((⌊x * (10 : ℚ) ^ digits + 1 / 2⌋ : ℤ) : ℚ) ≤
            (((10 ^ 21 * 10 ^ digits : ℕ) : ℤ) : ℚ) := by exact_mod_cast hfl
        simpa using this
      nlinarith
    · have hxb : (10 : ℚ) ^ 21 ≤ x := not_lt.1 hxb
      exact ⟨x, y, big x hxb, big y hyb, hxy⟩

/-! ## The run with all inputs valid -/

theorem calcMargin_some (F p : ℚ) (hF : 0 < F) (hp : 0 < p) :
    calcMargin (some F) (some p) = F * p / 100 := by
  simp [calcMargin, truthy, hF.ne.symm, hp.ne.symm]

/-- With valid funds, percentage, entry price and target price and a leverage
stored, the run reaches the end and writes margin, position size and result
record from the formulas of steps 2, 4 and 5. -/
theorem performCalculations_full (inp : Inputs) (st : State) (F p E T L : ℚ)
    (hF : inp.parsedFunds = some F) (hp : inp.parsedPosPercent = some p)
    (hE : inp.parsedEntry = some E) (hT : inp.parsedTarget = some T)
    (hL : (performCalculations inp st).finalLeverage = some L) :
    1 ≤ L ∧ L ≤ 125 ∧ 0 < F * p / 100 * L / E ∧
    performCalculations inp st =
      { error := none, margin := toFixed (F * p / 100) 2,
        derivedLeverage := (resolution inp).derivedLeverage,
        finalLeverage := some L,
        positionSize := toFixed (F * p / 100 * L / E) 6,
        calculationResult :=
          some (pnlResult inp.direction inp.usdtToTwd (F * p / 100 * L / E) L E T) } := by
  have hF0 : 0 < F := parseValidFloat_pos hF
  have hp0 : 0 < p := parseValidFloat_pos hp
  have hE0 : 0 < E := parseValidFloat_pos hE
  have hT0 : 0 < T := parseValidFloat_pos hT
  have hm0 : 0 < F * p / 100 := by positivity
  rcases performCalculations_cases inp st with ⟨_, h⟩ | ⟨e, _, _, _, h⟩ | ⟨_, _, h⟩
  · rw [h] at hL; cases hL
  · rw [h] at hL; cases hL
  · rw [h] at hL
    simp only at hL
    have hb := resolveLeverage_bounds _ _ _ _ L hL
    simp only [MIN_LEVERAGE, MAX_LEVERAGE] at hb
    have hL0 : 0 < L := by linarith [hb.1]
    have hs0 : 0 < F * p / 100 * L / E := by positivity
    refine ⟨hb.1, hb.2, hs0, ?_⟩
    have hlev : (resolution inp).leverageToUse = some L := hL
    have hmt : marginText inp = toFixed (F * p / 100) 2 := by
      simp [marginText, hF, hp, calcMargin_some F p hF0 hp0, truthy, hF0.ne.symm, hp0.ne.symm]
    have hsz : calcSize (F * p / 100) (some L) (some E) = F * p / 100 * L / E := by
      simp [calcSize, truthy, hE0.ne.symm, hm0]
    have hst : sizeText inp = toFixed (F * p / 100 * L / E) 6 := by
      unfold sizeText
      rw [hF, hp, hE, hlev, calcMargin_some F p hF0 hp0, hsz]
      simp [truthy, hE0.ne.symm, hm0]
    rw [h, hmt, hst, hlev, hF, hp, hE, hT, calcMargin_some F p hF0 hp0, hsz]
    simp [calcPnl, truthy, hE0.ne.symm, hT0.ne.symm, hs0]

/-! ## The first example of the specification -/

theorem example1_parsedFunds : example1.parsedFunds = some 1000 :=
  parseValidFloat_str_of_scan _ false 1000 0 []
    (by decide) (by norm_num [literalValue]) (by norm_num [withinLimits, geMin, leMax])

theorem example1_parsedPosPercent : example1.parsedPosPercent = some 10 := by
  norm_num [example1, Inputs.parsedPosPercent, parseValidFloat_num, geMin, leMax]

theorem example1_parsedEntry : example1.parsedEntry = some 60000 :=
  parseValidFloat_str_of_scan _ false 60000 0 []
    (by decide) (by norm_num [literalValue]) (by norm_num [withinLimits, geMin, leMax])

theorem example1_parsedTarget : example1.parsedTarget = some 58000 :=
  parseValidFloat_str_of_scan _ false 58000 0 []
    (by decide) (by norm_num [literalValue]) (by norm_num [withinLimits, geMin, leMax])

theorem example1_resolution :
    resolution example1 =
      { currentError := none, leverageToUse := some 10, derivedLeverage := none } :=
  resolveLeverage_manual_valid _ _ _ _ 10 (by decide)
    (parseValidFloat_str_of_scan _ false 10 0 []
      (by decide) (by norm_num [literalValue])
      (by norm_num [withinLimits, geMin, leMax, MIN_LEVERAGE, MAX_LEVERAGE]))

theorem example1_finalLeverage (st : State) :
    (performCalculations example1 st).finalLeverage = some 10 := by
  have hf : truthy example1.parsedFunds = true := by
    rw [example1_parsedFunds]
    exact truthy_of_parse example1_parsedFunds
  rw [performCalculations_noError example1 st hf (by rw [example1_resolution]),
    example1_resolution]

/-- The margin and the position size the first example leaves in the state:
the texts `"100.00"` and `"0.016667"`. -/
theorem example1_margin_size (st : State) :
    (performCalculations example1 st).margin = .fixed false 10000 2 ∧
    (performCalculations example1 st).positionSize = .fixed false 16667 6 := by
  have h := (performCalculations_full example1 st 1000 10 60000 58000 10 example1_parsedFunds
    example1_parsedPosPercent example1_parsedEntry example1_parsedTarget
    (example1_finalLeverage st)).2.2.2
  rw [h]
  exact ⟨toFixed_eq_of_bounds _ 2 10000 (by norm_num) (by norm_num) (by norm_num) (by norm_num),
    toFixed_eq_of_bounds _ 6 16667 (by norm_num) (by norm_num) (by norm_num) (by norm_num)⟩


/-! ## Reading a numeral at the head of a longer text -/

theorem takeDigits_count_ge (l : List Char) (acc n : Nat) : n ≤ (takeDigits acc n l).2.1 := by
  induction l generalizing acc n with
  | nil => simp [takeDigits]
  | cons a t ih =>
    unfold takeDigits
    split
    · exact le_trans (Nat.le_succ n) (ih _ _)
    · exact le_refl n

theorem takeDigits_append_of_rest_cons (x w : List Char) (acc n : Nat) (c : Char)
    (r : List Char) (h : (takeDigits acc n x).2.2 = c :: r) :
    takeDigits acc n (x ++ w) =
      ((takeDigits acc n x).1, (takeDigits acc n x).2.1, c :: (r ++ w)) := by
  induction x generalizing acc n with
  | nil => simp [takeDigits] at h
  | cons a t ih =>
    by_cases ha : a.isDigit = true
    · simp only [takeDigits, ha, if_true, List.cons_append] at h ⊢
      exact ih _ _ h
    · simp only [takeDigits, ha, List.cons_append] at h ⊢
      simp only [Bool.false_eq_true, if_false] at h ⊢
      cases h
      rfl

theorem takeDigits_append_of_rest_nil (x w : List Char) (acc n : Nat)
    (h : (takeDigits acc n x).2.2 = []) :
    takeDigits acc n (x ++ w) =
      takeDigits (takeDigits acc n x).1 (takeDigits acc n x).2.1 w := by
  induction x generalizing acc n with
  | nil => simp [takeDigits]
  | cons a t ih =>
    by_cases ha : a.isDigit = true
    · simp only [takeDigits, ha, if_true, List.cons_append] at h ⊢
      exact ih _ _ h
    · simp only [takeDigits, ha, List.cons_append] at h
      simp at h

theorem takeDigits_append_count_ge (x w : List Char) (acc n : Nat) :
    (takeDigits acc n x).2.1 ≤ (takeDigits acc n (x ++ w)).2.1 := by
  cases h : (takeDigits acc n x).2.2 with
  | nil =>
    rw [takeDigits_append_of_rest_nil x w acc n h]
    exact takeDigits_count_ge _ _ _
  | cons c r =>
    rw [takeDigits_append_of_rest_cons x w acc n c r h]

/-- When an unsigned literal is found: there is a digit at the head, or a
point followed by a digit. -/
theorem scanUnsigned_isSome_iff (cs : List Char) :
    (scanUnsigned cs).isSome = true ↔
      (takeDigits 0 0 cs).2.1 ≠ 0 ∨
      ∃ r2, (takeDigits 0 0 cs).2.2 = '.' :: r2 ∧
        (takeDigits (takeDigits 0 0 cs).1 0 r2).2.1 ≠ 0 := by
  unfold scanUnsigned
  rcases h : takeDigits 0 0 cs with ⟨i, ni, r1⟩
  simp only
  cases r1 with
  | nil =>
    by_cases hn : ni = 0 <;> simp [hn]
  | cons c r2 =>
    by_cases hc : c = '.'
    · subst hc
      rcases h2 : takeDigits i 0 r2 with ⟨m, nf, r3⟩
      simp only [if_true, List.cons.injEq, true_and, exists_eq_left', h2]
      by_cases hn : ni = 0 <;> by_cases hf : nf = 0 <;> simp [hn, hf]
    · by_cases hn : ni = 0 <;> simp [hc, hn]

/-- A text that starts with an unsigned literal still does when more text
follows. -/
theorem scanUnsigned_append_isSome (x w : List Char) (h : (scanUnsigned x).isSome = true) :
    (scanUnsigned (x ++ w)).isSome = true := by
  rw [scanUnsigned_isSome_iff] at h ⊢
  cases hr : (takeDigits 0 0 x).2.2 with
  | nil =>
    left
    have hn : (takeDigits 0 0 x).2.1 ≠ 0 := by
      rcases h with h | ⟨r2, h, _⟩
      · exact h
      · rw [hr] at h
        cases h
    have := takeDigits_append_count_ge x w 0 0
    omega
  | cons c r =>
    rw [takeDigits_append_of_rest_cons x w 0 0 c r hr]
    rcases h with h | ⟨r2, h, hd⟩
    · exact Or.inl h
    · right
      rw [hr] at h
      obtain ⟨hc, hrr⟩ := List.cons.inj h
      subst hc
      subst hrr
      refine ⟨r ++ w, rfl, ?_⟩
      have := takeDigits_append_count_ge r w (takeDigits 0 0 x).1 0
      simp only at this ⊢
      omega

theorem dropWhile_head_false {p : Char → Bool} (cs : List Char) (c : Char) (r : List Char)
    (h : cs.dropWhile p = c :: r) : p c = false := by
  induction cs with
  | nil => simp at h
  | cons a t ih =>
    by_cases ha : p a = true
    · simp only [List.dropWhile, ha] at h
      exact ih h
    · simp only [List.dropWhile, ha] at h
      cases h
      simpa using ha

/-- A text whose trimmed form starts with a numeral starts with a numeral
itself: `parseFloat` of the text is not `NaN` when `parseFloat` of the trimmed
text is not. -/
theorem parseFloatChars_isSome_of_trim (cs : List Char)
    (h : (parseFloatChars (jsTrim cs)).isSome = true) : (parseFloatChars cs).isSome = true := by
  have hpre : jsTrim cs <+: cs.dropWhile isJsWhiteSpace := by
    unfold jsTrim
    exact List.rdropWhile_prefix isJsWhiteSpace (cs.dropWhile isJsWhiteSpace)
  obtain ⟨w, hw⟩ := hpre
  have hscan : ∀ l : List Char, (parseFloatChars l).isSome = (scanFloat l).isSome := by
    intro l
    unfold parseFloatChars
    cases scanFloat l with
    | none => rfl
    | some r => rfl
  rw [hscan] at h ⊢
  cases ht : jsTrim cs with
  | nil =>
    rw [ht] at h
    simp [scanFloat] at h
  | cons c ds =>
    rw [ht] at h hw
    have hd : cs.dropWhile isJsWhiteSpace = c :: (ds ++ w) := by
      rw [← hw]
      rfl
    have hc : isJsWhiteSpace c = false := dropWhile_head_false cs c _ hd
    have e1 : scanFloat (c :: ds) =
        if c = '-' then (scanUnsigned ds).map (fun r => (true, r))
        else if c = '+' then (scanUnsigned ds).map (fun r => (false, r))
        else (scanUnsigned (c :: ds)).map (fun r => (false, r)) := by
      simp [scanFloat, List.dropWhile, hc]
    have e2 : scanFloat cs =
        if c = '-' then (scanUnsigned (ds ++ w)).map (fun r => (true, r))
        else if c = '+' then (scanUnsigned (ds ++ w)).map (fun r => (false, r))
        else (scanUnsigned (c :: (ds ++ w))).map (fun r => (false, r)) := by
      simp only [scanFloat, hd]
    rw [e1] at h
    rw [e2]
    by_cases h1 : c = '-'
    · rw [if_pos h1] at h ⊢
      simp only [Option.isSome_map'] at h ⊢
      exact scanUnsigned_append_isSome ds w h
    · by_cases h2 : c = '+'
      · rw [if_neg h1, if_pos h2] at h ⊢
        simp only [Option.isSome_map'] at h ⊢
        exact scanUnsigned_append_isSome ds w h
      · rw [if_neg h1, if_neg h2] at h ⊢
        simp only [Option.isSome_map'] at h ⊢
        exact scanUnsigned_append_isSome (c :: ds) w h

/-- A manual leverage that `parseValidFloat` accepts is one that counts as
set. -/
theorem isLeverageManuallySet_of_parse (manual : JsValue) (min max : Option ℚ)
    (allowZero : Bool) (l : ℚ) (h : parseValidFloat manual min max allowZero = some l) :
    isLeverageManuallySet manual = true := by
  cases manual with
  | num v => simp [isLeverageManuallySet, parseFloat]
  | nan => cases h
  | other t => cases h
  | str s =>
    rw [parseValidFloat_eq] at h
    have hne : jsTrim s.data ≠ [] := by
      intro hnil
      simp [readsAs, hnil] at h
    have hsome : (parseFloatChars (jsTrim s.data)).isSome = true := by
      cases hp : parseFloatChars (jsTrim s.data) with
      | none => simp [readsAs, hne, hp] at h
      | some v => rfl
    have hs : s ≠ "" := by
      intro hs
      subst hs
      exact hne (by decide)
    have := parseFloatChars_isSome_of_trim s.data hsome
    simp [isLeverageManuallySet, parseFloat, hs, this]

/-! ## Further facts on the steps of the calculation -/

/-- A positive margin comes from parsed funds and a parsed percentage. -/
theorem calcMargin_pos {parsedFunds parsedPosPercent : Option ℚ}
    (h : 0 < calcMargin parsedFunds parsedPosPercent) :
    ∃ F p, parsedFunds = some F ∧ parsedPosPercent = some p ∧
      calcMargin parsedFunds parsedPosPercent = F * p / 100 := by
  cases parsedFunds with
  | none => simp [calcMargin] at h
  | some F =>
    cases parsedPosPercent with
    | none => simp [calcMargin] at h
    | some p =>
      refine ⟨F, p, rfl, rfl, ?_⟩
      simp only [calcMargin] at h ⊢
      split at h
      · rename_i hc
        rw [if_pos hc]
      · exact absurd h (lt_irrefl 0)

/-- The result record does not depend on the exchange rate but for its field
`netPnlTwd`. -/
theorem calcPnl_rate (direction : Direction) (rate rate' : Option ℚ) (calculatedSize : ℚ)
    (leverageToUse parsedEntry parsedTarget : Option ℚ) :
    (calcPnl direction rate calculatedSize leverageToUse parsedEntry parsedTarget).map
        (fun res => { res with netPnlTwd := Text.na }) =
      (calcPnl direction rate' calculatedSize leverageToUse parsedEntry parsedTarget).map
        (fun res => { res with netPnlTwd := Text.na }) := by
  cases leverageToUse with
  | none => rfl
  | some l =>
    cases parsedEntry with
    | none => rfl
    | some E =>
      cases parsedTarget with
      | none => rfl
      | some T =>
        simp only [calcPnl]
        split
        · rfl
        · rfl

/-- The actual liquidation price of a position with a leverage of at least 1
is positive. -/
theorem liqPrice_pos (direction : Direction) (E L : ℚ) (hE : 0 < E) (hL1 : 1 ≤ L) :
    0 < liqPrice direction E L := by
  have hL : 0 < L := by linarith
  have h1 : 1 / L ≤ 1 := by
    rw [div_le_iff₀ hL]
    linarith
  have h2 : 0 < 1 / L := by positivity
  unfold liqPrice
  split
  · apply mul_pos hE
    simp only [MAINT_MARGIN_RATE]
    linarith
  · apply mul_pos hE
    simp only [MAINT_MARGIN_RATE]
    linarith

/-- The total risk of a position of size `margin * L / E`, liquidated at its
actual liquidation price: the margin less the maintenance margin, plus both
fees. -/
theorem totalRisk_eq (direction : Direction) (margin E L : ℚ) (hE : E ≠ 0) (hL : L ≠ 0) :
    totalRisk direction (margin * L / E) (margin * L / E * E) (margin * L / E * E * feeRate)
        (liqPrice direction E L) =
      margin * (1 - MAINT_MARGIN_RATE * L) + margin * L * feeRate +
        margin * L / E * liqPrice direction E L * feeRate := by
  have hsz : margin * L / E * E = margin * L := by field_simp
  unfold totalRisk
  simp only [hsz]
  have hliq : margin * L / E * liqPrice direction E L =
      if direction = .long then margin * L - margin + MAINT_MARGIN_RATE * (margin * L)
      else margin * L + margin - MAINT_MARGIN_RATE * (margin * L) := by
    unfold liqPrice
    split
    · field_simp
      ring
    · field_simp
      ring
  rw [hliq]
  split <;> ring

/-- With a direction of long or short, step 3 never ends in the error of the
degenerate denominator, and what it derives lies strictly between 0 and 250. -/
theorem resolveLeverage_not_degenerate (direction : Direction) (manual : JsValue)
    (parsedEntry parsedLiqPreset : Option ℚ)
    (hdir : direction = .long ∨ direction = .short)
    (hpos : ∀ E, parsedEntry = some E → 0 < E) :
    (resolveLeverage direction manual parsedEntry parsedLiqPreset).currentError ≠
        some .cannotDerive ∧
    ∀ l, (resolveLeverage direction manual parsedEntry parsedLiqPreset).derivedLeverage =
      some l → 0 < l ∧ l < 250 := by
  by_cases hm : isLeverageManuallySet manual = true
  · cases hp : parseValidFloat manual (some MIN_LEVERAGE) (some MAX_LEVERAGE) false with
    | none =>
      rw [resolveLeverage_manual_invalid _ _ _ _ hm hp]
      exact ⟨by simp, by simp⟩
    | some v =>
      rw [resolveLeverage_manual_valid _ _ _ _ v hm hp]
      exact ⟨by simp, by simp⟩
  · have hm : isLeverageManuallySet manual = false := by simpa using hm
    by_cases hi : truthy parsedEntry = false ∨ truthy parsedLiqPreset = false
    · rw [resolveLeverage_incomplete _ _ _ _ hm hi]
      exact ⟨by simp, by simp⟩
    · simp only [not_or, Bool.not_eq_false] at hi
      obtain ⟨E, rfl, he⟩ := truthy_eq_true_iff.1 hi.1
      obtain ⟨P, rfl, hq⟩ := truthy_eq_true_iff.1 hi.2
      have hE : 0 < E := hpos E rfl
      rw [resolveLeverage_derive _ _ _ _ hm he hq]
      split
      · exact ⟨by simp, by simp⟩
      · rename_i hlong
        split
        · exact ⟨by simp, by simp⟩
        · rename_i hshort
          have hord : (direction = .long ∧ P < E) ∨ (direction = .short ∧ E < P) := by
            rcases hdir with hd | hd
            · exact Or.inl ⟨hd, not_le.1 (fun h => hlong ⟨hd, h⟩)⟩
            · exact Or.inr ⟨hd, not_le.1 (fun h => hshort ⟨hd, h⟩)⟩
          have hden := derivationDenominator_gt direction E P hE hord
          simp only [MAINT_MARGIN_RATE] at hden
          have hden0 : 0 < derivationDenominator direction E P := by linarith
          have hlev : 0 < 1 / derivationDenominator direction E P ∧
              1 / derivationDenominator direction E P < 250 := by
            refine ⟨by positivity, ?_⟩
            rw [div_lt_iff₀ hden0]
            linarith
          rw [if_neg (by
            have : (1 : ℚ) / 10 ^ 9 < 4 / 1000 := by norm_num
            exact not_le.2 (lt_trans this hden))]
          split
          · refine ⟨by simp, ?_⟩
            intro l hl
            cases hl
            exact hlev
          · refine ⟨by simp, ?_⟩
            intro l hl
            cases hl
            exact hlev

/-! ## Rounding to the nearest double -/

theorem roundHalfEven_cases (y : ℚ) : roundHalfEven y = ⌊y⌋ ∨ roundHalfEven y = ⌊y⌋ + 1 := by
  unfold roundHalfEven
  split
  · exact Or.inl rfl
  · split
    · exact Or.inr rfl
    · split
      · exact Or.inl rfl
      · exact Or.inr rfl

theorem roundHalfEven_of_near (y : ℚ) (n : ℤ) (h : |y - n| < 1 / 2) : roundHalfEven y = n := by
  rw [abs_lt] at h
  by_cases hyn : (n : ℚ) ≤ y
  · have hfl : ⌊y⌋ = n := by
      rw [Int.floor_eq_iff]
      exact ⟨hyn, by linarith [h.2]⟩
    unfold roundHalfEven
    rw [hfl, if_pos (by linarith [h.2])]
  · have hyn : y < n := not_le.1 hyn
    have hfl : ⌊y⌋ = n - 1 := by
      rw [Int.floor_eq_iff]
      push_cast
      exact ⟨by linarith [h.1], by linarith⟩
    unfold roundHalfEven
    rw [hfl]
    push_cast
    rw [if_neg (by linarith [h.1]), if_pos (by linarith [h.1])]
    ring

/-- On a tie the even neighbour is taken. -/
theorem roundHalfEven_of_tie (y : ℚ) (n : ℤ) (h1 : (n : ℚ) - 1 / 2 ≤ y)
    (h2 : y ≤ (n : ℚ) + 1 / 2) (hn : n % 2 = 0) : roundHalfEven y = n := by
  rcases h1.lt_or_eq with h1 | h1
  · rcases h2.lt_or_eq with h2 | h2
    · apply roundHalfEven_of_near
      rw [abs_lt]
      constructor <;> linarith
    · have hfl : ⌊y⌋ = n := by
        rw [Int.floor_eq_iff]
        constructor <;> linarith
      unfold roundHalfEven
      rw [hfl, if_neg (by linarith), if_neg (by linarith), if_pos hn]
  · have hfl : ⌊y⌋ = n - 1 := by
      rw [Int.floor_eq_iff]
      push_cast
      constructor <;> linarith
    unfold roundHalfEven
    rw [hfl]
    push_cast
    rw [if_neg (by linarith), if_neg (by linarith), if_neg (by omega)]
    ring

theorem roundHalfEven_sub_abs (y : ℚ) : |(roundHalfEven y : ℚ) - y| ≤ 1 / 2 := by
  have h1 := Int.floor_le y
  have h2 := Int.lt_floor_add_one y
  unfold roundHalfEven
  split
  · rename_i h
    rw [abs_le]
    constructor <;> linarith
  · rename_i h
    split
    · rename_i h'
      push_cast
      rw [abs_le]
      constructor <;> linarith
    · rename_i h'
      have hd : y - ⌊y⌋ = 1 / 2 := le_antisymm (not_lt.1 h') (not_lt.1 h)
      split
      · rw [abs_le]
        constructor <;> linarith
      · push_cast
        rw [abs_le]
        constructor <;> linarith

theorem roundHalfEven_ge (y : ℚ) (N : ℤ) (h : (N : ℚ) ≤ y) : N ≤ roundHalfEven y := by
  have hfl : N ≤ ⌊y⌋ := Int.le_floor.2 h
  rcases roundHalfEven_cases y with hc | hc <;> rw [hc] <;> omega

theorem roundHalfEven_le (y : ℚ) (N : ℤ) (h : y ≤ (N : ℚ)) : roundHalfEven y ≤ N := by
  have hfl : ⌊y⌋ ≤ N := by
    have := Int.floor_le y
    exact_mod_cast (le_trans this h)
  by_cases hint : (⌊y⌋ : ℚ) = y
  · have : roundHalfEven y = ⌊y⌋ := by
      unfold roundHalfEven
      rw [if_pos (by rw [hint]; norm_num)]
    rw [this]
    exact hfl
  · have hlt : (⌊y⌋ : ℚ) < y := lt_of_le_of_ne (Int.floor_le y) hint
    have : (⌊y⌋ : ℚ) < N := lt_of_lt_of_le hlt h
    have hlt' : ⌊y⌋ < N := by exact_mod_cast this
    rcases roundHalfEven_cases y with hc | hc <;> rw [hc] <;> omega

theorem quantum_pos (a : ℚ) : 0 < quantum a := by
  unfold quantum
  positivity

theorem two_zpow_log_le (a : ℚ) (ha : 0 < a) : (2 : ℚ) ^ Int.log 2 a ≤ a := by
  have := Int.zpow_log_le_self (b := 2) (r := a) (by norm_num) ha
  simpa using this

theorem lt_two_zpow_log_succ (a : ℚ) : a < (2 : ℚ) ^ (Int.log 2 a + 1) := by
  have := Int.lt_zpow_succ_log_self (b := 2) (by norm_num) a
  simpa using this

theorem log_two_eq (a : ℚ) (l : ℤ) (hlo : (2 : ℚ) ^ l ≤ a) (hhi : a < (2 : ℚ) ^ (l + 1)) :
    Int.log 2 a = l := by
  have ha : 0 < a := lt_of_lt_of_le (by positivity) hlo
  have h1 : l ≤ Int.log 2 a := by
    rw [← Int.zpow_le_iff_le_log (by norm_num) ha]
    simpa using hlo
  have h2 : Int.log 2 a < l + 1 := by
    rw [← Int.lt_zpow_iff_log_lt (by norm_num) ha]
    simpa using hhi
  omega

/-- The spacing in the binade of `2 ^ (e + 52)`. -/
theorem quantum_eq (a : ℚ) (e : ℤ) (he : -1074 ≤ e) (hlo : (2 : ℚ) ^ 52 * 2 ^ e ≤ a)
    (hhi : a < (2 : ℚ) ^ 53 * 2 ^ e) : quantum a = (2 : ℚ) ^ e := by
  have hlog : Int.log 2 a = e + 52 := by
    apply log_two_eq
    · rw [zpow_add₀ (by norm_num : (2 : ℚ) ≠ 0), mul_comm]
      exact_mod_cast hlo
    · have : (2 : ℚ) ^ (e + 52 + 1) = 2 ^ 53 * 2 ^ e := by
        rw [show e + 52 + 1 = e + 53 from by ring, zpow_add₀ (by norm_num : (2 : ℚ) ≠ 0),
          mul_comm]
        norm_cast
      rw [this]
      exact hhi
  unfold quantum
  rw [hlog, max_eq_left (by omega)]
  congr 1
  ring

/-- The spacing below `2 ^ (-1022)`. -/
theorem quantum_subnormal (a : ℚ) (h0 : 0 < a) (ha : a < (2 : ℚ) ^ (-1022 : ℤ)) :
    quantum a = (2 : ℚ) ^ (-1074 : ℤ) := by
  have hlog : Int.log 2 a ≤ -1022 := by
    have : Int.log 2 a < -1022 := by
      rw [← Int.lt_zpow_iff_log_lt (by norm_num) h0]
      simpa using ha
    omega
  unfold quantum
  rw [max_eq_right hlog]
  norm_num

theorem quantum_le (a : ℚ) (ha : (2 : ℚ) ^ (-1022 : ℤ) ≤ a) : quantum a ≤ a / 2 ^ 52 := by
  have ha0 : 0 < a := lt_of_lt_of_le (by positivity) ha
  have hlog : -1022 ≤ Int.log 2 a := by
    rw [← Int.zpow_le_iff_le_log (by norm_num) ha0]
    simpa using ha
  unfold quantum
  rw [max_eq_left hlog, zpow_sub₀ (by norm_num : (2 : ℚ) ≠ 0)]
  have := two_zpow_log_le a ha0
  have h52 : (2 : ℚ) ^ (52 : ℤ) = 2 ^ 52 := by norm_cast
  rw [h52]
  exact div_le_div_of_nonneg_right this (by positivity)

theorem roundMagnitude_sub_abs (a : ℚ) : |roundMagnitude a - a| ≤ quantum a / 2 := by
  have hq := quantum_pos a
  have h := roundHalfEven_sub_abs (a / quantum a)
  have e : roundMagnitude a - a =
      ((roundHalfEven (a / quantum a) : ℚ) - a / quantum a) * quantum a := by
    unfold roundMagnitude
    field_simp
  rw [e, abs_mul, abs_of_pos hq]
  calc |(roundHalfEven (a / quantum a) : ℚ) - a / quantum a| * quantum a
      ≤ 1 / 2 * quantum a := mul_le_mul_of_nonneg_right h hq.le
    _ = quantum a / 2 := by ring

/-- The relative error of rounding a magnitude that is not subnormal. -/
theorem roundMagnitude_rel (a : ℚ) (ha : (2 : ℚ) ^ (-1022 : ℤ) ≤ a) :
    |roundMagnitude a - a| ≤ a / 2 ^ 53 := by
  have h1 := roundMagnitude_sub_abs a
  have h2 := quantum_le a ha
  calc |roundMagnitude a - a| ≤ quantum a / 2 := h1
    _ ≤ a / 2 ^ 52 / 2 := by linarith
    _ = a / 2 ^ 53 := by ring

theorem roundMagnitude_nonneg (a : ℚ) (ha : 0 ≤ a) : 0 ≤ roundMagnitude a := by
  unfold roundMagnitude
  have hq := quantum_pos a
  have : (0 : ℤ) ≤ roundHalfEven (a / quantum a) :=
    roundHalfEven_ge _ 0 (by
      push_cast
      exact div_nonneg ha hq.le)
  have : (0 : ℚ) ≤ (roundHalfEven (a / quantum a) : ℚ) := by exact_mod_cast this
  positivity

/-- Rounding never falls below a power of two that the magnitude reaches. -/
theorem roundMagnitude_ge_pow (a : ℚ) (k : ℤ) (hk : -1022 ≤ k) (h : (2 : ℚ) ^ k ≤ a) :
    (2 : ℚ) ^ k ≤ roundMagnitude a := by
  have ha0 : 0 < a := lt_of_lt_of_le (by positivity) h
  have hlog : k ≤ Int.log 2 a := by
    rw [← Int.zpow_le_iff_le_log (by norm_num) ha0]
    simpa using h
  have hq : quantum a = (2 : ℚ) ^ (Int.log 2 a - 52) := by
    unfold quantum
    rw [max_eq_left (by omega)]
  have hl := two_zpow_log_le a ha0
  have hN : ((2 ^ 52 : ℤ) : ℚ) = (2 : ℚ) ^ (52 : ℤ) := by norm_cast
  have hmul : (2 : ℚ) ^ (52 : ℤ) * 2 ^ (Int.log 2 a - 52) = 2 ^ Int.log 2 a := by
    rw [← zpow_add₀ (by norm_num : (2 : ℚ) ≠ 0)]
    congr 1
    ring
  have hdiv : ((2 ^ 52 : ℤ) : ℚ) ≤ a / quantum a := by
    rw [hq, le_div_iff₀ (by positivity), hN, hmul]
    exact hl
  have hr := roundHalfEven_ge _ _ hdiv
  have hr' : ((2 ^ 52 : ℤ) : ℚ) ≤ (roundHalfEven (a / quantum a) : ℚ) := by exact_mod_cast hr
  unfold roundMagnitude
  calc (2 : ℚ) ^ k ≤ 2 ^ Int.log 2 a := zpow_le_zpow_right₀ (by norm_num) hlog
    _ = ((2 ^ 52 : ℤ) : ℚ) * quantum a := by
      rw [hq, hN, hmul]
    _ ≤ (roundHalfEven (a / quantum a) : ℚ) * quantum a :=
      mul_le_mul_of_nonneg_right hr' (quantum_pos a).le

/-- The value a magnitude rounds to, from the binade it lies in and the
integer its scaled value is nearest to. -/
theorem roundMagnitude_eq (a : ℚ) (n : ℕ) (e : ℤ) (he : -1074 ≤ e)
    (hlo : (2 : ℚ) ^ 52 * 2 ^ e ≤ a) (hhi : a < (2 : ℚ) ^ 53 * 2 ^ e)
    (hn : |a / 2 ^ e - n| < 1 / 2) : roundMagnitude a = (n : ℚ) * 2 ^ e := by
  unfold roundMagnitude
  rw [quantum_eq a e he hlo hhi]
  have := roundHalfEven_of_near (a / 2 ^ e) (n : ℤ) (by exact_mod_cast hn)
  rw [this]
  norm_cast

theorem roundMagnitude_zero : roundMagnitude 0 = 0 := by
  unfold roundMagnitude
  rw [zero_div]
  have : roundHalfEven 0 = 0 := roundHalfEven_of_near 0 0 (by norm_num)
  rw [this]
  simp

theorem roundToDouble_zero : roundToDouble 0 = .fin 0 := by
  unfold roundToDouble
  simp [roundMagnitude_zero]

/-- The double a positive number rounds to, from the binade it lies in and the
integer its scaled value is nearest to. -/
theorem roundToDouble_eq (x : ℚ) (n : ℕ) (e : ℤ) (he : -1074 ≤ e)
    (hlo : (2 : ℚ) ^ 52 * 2 ^ e ≤ x) (hhi : x < (2 : ℚ) ^ 53 * 2 ^ e)
    (hn : |x / 2 ^ e - n| < 1 / 2) (hmax : (n : ℚ) * 2 ^ e < 2 ^ 1024) :
    roundToDouble x = .fin ((n : ℚ) * 2 ^ e) := by
  have hx : 0 < x := lt_of_lt_of_le (by positivity) hlo
  have hr := roundMagnitude_eq x n e he hlo hhi hn
  unfold roundToDouble
  rw [abs_of_pos hx, hr, if_neg (not_le.2 hmax), if_neg (not_lt.2 hx.le)]

/-- A number from `2 ^ 1024` on rounds to `Infinity`. -/
theorem roundToDouble_overflow (x : ℚ) (h : (2 : ℚ) ^ 1024 ≤ x) :
    roundToDouble x = .inf false := by
  have hx : 0 < x := lt_of_lt_of_le (by positivity) h
  have hz : (2 : ℚ) ^ (1024 : ℤ) = 2 ^ 1024 := zpow_natCast 2 1024
  have hr := roundMagnitude_ge_pow x 1024 (by omega) (by rw [hz]; exact h)
  rw [hz] at hr
  unfold roundToDouble
  rw [abs_of_pos hx, if_pos hr]
  simp [not_lt.2 hx.le]

/-- A positive number below `2 ^ (-1075)` rounds to zero. -/
theorem roundToDouble_underflow (x : ℚ) (h0 : 0 ≤ x) (h : x < (2 : ℚ) ^ (-1075 : ℤ)) :
    roundToDouble x = .fin 0 := by
  rcases h0.lt_or_eq with hx0 | hx0
  swap
  · rw [← hx0]
    exact roundToDouble_zero
  have hq : quantum x = (2 : ℚ) ^ (-1074 : ℤ) :=
    quantum_subnormal x hx0 (lt_trans h (by
      apply zpow_lt_zpow_right₀ (by norm_num)
      norm_num))
  have hr : roundMagnitude x = 0 := by
    unfold roundMagnitude
    rw [hq]
    have : roundHalfEven (x / (2 : ℚ) ^ (-1074 : ℤ)) = 0 := by
      apply roundHalfEven_of_near
      have hpos : (0 : ℚ) < (2 : ℚ) ^ (-1074 : ℤ) := by positivity
      have hx2 : x / (2 : ℚ) ^ (-1074 : ℤ) < 1 / 2 := by
        rw [div_lt_iff₀ hpos]
        calc x < (2 : ℚ) ^ (-1075 : ℤ) := h
          _ = 1 / 2 * (2 : ℚ) ^ (-1074 : ℤ) := by
            rw [show (-1075 : ℤ) = -1074 - 1 from by norm_num,
              zpow_sub₀ (by norm_num : (2 : ℚ) ≠ 0), zpow_one]
            ring
      have hx1 : 0 ≤ x / (2 : ℚ) ^ (-1074 : ℤ) := div_nonneg h0 hpos.le
      rw [Int.cast_zero, sub_zero, abs_of_nonneg hx1]
      exact hx2
    rw [this]
    simp
  unfold roundToDouble
  rw [abs_of_nonneg h0, hr]
  simp

/-- Rounding a number whose magnitude is neither subnormal nor too large gives
a finite double of the same sign, at a relative distance of at most
`2 ^ (-53)`. -/
theorem roundToDouble_spec (x : ℚ) (hlo : (2 : ℚ) ^ (-1022 : ℤ) ≤ |x|)
    (hhi : |x| ≤ (2 : ℚ) ^ 1023) :
    ∃ y, roundToDouble x = .fin y ∧ |y - x| ≤ |x| / 2 ^ 53 ∧ (0 < x → 0 < y) ∧
      (x < 0 → y < 0) := by
  have hrel := roundMagnitude_rel |x| hlo
  have habs : 0 < |x| := lt_of_lt_of_le (by positivity) hlo
  rw [abs_le] at hrel
  have hlt : roundMagnitude |x| < (2 : ℚ) ^ 1024 := by
    have h1 : roundMagnitude |x| ≤ |x| + |x| / 2 ^ 53 := by linarith [hrel.2]
    have h2 : |x| + |x| / 2 ^ 53 ≤ 2 ^ 1023 + 2 ^ 1023 / 2 ^ 53 := by
      have : |x| / 2 ^ 53 ≤ (2 : ℚ) ^ 1023 / 2 ^ 53 :=
        div_le_div_of_nonneg_right hhi (by positivity)
      linarith
    have h3 : (2 : ℚ) ^ 1023 + 2 ^ 1023 / 2 ^ 53 < 2 ^ 1024 := by norm_num
    linarith
  have hpos : 0 < roundMagnitude |x| := by
    have : |x| - |x| / 2 ^ 53 ≤ roundMagnitude |x| := by linarith [hrel.1]
    have h2 : 0 < |x| - |x| / 2 ^ 53 := by
      have : |x| / 2 ^ 53 < |x| := div_lt_self habs (by norm_num)
      linarith
    linarith
  unfold roundToDouble
  rw [if_neg (not_le.2 hlt)]
  by_cases hx : x < 0
  · refine ⟨-roundMagnitude |x|, by rw [if_pos hx], ?_, fun h => absurd h (not_lt.2 hx.le),
      fun _ => by linarith⟩
    rw [abs_of_neg hx] at hrel ⊢
    rw [abs_le]
    constructor <;> linarith [hrel.1, hrel.2]
  · have hx0 : 0 ≤ x := not_lt.1 hx
    refine ⟨roundMagnitude |x|, by rw [if_neg hx], ?_, fun _ => hpos, fun h => absurd h hx⟩
    rw [abs_of_nonneg hx0] at hrel ⊢
    rw [abs_le]
    constructor <;> linarith [hrel.1, hrel.2]

/-- Rounding a number of magnitude at most `2 ^ 1023` gives a finite double
at a distance of at most `2 ^ (-53)` times the magnitude plus `2 ^ (-1075)`. -/
theorem roundToDouble_near (x : ℚ) (hhi : |x| ≤ (2 : ℚ) ^ 1023) :
    ∃ y, roundToDouble x = .fin y ∧ |y - x| ≤ |x| / 2 ^ 53 + 1 / 2 ^ 1075 ∧ (0 ≤ x → 0 ≤ y) ∧
      (x ≤ 0 → y ≤ 0) := by
  by_cases hlo : (2 : ℚ) ^ (-1022 : ℤ) ≤ |x|
  · obtain ⟨y, hy, hclose, hp, hn⟩ := roundToDouble_spec x hlo hhi
    have habs : 0 < |x| := lt_of_lt_of_le (by positivity) hlo
    refine ⟨y, hy, by
      have : (0 : ℚ) ≤ 1 / 2 ^ 1075 := by positivity
      linarith, ?_, ?_⟩
    · intro h0
      rcases h0.lt_or_eq with h | h
      · exact (hp h).le
      · rw [← h] at habs
        simp at habs
    · intro h0
      rcases h0.lt_or_eq with h | h
      · exact (hn h).le
      · rw [h] at habs
        simp at habs
  · have hlo : |x| < (2 : ℚ) ^ (-1022 : ℤ) := not_le.1 hlo
    have herr : abs (roundMagnitude (abs x) - abs x) ≤ 1 / 2 ^ 1075 := by
      rcases (abs_nonneg x).lt_or_eq with hpos | hz
      · have herr := roundMagnitude_sub_abs |x|
        rw [quantum_subnormal |x| hpos hlo] at herr
        have h75 : (2 : ℚ) ^ (-1074 : ℤ) / 2 = 1 / 2 ^ 1075 := by
          rw [show (-1074 : ℤ) = -1075 + 1 from by norm_num,
            zpow_add₀ (by norm_num : (2 : ℚ) ≠ 0), zpow_one, zpow_neg, one_div]
          have : (2 : ℚ) ^ (1075 : ℤ) = 2 ^ 1075 := zpow_natCast 2 1075
          rw [this]
          ring
        rw [h75] at herr
        exact herr
      · rw [← hz, roundMagnitude_zero, sub_zero, abs_zero]
        exact div_nonneg zero_le_one (pow_pos (by norm_num) 1075).le
    have hnn := roundMagnitude_nonneg |x| (abs_nonneg x)
    have hlt : roundMagnitude |x| < (2 : ℚ) ^ 1024 := by
      rw [abs_le] at herr
      have h1 : roundMagnitude |x| ≤ |x| + 1 / 2 ^ 1075 := by linarith [herr.2]
      have h2 : (2 : ℚ) ^ (-1022 : ℤ) ≤ 1 := by
        apply zpow_le_one_of_nonpos₀ (by norm_num)
        norm_num
      have h3 : (1 : ℚ) / 2 ^ 1075 ≤ 1 := by
        rw [div_le_one (by positivity)]
        exact one_le_pow₀ (by norm_num)
      have h4 : (2 : ℚ) < 2 ^ 1024 := by norm_num
      linarith
    have hdiv : (0 : ℚ) ≤ |x| / 2 ^ 53 :=
      div_nonneg (abs_nonneg x) (pow_pos (by norm_num) 53).le
    unfold roundToDouble
    rw [if_neg (not_le.2 hlt)]
    by_cases hx : x < 0
    · refine ⟨-roundMagnitude |x|, by rw [if_pos hx], ?_, fun h => absurd hx (not_lt.2 h),
        fun _ => by linarith⟩
      rw [abs_of_neg hx] at herr ⊢
      rw [abs_le] at herr ⊢
      constructor <;> linarith [herr.1, herr.2]
    · have hx0 : 0 ≤ x := not_lt.1 hx
      refine ⟨roundMagnitude |x|, by rw [if_neg hx], ?_, fun _ => hnn, fun h => ?_⟩
      · rw [abs_of_nonneg hx0] at herr ⊢
        rw [abs_le] at herr ⊢
        constructor <;> linarith [herr.1, herr.2]
      · have hx00 : x = 0 := le_antisymm h hx0
        subst hx00
        have := roundToDouble_zero
        unfold roundToDouble at this
        rw [if_neg (not_le.2 hlt), if_neg (lt_irrefl 0)] at this
        have hz : roundMagnitude |(0 : ℚ)| = 0 := by
          injection this
        rw [hz]

/-- The double a positive number on a tie rounds to, from a certificate: the
exponent `e` of the spacing around it and the even integer `n` half a unit
from its scaled value. -/
theorem roundToDouble_cert_even (x y : ℚ) (n : ℕ) (e : ℤ) (he : -1074 ≤ e)
    (hlo : (2 : ℚ) ^ 52 * 2 ^ e ≤ x) (hhi : x < (2 : ℚ) ^ 53 * 2 ^ e)
    (h1 : (n : ℚ) - 1 / 2 ≤ x / 2 ^ e) (h2 : x / 2 ^ e ≤ (n : ℚ) + 1 / 2) (hn : n % 2 = 0)
    (hy : (n : ℚ) * 2 ^ e = y) (hmax : y < 2 ^ 1024) : roundToDouble x = .fin y := by
  rw [← hy] at hmax ⊢
  have hx : 0 < x := lt_of_lt_of_le (by positivity) hlo
  have hr : roundMagnitude x = (n : ℚ) * 2 ^ e := by
    unfold roundMagnitude
    rw [quantum_eq x e he hlo hhi]
    have := roundHalfEven_of_tie (x / 2 ^ e) (n : ℤ) (by exact_mod_cast h1)
      (by exact_mod_cast h2) (by omega)
    rw [this]
    norm_cast
  unfold roundToDouble
  rw [abs_of_pos hx, hr, if_neg (not_le.2 hmax), if_neg (not_lt.2 hx.le)]

/-- The double a positive number rounds to, from a certificate: the exponent
`e` of the spacing around it and the integer `n` its scaled value is nearest
to. -/
theorem roundToDouble_cert (x y : ℚ) (n : ℕ) (e : ℤ) (he : -1074 ≤ e)
    (hlo : (2 : ℚ) ^ 52 * 2 ^ e ≤ x) (hhi : x < (2 : ℚ) ^ 53 * 2 ^ e)
    (h1 : (n : ℚ) - 1 / 2 < x / 2 ^ e) (h2 : x / 2 ^ e < (n : ℚ) + 1 / 2)
    (hy : (n : ℚ) * 2 ^ e = y) (hmax : y < 2 ^ 1024) : roundToDouble x = .fin y := by
  rw [← hy] at hmax ⊢
  apply roundToDouble_eq x n e he hlo hhi _ hmax
  rw [abs_lt]
  constructor <;> linarith

theorem roundToDouble_isNaN (x : ℚ) : (roundToDouble x).isNaN = false := by
  unfold roundToDouble
  split <;> rfl

theorem Dbl.lt_eq_not_le (a b : Dbl) (ha : a.isNaN = false) (hb : b.isNaN = false) :
    a.lt b = !(b.le a) := by
  cases a with
  | nan => cases ha
  | inf s =>
    cases b with
    | nan => cases hb
    | inf t => cases s <;> cases t <;> rfl
    | fin y => cases s <;> rfl
  | fin x =>
    cases b with
    | nan => cases hb
    | inf t => cases t <;> rfl
    | fin y =>
      show decide (x < y) = !decide (y ≤ x)
      by_cases h : x < y
      · simp [h, not_le.2 h]
      · simp [h, not_lt.1 h]

/-- The two branches of `parseValidFloat` apply the same test to the number
they read, as long as neither bound is `NaN`. -/
theorem parseValidFloatD_eq (value : JsValueD) (min max : Dbl) (allowZero : Bool)
    (hmin : min.isNaN = false) (hmax : max.isNaN = false) :
    parseValidFloatD value min max allowZero =
      match readsAsD value with
      | none => none
      | some d => if withinLimitsD d min max allowZero then some d else none := by
  cases value with
  | num d =>
    unfold parseValidFloatD readsAsD
    by_cases hd : d.isNaN = true
    · simp [hd]
    · simp [hd, withinLimitsD]
  | other t => rfl
  | str s =>
    unfold parseValidFloatD readsAsD
    by_cases ht : jsTrim s.data = []
    · simp [ht]
    · simp only [ht, if_false]
      by_cases hd : (parseFloatCharsD (jsTrim s.data)).isNaN = true
      · simp [hd]
      · have hd' : (parseFloatCharsD (jsTrim s.data)).isNaN = false := by simpa using hd
        have h0 : (Dbl.fin 0).isNaN = false := rfl
        simp only [hd', if_false, withinLimitsD, Dbl.gt, Dbl.ge, Bool.false_or,
          Bool.false_eq_true]
        rw [Dbl.lt_eq_not_le _ _ hd' h0, Dbl.lt_eq_not_le _ _ hd' hmin,
          Dbl.lt_eq_not_le _ _ hmax hd', Dbl.lt_eq_not_le _ _ h0 hd']
        generalize (Dbl.fin 0).le (parseFloatCharsD (jsTrim s.data)) = b1
        generalize (parseFloatCharsD (jsTrim s.data)).le (Dbl.fin 0) = b2
        generalize min.le (parseFloatCharsD (jsTrim s.data)) = b3
        generalize (parseFloatCharsD (jsTrim s.data)).le max = b4
        cases allowZero <;> cases b1 <;> cases b2 <;> cases b3 <;> cases b4 <;> simp

theorem readsAsD_isNaN {value : JsValueD} {d : Dbl} (h : readsAsD value = some d) :
    d.isNaN = false := by
  cases value with
  | num x =>
    simp only [readsAsD] at h
    by_cases hx : x.isNaN = true
    · rw [if_pos hx] at h
      cases h
    · rw [if_neg hx] at h
      cases h
      simpa using hx
  | other t =>
    simp only [readsAsD] at h
    cases h
  | str s =>
    simp only [readsAsD] at h
    by_cases ht : jsTrim s.data = []
    · rw [if_pos ht] at h
      cases h
    · rw [if_neg ht] at h
      by_cases hx : (parseFloatCharsD (jsTrim s.data)).isNaN = true
      · rw [if_pos hx] at h
        cases h
      · rw [if_neg hx] at h
        cases h
        simpa using hx

/-- The result of `parseValidFloat` on a string whose trimmed text starts with
a numeral that rounds to `d`. -/
theorem parseValidFloatD_str_of_scan (s : String) (neg : Bool) (m : ℕ) (e : ℤ)
    (rest : List Char) (d min max : Dbl) (allowZero : Bool)
    (hscan : scanFloat (jsTrim s.data) = some (neg, m, e, rest))
    (hd : roundToDouble (literalValue neg m e) = d) :
    parseValidFloatD (.str s) min max allowZero =
      if (d.isNaN || (!allowZero && d.le (.fin 0)) || (allowZero && d.lt (.fin 0)) ||
          d.lt min || d.gt max) = true
      then none else some d := by
  have hne := scanFloat_ne_nil hscan
  have hp : parseFloatCharsD (jsTrim s.data) = d := by
    unfold parseFloatCharsD
    rw [hscan]
    exact hd
  unfold parseValidFloatD
  simp only [hne, if_false, hp]

/-! ### The constants and the operators on finite numbers -/

theorem MAINT_MARGIN_RATE_D_eq :
    MAINT_MARGIN_RATE_D = .fin (1152921504606847 / 288230376151711744) :=
  roundToDouble_cert _ _ 4611686018427388 (-60) (by norm_num) (by norm_num) (by norm_num)
    (by norm_num) (by norm_num) (by norm_num) (by norm_num)

theorem feeRateD_eq : feeRateD = .fin (1152921504606847 / 2305843009213693952) :=
  roundToDouble_cert _ _ 4611686018427388 (-63) (by norm_num) (by norm_num) (by norm_num)
    (by norm_num) (by norm_num) (by norm_num) (by norm_num)

theorem CENT_D_eq : CENT_D = .fin (5764607523034235 / 576460752303423488) :=
  roundToDouble_cert _ _ 5764607523034235 (-59) (by norm_num) (by norm_num) (by norm_num)
    (by norm_num) (by norm_num) (by norm_num) (by norm_num)

theorem EPSILON_D_eq :
    EPSILON_D = .fin (4835703278458517 / 4835703278458516698824704) :=
  roundToDouble_cert _ _ 4835703278458517 (-82) (by norm_num) (by norm_num) (by norm_num)
    (by norm_num) (by norm_num) (by norm_num) (by norm_num)

theorem Dbl.add_fin (x y : ℚ) : (Dbl.fin x).add (.fin y) = roundToDouble (x + y) := rfl

theorem Dbl.sub_fin (x y : ℚ) : (Dbl.fin x).sub (.fin y) = roundToDouble (x - y) := by
  show roundToDouble (x + -y) = roundToDouble (x - y)
  rw [sub_eq_add_neg]

theorem Dbl.mul_fin (x y : ℚ) : (Dbl.fin x).mul (.fin y) = roundToDouble (x * y) := rfl

theorem Dbl.div_fin (x y : ℚ) (hy : y ≠ 0) :
    (Dbl.fin x).div (.fin y) = roundToDouble (x / y) := by
  show (if y = 0 then (if x = 0 then Dbl.nan else Dbl.inf (decide (x < 0)))
    else roundToDouble (x / y)) = roundToDouble (x / y)
  rw [if_neg hy]

theorem ten_pow_300_le : (10 : ℚ) ^ 300 ≤ 2 ^ 1000 := by
  calc (10 : ℚ) ^ 300 = (10 ^ 3) ^ 100 := by rw [← pow_mul]
    _ ≤ (2 ^ 10) ^ 100 := pow_le_pow_left₀ (by norm_num) (by norm_num) 100
    _ = 2 ^ 1000 := by rw [← pow_mul]

theorem two_zpow_neg_1022_le : (2 : ℚ) ^ (-1022 : ℤ) ≤ 1 / 2 ^ 1000 := by
  rw [zpow_neg, ← one_div]
  have h : (2 : ℚ) ^ (1022 : ℤ) = 2 ^ 1022 := zpow_natCast 2 1022
  rw [h]
  exact one_div_le_one_div_of_le (by positivity) (pow_le_pow_right₀ (by norm_num) (by norm_num))

/-- Rounding a number of magnitude at most `B`, for a bound between 1 and
1024: a finite double at a distance of at most `B / 2 ^ 52`. -/
theorem roundToDouble_abs (x B : ℚ) (hx : |x| ≤ B) (hB1 : 1 ≤ B) (hB2 : B ≤ 1024) :
    ∃ y, roundToDouble x = .fin y ∧ |y - x| ≤ B / 2 ^ 52 ∧ (0 ≤ x → 0 ≤ y) := by
  have h1024 : (1024 : ℚ) ≤ 2 ^ 1023 := by
    calc (1024 : ℚ) = 2 ^ 10 := by norm_num
      _ ≤ 2 ^ 1023 := pow_le_pow_right₀ (by norm_num) (by norm_num)
  obtain ⟨y, hy, hclose, hp, _⟩ := roundToDouble_near x (le_trans hx (le_trans hB2 h1024))
  refine ⟨y, hy, ?_, hp⟩
  have h1 : |x| / 2 ^ 53 ≤ B / 2 ^ 53 := div_le_div_of_nonneg_right hx (by positivity)
  have h2 : (1 : ℚ) / 2 ^ 1075 ≤ B / 2 ^ 53 := by
    have h3 : (1 : ℚ) / 2 ^ 1075 ≤ 1 / 2 ^ 53 :=
      one_div_le_one_div_of_le (by positivity)
        (pow_le_pow_right₀ (by norm_num) (by norm_num))
    have h4 : (1 : ℚ) / 2 ^ 53 ≤ B / 2 ^ 53 := div_le_div_of_nonneg_right hB1 (by positivity)
    linarith
  have h5 : B / 2 ^ 53 + B / 2 ^ 53 = B / 2 ^ 52 := by ring
  linarith

theorem ten_pow_307_le : (10 : ℚ) ^ 307 ≤ 2 ^ 1023 := by
  norm_num

/-- Rounding a positive number between `10 ^ (-300)` and `10 ^ 307`: a finite
positive double at a relative distance of at most `2 ^ (-53)`. -/
theorem roundToDouble_pos (x : ℚ) (hlo : 1 / 10 ^ 300 ≤ x) (hhi : x ≤ 10 ^ 307) :
    ∃ y, roundToDouble x = .fin y ∧ x - x / 2 ^ 53 ≤ y ∧ y ≤ x + x / 2 ^ 53 ∧ 0 < y := by
  have hx : 0 < x := lt_of_lt_of_le (by positivity) hlo
  have h1 : (2 : ℚ) ^ (-1022 : ℤ) ≤ |x| := by
    rw [abs_of_pos hx]
    have h2 : (1 : ℚ) / 2 ^ 1000 ≤ 1 / 10 ^ 300 :=
      one_div_le_one_div_of_le (by positivity) ten_pow_300_le
    exact le_trans two_zpow_neg_1022_le (le_trans h2 hlo)
  have h2 : |x| ≤ (2 : ℚ) ^ 1023 := by
    rw [abs_of_pos hx]
    exact le_trans hhi ten_pow_307_le
  obtain ⟨y, hy, hclose, hp, _⟩ := roundToDouble_spec x h1 h2
  rw [abs_of_pos hx, abs_le] at hclose
  exact ⟨y, hy, by linarith [hclose.1], by linarith [hclose.2], hp hx⟩

/-- Rounding a number of magnitude at most `10 ^ 300`: a finite double, of
magnitude at most twice that of the number plus one. -/
theorem roundToDouble_fin (x : ℚ) (h : |x| ≤ 10 ^ 300) :
    ∃ y, roundToDouble x = .fin y ∧ |y| ≤ 2 * |x| + 1 := by
  have h2 : |x| ≤ (2 : ℚ) ^ 1023 := by
    have : (2 : ℚ) ^ 1000 ≤ 2 ^ 1023 := pow_le_pow_right₀ (by norm_num) (by norm_num)
    exact le_trans h (le_trans ten_pow_300_le this)
  obtain ⟨y, hy, hclose, _, _⟩ := roundToDouble_near x h2
  refine ⟨y, hy, ?_⟩
  have h3 : |y| ≤ |y - x| + |x| := by
    have := abs_add (y - x) x
    rwa [sub_add_cancel] at this
  have h4 : |x| / 2 ^ 53 ≤ |x| := div_le_self (abs_nonneg x) (by norm_num)
  have h5 : (1 : ℚ) / 2 ^ 1075 ≤ 1 := by
    rw [div_le_one (by positivity)]
    exact one_le_pow₀ (by norm_num)
  linarith
/-! ### The steps of `performCalculations` on doubles -/

/-- With valid funds, the fields `performCalculations` writes after the
leverage step, in terms of the outcome of that step. -/
theorem performCalculationsD_resolved (inp : InputsD) (st : StateD)
    (hf : truthyD inp.parsedFunds = true) :
    (performCalculationsD inp st).error =
      (resolveLeverageD inp.direction inp.manualLeverageInput inp.parsedEntry
        inp.parsedLiqPreset).currentError ∧
    (performCalculationsD inp st).derivedLeverage =
      (resolveLeverageD inp.direction inp.manualLeverageInput inp.parsedEntry
        inp.parsedLiqPreset).derivedLeverage ∧
    (performCalculationsD inp st).finalLeverage =
      (if (resolveLeverageD inp.direction inp.manualLeverageInput inp.parsedEntry
          inp.parsedLiqPreset).currentError.isSome = true then none
       else (resolveLeverageD inp.direction inp.manualLeverageInput inp.parsedEntry
          inp.parsedLiqPreset).leverageToUse) ∧
    (performCalculationsD inp st).calculationResult =
      (if (resolveLeverageD inp.direction inp.manualLeverageInput inp.parsedEntry
          inp.parsedLiqPreset).currentError.isSome = true then none
       else calcPnlD inp.direction inp.usdtToTwd
        (calcSizeD (calcMarginD inp.parsedFunds inp.parsedPosPercent)
          (resolveLeverageD inp.direction inp.manualLeverageInput inp.parsedEntry
            inp.parsedLiqPreset).leverageToUse inp.parsedEntry)
        (resolveLeverageD inp.direction inp.manualLeverageInput inp.parsedEntry
          inp.parsedLiqPreset).leverageToUse inp.parsedEntry inp.parsedTarget) := by
  unfold performCalculationsD
  simp only [hf, Bool.not_true, Bool.false_eq_true, if_false]
  by_cases he : (resolveLeverageD inp.direction inp.manualLeverageInput inp.parsedEntry
      inp.parsedLiqPreset).currentError.isSome = true
  · rw [if_pos he, if_pos he, if_pos he]
    exact ⟨rfl, rfl, rfl, rfl⟩
  · rw [if_neg he, if_neg he, if_neg he]
    exact ⟨rfl, rfl, rfl, rfl⟩

/-- The leverage step when no manual leverage is set and both prices are
valid finite numbers that pass the ordering check: the derivation. -/
theorem resolveLeverageD_derive (direction : Direction) (manual : JsValueD) (e p d v : ℚ)
    (hman : isLeverageManuallySetD manual = false) (he : e ≠ 0) (hp : p ≠ 0)
    (hlong : direction = .long → p < e) (hshort : direction = .short → e < p)
    (hden : derivationDenominatorD direction (.fin e) (.fin p) = .fin d)
    (hd : 4835703278458517 / 4835703278458516698824704 < d)
    (hlev : roundToDouble (1 / d) = .fin v) :
    resolveLeverageD direction manual (some (.fin e)) (some (.fin p)) =
      if v < 1 ∨ 125 < v then
        { currentError := some (.derivedOutOfRange (toFixedD (.fin v) 2)),
          leverageToUse := none, derivedLeverage := some (.fin v) }
      else
        { currentError := none, leverageToUse := some (.fin v),
          derivedLeverage := some (.fin v) } := by
  have hd0 : d ≠ 0 := by
    intro h
    rw [h] at hd
    norm_num at hd
  have h1 : ¬ (direction = .long ∧ (Dbl.fin p).ge (.fin e) = true) := by
    rintro ⟨hl, hge⟩
    have : e ≤ p := by simpa [Dbl.ge, Dbl.le] using hge
    exact absurd (hlong hl) (not_lt.2 this)
  have h2 : ¬ (direction = .short ∧ (Dbl.fin p).le (.fin e) = true) := by
    rintro ⟨hl, hle⟩
    have : p ≤ e := by simpa [Dbl.le] using hle
    exact absurd (hshort hl) (not_lt.2 this)
  have h3 : ¬ ((Dbl.fin d).le EPSILON_D = true) := by
    rw [EPSILON_D_eq]
    intro hle
    have : d ≤ 4835703278458517 / 4835703278458516698824704 := by simpa [Dbl.le] using hle
    exact absurd hd (not_lt.2 this)
  have ht : (truthyD (some (.fin e)) && truthyD (some (.fin p))) = true := by
    simp [truthyD, he, hp]
  unfold resolveLeverageD
  rw [hman]
  simp only [Bool.false_eq_true, if_false, ht, if_true]
  rw [if_neg h1, if_neg h2]
  simp only [hden]
  rw [if_neg h3, Dbl.div_fin 1 d hd0, hlev]
  simp only [MIN_LEVERAGE_D, MAX_LEVERAGE_D, Dbl.lt, Dbl.gt, decide_eq_true_eq]
theorem parseValidFloatD_some {value : JsValueD} {min max r : Dbl} {allowZero : Bool}
    (h : parseValidFloatD value min max allowZero = some r)
    (hmin : min.isNaN = false) (hmax : max.isNaN = false) :
    withinLimitsD r min max allowZero = true := by
  rw [parseValidFloatD_eq _ _ _ _ hmin hmax] at h
  cases hread : readsAsD value with
  | none => rw [hread] at h; cases h
  | some d =>
    rw [hread] at h
    simp only at h
    by_cases hw : withinLimitsD d min max allowZero = true
    · rw [if_pos hw] at h
      cases h
      exact hw
    · rw [if_neg hw] at h
      cases h

/-- A finite price the parser accepts is at least the double nearest to 0.01. -/
theorem parsedPrice_ge {value : JsValueD} {x : ℚ}
    (h : parseValidFloatD value CENT_D (.inf false) false = some (.fin x)) :
    5764607523034235 / 576460752303423488 ≤ x := by
  have hw := parseValidFloatD_some h (by rw [CENT_D_eq]; rfl) rfl
  rw [CENT_D_eq] at hw
  simp only [withinLimitsD, Dbl.ge, Dbl.gt, Dbl.le, Dbl.lt, Bool.and_eq_true,
    decide_eq_true_eq] at hw
  exact hw.1.2

/-- The factor of the liquidation-price formula, in doubles, against its
exact value. -/
theorem liqFactorD_close (direction : Direction) (l : ℚ) (hl1 : 1 ≤ l) (hl2 : l ≤ 125) :
    ∃ b, (if direction = .long then
        ((Dbl.fin 1).sub ((Dbl.fin 1).div (.fin l))).add MAINT_MARGIN_RATE_D
      else ((Dbl.fin 1).add ((Dbl.fin 1).div (.fin l))).sub MAINT_MARGIN_RATE_D) = .fin b ∧
      |b - (if direction = .long then 1 - 1 / l + 4 / 1000 else 1 + 1 / l - 4 / 1000)| ≤
        16 / 2 ^ 52 := by
  have hl0 : 0 < l := by linarith
  have ht1 : 1 / 125 ≤ 1 / l := one_div_le_one_div_of_le hl0 hl2
  have ht2 : 1 / l ≤ 1 := by
    rw [div_le_one hl0]
    exact hl1
  rw [MAINT_MARGIN_RATE_D_eq, Dbl.div_fin 1 l hl0.ne.symm]
  generalize 1 / l = t at ht1 ht2 ⊢
  obtain ⟨r, hr, hrc, _⟩ := roundToDouble_abs t 1
    (by rw [abs_le]; constructor <;> linarith) (by norm_num) (by norm_num)
  rw [abs_le] at hrc
  rw [hr]
  by_cases hd : direction = .long
  · simp only [hd, if_true]
    rw [Dbl.sub_fin]
    obtain ⟨a, ha, hac, _⟩ := roundToDouble_abs (1 - r) 2
      (by rw [abs_le]; constructor <;> linarith [hrc.1, hrc.2])
      (by norm_num) (by norm_num)
    rw [abs_le] at hac
    rw [ha, Dbl.add_fin]
    obtain ⟨b, hb, hbc, _⟩ := roundToDouble_abs
      (a + 1152921504606847 / 288230376151711744) 2
      (by rw [abs_le]; constructor <;> linarith [hrc.1, hrc.2, hac.1, hac.2])
      (by norm_num) (by norm_num)
    rw [abs_le] at hbc
    refine ⟨b, hb, ?_⟩
    rw [abs_le]
    constructor <;> linarith [hrc.1, hrc.2, hac.1, hac.2, hbc.1, hbc.2]
  · simp only [hd, if_false]
    rw [Dbl.add_fin]
    obtain ⟨a, ha, hac, _⟩ := roundToDouble_abs (1 + r) 4
      (by rw [abs_le]; constructor <;> linarith [hrc.1, hrc.2])
      (by norm_num) (by norm_num)
    rw [abs_le] at hac
    rw [ha, Dbl.sub_fin]
    obtain ⟨b, hb, hbc, _⟩ := roundToDouble_abs
      (a - 1152921504606847 / 288230376151711744) 4
      (by rw [abs_le]; constructor <;> linarith [hrc.1, hrc.2, hac.1, hac.2])
      (by norm_num) (by norm_num)
    rw [abs_le] at hbc
    refine ⟨b, hb, ?_⟩
    rw [abs_le]
    constructor <;> linarith [hrc.1, hrc.2, hac.1, hac.2, hbc.1, hbc.2]
/-- The liquidation price of the forward formula, in doubles, for an entry
price of at most `1e300`: finite, positive, and its ratio to the entry price
close to the exact factor. -/
theorem liqPriceD_close (direction : Direction) (e l : ℚ) (hl1 : 1 ≤ l) (hl2 : l ≤ 125)
    (he1 : 1 / 1000 ≤ e) (he2 : e ≤ 10 ^ 300) :
    ∃ p, liqPriceD direction (.fin e) (.fin l) = .fin p ∧ 0 < p ∧
      |p / e - (if direction = .long then 1 - 1 / l + 4 / 1000 else 1 + 1 / l - 4 / 1000)| ≤
        17 / 2 ^ 52 := by
  have hl0 : 0 < l := by linarith
  have he0 : 0 < e := by linarith
  have ht1 : 1 / 125 ≤ 1 / l := one_div_le_one_div_of_le hl0 hl2
  have ht2 : 1 / l ≤ 1 := by
    rw [div_le_one hl0]
    exact hl1
  obtain ⟨b, hb, hbc⟩ := liqFactorD_close direction l hl1 hl2
  have hliq : liqPriceD direction (.fin e) (.fin l) = (Dbl.fin e).mul (.fin b) := by
    rw [← hb]
    unfold liqPriceD
    by_cases hd : direction = .long
    · rw [if_pos hd, if_pos hd]
    · rw [if_neg hd, if_neg hd]
  rw [hliq, Dbl.mul_fin]
  generalize 1 / l = t at ht1 ht2 hbc ⊢
  rw [abs_le] at hbc
  have hb1 : 3 / 1000 ≤ b := by
    by_cases hd : direction = .long
    · rw [if_pos hd] at hbc
      linarith [hbc.1]
    · rw [if_neg hd] at hbc
      linarith [hbc.1]
  have hb2 : b ≤ 2 := by
    by_cases hd : direction = .long
    · rw [if_pos hd] at hbc
      linarith [hbc.2]
    · rw [if_neg hd] at hbc
      linarith [hbc.2]
  have hlo : 1 / 10 ^ 300 ≤ e * b := by
    have h1 : (1 : ℚ) / 1000 * (3 / 1000) ≤ e * b :=
      mul_le_mul he1 hb1 (by norm_num) he0.le
    have h2 : (1 : ℚ) / 10 ^ 300 ≤ 1 / 1000 * (3 / 1000) := by norm_num
    exact le_trans h2 h1
  have hhi : e * b ≤ 10 ^ 307 := by
    have h1 : e * b ≤ 10 ^ 300 * 2 := mul_le_mul he2 hb2 (by linarith) (by positivity)
    have h2 : (10 : ℚ) ^ 300 * 2 ≤ 10 ^ 307 := by norm_num
    exact le_trans h1 h2
  obtain ⟨p, hp, hp1, hp2, hp0⟩ := roundToDouble_pos (e * b) hlo hhi
  refine ⟨p, hp, hp0, ?_⟩
  have h1 : p / e ≤ b + b / 2 ^ 53 := by
    rw [div_le_iff₀ he0]
    have : (b + b / 2 ^ 53) * e = e * b + e * b / 2 ^ 53 := by ring
    linarith
  have h2 : b - b / 2 ^ 53 ≤ p / e := by
    rw [le_div_iff₀ he0]
    have : (b - b / 2 ^ 53) * e = e * b - e * b / 2 ^ 53 := by ring
    linarith
  rw [abs_le]
  constructor <;> linarith [hbc.1, hbc.2]

/-- The denominator of the derivation, in doubles, for a liquidation price
whose ratio to the entry price is close to the factor for `1 / t`. -/
theorem derivationDenominatorD_close (direction : Direction) (e p t : ℚ) (he : 0 < e)
    (ht1 : 1 / 125 ≤ t) (ht2 : t ≤ 1)
    (h : |p / e - (if direction = .long then 1 - t + 4 / 1000 else 1 + t - 4 / 1000)| ≤
      17 / 2 ^ 52) :
    ∃ d, derivationDenominatorD direction (.fin e) (.fin p) = .fin d ∧
      |d - t| ≤ 30 / 2 ^ 52 := by
  rw [abs_le] at h
  unfold derivationDenominatorD
  rw [MAINT_MARGIN_RATE_D_eq, Dbl.div_fin p e he.ne.symm]
  generalize p / e = x at h
  by_cases hd : direction = .long
  · rw [if_pos hd] at h ⊢
    obtain ⟨q, hq, hqc, _⟩ := roundToDouble_abs x 2
      (by rw [abs_le]; constructor <;> linarith [h.1, h.2]) (by norm_num) (by norm_num)
    rw [abs_le] at hqc
    rw [hq, Dbl.add_fin]
    obtain ⟨c, hc, hcc, _⟩ := roundToDouble_abs (1 + 1152921504606847 / 288230376151711744) 2
      (by rw [abs_le]; constructor <;> norm_num) (by norm_num) (by norm_num)
    rw [abs_le] at hcc
    rw [hc, Dbl.sub_fin]
    obtain ⟨d, hdd, hdc, _⟩ := roundToDouble_abs (c - q) 4
      (by rw [abs_le]; constructor <;> linarith [h.1, h.2, hqc.1, hqc.2, hcc.1, hcc.2])
      (by norm_num) (by norm_num)
    rw [abs_le] at hdc
    refine ⟨d, hdd, ?_⟩
    rw [abs_le]
    constructor <;> linarith [h.1, h.2, hqc.1, hqc.2, hcc.1, hcc.2, hdc.1, hdc.2]
  · rw [if_neg hd] at h ⊢
    obtain ⟨q, hq, hqc, _⟩ := roundToDouble_abs x 4
      (by rw [abs_le]; constructor <;> linarith [h.1, h.2]) (by norm_num) (by norm_num)
    rw [abs_le] at hqc
    rw [hq, Dbl.sub_fin]
    obtain ⟨c, hc, hcc, _⟩ := roundToDouble_abs (q - 1) 4
      (by rw [abs_le]; constructor <;> linarith [h.1, h.2, hqc.1, hqc.2])
      (by norm_num) (by norm_num)
    rw [abs_le] at hcc
    rw [hc, Dbl.add_fin]
    obtain ⟨d, hdd, hdc, _⟩ := roundToDouble_abs (c + 1152921504606847 / 288230376151711744) 4
      (by rw [abs_le]; constructor <;> linarith [h.1, h.2, hqc.1, hqc.2, hcc.1, hcc.2])
      (by norm_num) (by norm_num)
    rw [abs_le] at hdc
    refine ⟨d, hdd, ?_⟩
    rw [abs_le]
    constructor <;> linarith [h.1, h.2, hqc.1, hqc.2, hcc.1, hcc.2, hdc.1, hdc.2]

/-- The leverage derived from a denominator close to `t`, in doubles, against
`1 / t`. -/
theorem derivedLeverageD_close (d t : ℚ) (ht1 : 1 / 125 ≤ t)
    (h : |d - t| ≤ 30 / 2 ^ 52) :
    ∃ v, roundToDouble (1 / d) = .fin v ∧ |v - 1 / t| ≤ 1 / 10 ^ 9 := by
  rw [abs_le] at h
  have hd1 : 79 / 10000 ≤ d := by linarith [h.1]
  have hd0 : 0 < d := by linarith
  have ht0 : 0 < t := by linarith
  have hinv : 1 / d ≤ 10000 / 79 := by
    rw [div_le_div_iff₀ hd0 (by norm_num)]
    linarith
  have hinv0 : 0 < 1 / d := by positivity
  obtain ⟨v, hv, hvc, _⟩ := roundToDouble_abs (1 / d) 256
    (by rw [abs_of_pos hinv0]; linarith) (by norm_num) (by norm_num)
  refine ⟨v, hv, ?_⟩
  have hdiff : 1 / d - 1 / t = (t - d) / (d * t) := by
    field_simp
  have hprod : 79 / 10000 * (1 / 125) ≤ d * t := mul_le_mul hd1 ht1 (by norm_num) hd0.le
  have hprod0 : 0 < d * t := by positivity
  have habs : |1 / d - 1 / t| ≤ 30 / 2 ^ 52 / (79 / 10000 * (1 / 125)) := by
    rw [hdiff, abs_div, abs_of_pos hprod0]
    apply div_le_div₀ (by norm_num) _ (by norm_num) hprod
    rw [abs_le]
    constructor <;> linarith [h.1, h.2]
  rw [abs_le] at hvc habs ⊢
  constructor <;> norm_num at habs hvc ⊢ <;> linarith [hvc.1, hvc.2, habs.1, habs.2]

theorem parseValidFloatD_num (d min max : Dbl) (allowZero : Bool) (hd : d.isNaN = false)
    (hw : withinLimitsD d min max allowZero = true) :
    parseValidFloatD (.num d) min max allowZero = some d := by
  unfold parseValidFloatD
  unfold withinLimitsD at hw
  simp only [hd, Bool.false_eq_true, if_false, hw, if_true]

/-- The leverage step for an entry price and the liquidation price the forward
formula gives for it and a leverage `l`: the derivation runs and recovers a
leverage within `1e-9` of `l`. -/
theorem resolveLeverageD_round_trip (direction : Direction) (manual : JsValueD) (e l p : ℚ)
    (hman : isLeverageManuallySetD manual = false) (hL1 : 1 ≤ l) (hL2 : l ≤ 125)
    (he1 : 1 / 1000 ≤ e) (he2 : e ≤ 10 ^ 300)
    (hp : liqPriceD direction (.fin e) (.fin l) = .fin p) :
    ∃ v : ℚ, |v - l| ≤ 1 / 10 ^ 9 ∧
      resolveLeverageD direction manual (some (.fin e)) (some (.fin p)) =
        if v < 1 ∨ 125 < v then
          { currentError := some (.derivedOutOfRange (toFixedD (.fin v) 2)),
            leverageToUse := none, derivedLeverage := some (.fin v) }
        else
          { currentError := none, leverageToUse := some (.fin v),
            derivedLeverage := some (.fin v) } := by
  have hl0 : 0 < l := by linarith
  have he0 : 0 < e := by linarith
  have ht1 : 1 / 125 ≤ 1 / l := one_div_le_one_div_of_le hl0 hL2
  have ht2 : 1 / l ≤ 1 := by
    rw [div_le_one hl0]
    exact hL1
  obtain ⟨p', hp', hp0, hpc⟩ := liqPriceD_close direction e l hL1 hL2 he1 he2
  rw [hp] at hp'
  cases hp'
  obtain ⟨d, hd, hdc⟩ := derivationDenominatorD_close direction e p (1 / l) he0 ht1 ht2
    hpc
  obtain ⟨v, hv, hvc⟩ := derivedLeverageD_close d (1 / l) ht1 hdc
  rw [one_div_one_div] at hvc
  refine ⟨v, hvc, ?_⟩
  rw [abs_le] at hpc hdc
  have hlong : direction = .long → p < e := by
    intro hdir
    rw [if_pos hdir] at hpc
    have : p / e < 1 := by linarith [hpc.2]
    rwa [div_lt_one he0] at this
  have hshort : direction = .short → e < p := by
    intro hdir
    rw [if_neg (by rw [hdir]; decide)] at hpc
    have : 1 < p / e := by linarith [hpc.1]
    rwa [one_lt_div he0] at this
  exact resolveLeverageD_derive direction manual e p d v hman he0.ne.symm hp0.ne.symm
    hlong hshort hd (by linarith [hdc.1]) hv

/-- A finite number from the double nearest 0.01 on is a valid price. -/
theorem parseValidFloatD_num_price (x : ℚ) (hx : 5764607523034235 / 576460752303423488 ≤ x) :
    parseValidFloatD (.num (.fin x)) CENT_D (.inf false) false = some (.fin x) := by
  apply parseValidFloatD_num (.fin x) _ _ _ rfl
  rw [CENT_D_eq]
  have h0 : (0 : ℚ) < x := by linarith
  simp [withinLimitsD, Dbl.gt, Dbl.lt, Dbl.ge, Dbl.le, h0, hx]

/-- A finite number below the double nearest 0.01 is no valid price. -/
theorem parseValidFloatD_num_small (x : ℚ) (hx : x < 5764607523034235 / 576460752303423488) :
    parseValidFloatD (.num (.fin x)) CENT_D (.inf false) false = none := by
  unfold parseValidFloatD
  rw [CENT_D_eq]
  simp [Dbl.isNaN, Dbl.gt, Dbl.lt, Dbl.ge, Dbl.le, hx]

theorem resolveLeverageD_incomplete (direction : Direction) (manual : JsValueD)
    (parsedEntry parsedLiqPreset : Option Dbl) (hm : isLeverageManuallySetD manual = false)
    (hi : parsedEntry = none ∨ parsedLiqPreset = none) :
    resolveLeverageD direction manual parsedEntry parsedLiqPreset =
      { currentError := none, leverageToUse := none, derivedLeverage := none } := by
  unfold resolveLeverageD
  simp only [hm, Bool.false_eq_true, if_false]
  rcases hi with h | h
  · rw [h]
  · rw [h]
    cases parsedEntry <;> rfl

theorem roundTripInputsD_funds (direction : Direction) (entry leverage : Dbl) :
    truthyD (roundTripInputsD direction entry leverage).parsedFunds = true := by
  have h : (roundTripInputsD direction entry leverage).parsedFunds = some (.fin 1000) :=
    parseValidFloatD_num_price 1000 (by norm_num)
  rw [h]
  simp [truthyD]
/-! ### The margin, the position size and the total risk in doubles -/

/-- The margin computed from valid funds of at most `1e100` and a valid
percentage: a finite number between `9e-5` and `2e100`. -/
theorem calcMarginD_bounds (F p : ℚ) (hF1 : 1 / 100 ≤ F) (hF2 : F ≤ 10 ^ 100)
    (hp1 : 1 ≤ p) (hp2 : p ≤ 100) :
    ∃ M, calcMarginD (some (.fin F)) (some (.fin p)) = .fin M ∧ 9 / 10 ^ 5 ≤ M ∧
      M ≤ 2 * 10 ^ 100 := by
  have hF0 : 0 < F := by linarith
  have hp0 : 0 < p := by linarith
  have ht : (truthyD (some (.fin F)) && truthyD (some (.fin p))) = true := by
    simp [truthyD, hF0.ne.symm, hp0.ne.symm]
  have hx1 : 1 / 100 ≤ F * p := by nlinarith
  have hx2 : F * p ≤ 10 ^ 100 * 100 := mul_le_mul hF2 hp2 hp0.le (by positivity)
  obtain ⟨y1, hy1, hy1a, hy1b, hy10⟩ := roundToDouble_pos (F * p)
    (le_trans (by norm_num) hx1) (le_trans hx2 (by norm_num))
  obtain ⟨M, hM, hMa, hMb, hM0⟩ := roundToDouble_pos (y1 / 100)
    (by
      have : (1 : ℚ) / 10 ^ 300 ≤ 1 / 10 ^ 5 := by norm_num
      linarith)
    (by
      have : (10 : ℚ) ^ 100 * 100 * 2 / 100 ≤ 10 ^ 307 := by norm_num
      linarith)
  refine ⟨M, ?_, by linarith, by linarith⟩
  unfold calcMarginD
  simp only [ht, if_true]
  rw [Dbl.mul_fin, hy1, Dbl.div_fin _ _ (by norm_num), hM]

/-- The position size computed from a margin, a leverage in `[1, 125]` and an
entry price: a finite positive number whose product with the entry price is
the product of margin and leverage up to two roundings. -/
theorem calcSizeD_bounds (M L E : ℚ) (hM1 : 9 / 10 ^ 5 ≤ M) (hM2 : M ≤ 2 * 10 ^ 100)
    (hL1 : 1 ≤ L) (hL2 : L ≤ 125) (hE1 : 1 / 100 ≤ E) (hE2 : E ≤ 10 ^ 100) :
    ∃ S, calcSizeD (.fin M) (some (.fin L)) (some (.fin E)) = .fin S ∧
      1 / 10 ^ 105 ≤ S ∧ S ≤ 10 ^ 105 ∧
      M * L - 3 * (M * L) / 2 ^ 53 ≤ S * E ∧ S * E ≤ M * L + 3 * (M * L) / 2 ^ 53 := by
  have hM0 : 0 < M := by linarith
  have hL0 : 0 < L := by linarith
  have hE0 : 0 < E := by linarith
  have ht : ((Dbl.fin M).gt (.fin 0) && truthyD (some (.fin E))) = true := by
    simp [truthyD, Dbl.gt, Dbl.lt, hM0, hE0.ne.symm]
  have hK1 : 9 / 10 ^ 5 ≤ M * L := by nlinarith
  have hK2 : M * L ≤ 2 * 10 ^ 100 * 125 := mul_le_mul hM2 hL2 hL0.le (by positivity)
  obtain ⟨y2, hy2, hy2a, hy2b, hy20⟩ := roundToDouble_pos (M * L)
    (le_trans (by norm_num) hK1) (le_trans hK2 (by norm_num))
  have hx1 : y2 / 10 ^ 100 ≤ y2 / E := div_le_div_of_nonneg_left hy20.le hE0 hE2
  have hx2 : y2 / E ≤ y2 / (1 / 100) := div_le_div_of_nonneg_left hy20.le (by norm_num) hE1
  have hx3 : y2 / (1 / 100) = y2 * 100 := by ring
  obtain ⟨S, hS, hSa, hSb, hS0⟩ := roundToDouble_pos (y2 / E)
    (by
      have : (1 : ℚ) / 10 ^ 300 ≤ 8 / 10 ^ 5 / 10 ^ 100 := by norm_num
      have h2 : (8 : ℚ) / 10 ^ 5 / 10 ^ 100 ≤ y2 / 10 ^ 100 :=
        div_le_div_of_nonneg_right (by linarith) (by positivity)
      linarith)
    (by
      have : (2 : ℚ) * 10 ^ 100 * 125 * 2 * 100 ≤ 10 ^ 307 := by norm_num
      linarith)
  have hxE : y2 / E * E = y2 := div_mul_cancel₀ y2 hE0.ne.symm
  have hW1 : (y2 / E - y2 / E / 2 ^ 53) * E ≤ S * E := mul_le_mul_of_nonneg_right hSa hE0.le
  have hW2 : S * E ≤ (y2 / E + y2 / E / 2 ^ 53) * E := mul_le_mul_of_nonneg_right hSb hE0.le
  have hW3 : (y2 / E - y2 / E / 2 ^ 53) * E = y2 - y2 / 2 ^ 53 := by
    have : (y2 / E - y2 / E / 2 ^ 53) * E = y2 / E * E - y2 / E * E / 2 ^ 53 := by ring
    rw [this, hxE]
  have hW4 : (y2 / E + y2 / E / 2 ^ 53) * E = y2 + y2 / 2 ^ 53 := by
    have : (y2 / E + y2 / E / 2 ^ 53) * E = y2 / E * E + y2 / E * E / 2 ^ 53 := by ring
    rw [this, hxE]
  have hx0 : 0 < y2 / E := div_pos hy20 hE0
  refine ⟨S, ?_, ?_, ?_, by linarith, by linarith⟩
  · unfold calcSizeD
    simp only [ht, if_true]
    rw [Dbl.mul_fin, hy2, Dbl.div_fin _ _ hE0.ne.symm, hS]
  · have : (1 : ℚ) / 10 ^ 105 ≤ 8 / 10 ^ 5 / 10 ^ 100 / 2 := by norm_num
    have h2 : (8 : ℚ) / 10 ^ 5 / 10 ^ 100 ≤ y2 / 10 ^ 100 :=
      div_le_div_of_nonneg_right (by linarith) (by positivity)
    have h3 : y2 / E / 2 ^ 53 ≤ y2 / E / 2 :=
      div_le_div_of_nonneg_left hx0.le (by norm_num) (by norm_num)
    linarith
  · have : (2 : ℚ) * 10 ^ 100 * 125 * 2 * 100 * 2 ≤ 10 ^ 105 := by norm_num
    have h3 : y2 / E / 2 ^ 53 ≤ y2 / E := div_le_self hx0.le (by norm_num)
    linarith
/-- Rounding a positive number between two bounds within `10 ^ (-300)` and
`10 ^ 300`. -/
theorem roundToDouble_pos_of_bounds (x lo hi : ℚ) (h1 : lo ≤ x) (h2 : x ≤ hi)
    (hlo : 1 / 10 ^ 300 ≤ lo) (hhi : hi ≤ 10 ^ 300) :
    ∃ y, roundToDouble x = .fin y ∧ x - x / 2 ^ 53 ≤ y ∧ y ≤ x + x / 2 ^ 53 ∧ 0 < y :=
  roundToDouble_pos x (le_trans hlo h1) (le_trans h2 (le_trans hhi (by norm_num)))

/-- The total risk of a long position from the bounds of its parts. `K` is
margin times leverage, `W` the exact product of size and entry price, `Z` is
`W` divided by the leverage, `V` the entry value and `EF` the entry fee. -/
theorem totalRiskD_of_long (M K W Z S V EF A : ℚ)
    (hM1 : 9 / 10 ^ 5 ≤ M) (hM2 : M ≤ 2 * 10 ^ 100) (hK1 : M ≤ K) (hK2 : K ≤ 125 * M)
    (hW1 : K - 3 * K / 2 ^ 53 ≤ W) (hW2 : W ≤ K + 3 * K / 2 ^ 53)
    (hZ1 : M - 3 * M / 2 ^ 53 ≤ Z)
    (hV1 : W - W / 2 ^ 53 ≤ V)
    (hEF1 : V * (1152921504606847 / 2305843009213693952) -
      V * (1152921504606847 / 2305843009213693952) / 2 ^ 53 ≤ EF)
    (hEF2 : EF ≤ V)
    (hV2 : V ≤ W + W / 2 ^ 53)
    (hQ1 : 3 / 1000 * W ≤ S * A)
    (hQ2 : S * A ≤ W - Z + 4 / 1000 * W + 17 / 2 ^ 52 * W) :
    ∃ risk, totalRiskD .long (.fin S) (.fin V) (.fin EF) (.fin A) = .fin risk ∧
      M - 4 / 1000 * K ≤ risk ∧ risk ≤ 10 ^ 104 := by
  unfold totalRiskD
  simp only [if_true]
  rw [feeRateD_eq, Dbl.mul_fin]
  obtain ⟨R, hR, hRa, hRb, hR0⟩ := roundToDouble_pos_of_bounds (S * A) (1 / 10 ^ 12)
    (10 ^ 110) (by linarith) (by linarith) (by norm_num) (by norm_num)
  rw [hR, Dbl.sub_fin, Dbl.mul_fin]
  have hVR : M / 4 ≤ V - R := by linarith
  obtain ⟨PL, hPL, hPLa, hPLb, hPL0⟩ := roundToDouble_pos_of_bounds (V - R) (1 / 10 ^ 12)
    (10 ^ 110) (by linarith) (by linarith) (by norm_num) (by norm_num)
  obtain ⟨RF, hRF, hRFa, hRFb, hRF0⟩ := roundToDouble_pos_of_bounds
    (R * (1152921504606847 / 2305843009213693952)) (1 / 10 ^ 12) (10 ^ 110)
    (by linarith) (by linarith) (by norm_num) (by norm_num)
  rw [hPL, hRF, Dbl.add_fin]
  obtain ⟨s1, hs1, hs1a, hs1b, hs10⟩ := roundToDouble_pos_of_bounds (PL + EF) (1 / 10 ^ 12)
    (10 ^ 110) (by linarith) (by linarith) (by norm_num) (by norm_num)
  rw [hs1, Dbl.add_fin]
  obtain ⟨risk, hrisk, hriska, hriskb, hrisk0⟩ := roundToDouble_pos_of_bounds (s1 + RF)
    (1 / 10 ^ 12) (10 ^ 110) (by linarith) (by linarith) (by norm_num) (by norm_num)
  exact ⟨risk, hrisk, by linarith, by linarith⟩

/-- The total risk of a short position from the bounds of its parts (see
`totalRiskD_of_long`). -/
theorem totalRiskD_of_short (direction : Direction) (hd : ¬ direction = .long)
    (M K W Z S V EF A : ℚ)
    (hM1 : 9 / 10 ^ 5 ≤ M) (hM2 : M ≤ 2 * 10 ^ 100) (hK1 : M ≤ K) (hK2 : K ≤ 125 * M)
    (hW1 : K - 3 * K / 2 ^ 53 ≤ W) (hW2 : W ≤ K + 3 * K / 2 ^ 53)
    (hZ1 : M - 3 * M / 2 ^ 53 ≤ Z)
    (hV1 : W - W / 2 ^ 53 ≤ V)
    (hEF1 : V * (1152921504606847 / 2305843009213693952) -
      V * (1152921504606847 / 2305843009213693952) / 2 ^ 53 ≤ EF)
    (hEF2 : EF ≤ V)
    (hV2 : V ≤ W + W / 2 ^ 53)
    (hQ1 : W + Z - 4 / 1000 * W - 17 / 2 ^ 52 * W ≤ S * A)
    (hQ2 : S * A ≤ 3 * W) :
    ∃ risk, totalRiskD direction (.fin S) (.fin V) (.fin EF) (.fin A) = .fin risk ∧
      M - 4 / 1000 * K ≤ risk ∧ risk ≤ 10 ^ 104 := by
  unfold totalRiskD
  simp only [hd, if_false]
  rw [feeRateD_eq, Dbl.mul_fin]
  obtain ⟨R, hR, hRa, hRb, hR0⟩ := roundToDouble_pos_of_bounds (S * A) (1 / 10 ^ 12)
    (10 ^ 110) (by linarith) (by linarith) (by norm_num) (by norm_num)
  rw [hR, Dbl.sub_fin, Dbl.mul_fin]
  have hVR : M / 4 ≤ R - V := by linarith
  obtain ⟨PL, hPL, hPLa, hPLb, hPL0⟩ := roundToDouble_pos_of_bounds (R - V) (1 / 10 ^ 12)
    (10 ^ 110) (by linarith) (by linarith) (by norm_num) (by norm_num)
  obtain ⟨RF, hRF, hRFa, hRFb, hRF0⟩ := roundToDouble_pos_of_bounds
    (R * (1152921504606847 / 2305843009213693952)) (1 / 10 ^ 12) (10 ^ 110)
    (by linarith) (by linarith) (by norm_num) (by norm_num)
  rw [hPL, hRF, Dbl.add_fin]
  obtain ⟨s1, hs1, hs1a, hs1b, hs10⟩ := roundToDouble_pos_of_bounds (PL + EF) (1 / 10 ^ 12)
    (10 ^ 110) (by linarith) (by linarith) (by norm_num) (by norm_num)
  rw [hs1, Dbl.add_fin]
  obtain ⟨risk, hrisk, hriska, hriskb, hrisk0⟩ := roundToDouble_pos_of_bounds (s1 + RF)
    (1 / 10 ^ 12) (10 ^ 110) (by linarith) (by linarith) (by norm_num) (by norm_num)
  exact ⟨risk, hrisk, by linarith, by linarith⟩

/-- The total risk of a position, in doubles: a finite number that is at least
`margin * (1 - 0.004 * leverage)`. Here `M` is the margin, `S` the position
size, and `S * E` is `M * L` up to the roundings of the size. -/
theorem totalRiskD_bounds (direction : Direction) (M L E S : ℚ)
    (hM1 : 9 / 10 ^ 5 ≤ M) (hM2 : M ≤ 2 * 10 ^ 100) (hL1 : 1 ≤ L) (hL2 : L ≤ 125)
    (hE1 : 1 / 100 ≤ E) (hE2 : E ≤ 10 ^ 100) (hS0 : 0 < S)
    (hW1 : M * L - 3 * (M * L) / 2 ^ 53 ≤ S * E)
    (hW2 : S * E ≤ M * L + 3 * (M * L) / 2 ^ 53) :
    ∃ V A risk, (Dbl.fin S).mul (.fin E) = .fin V ∧ 0 < V ∧ V ≤ 10 ^ 103 ∧
      liqPriceD direction (.fin E) (.fin L) = .fin A ∧ 0 < A ∧
      totalRiskD direction (.fin S) (.fin V) ((Dbl.fin V).mul feeRateD) (.fin A) = .fin risk ∧
      M * (1 - 4 / 1000 * L) ≤ risk ∧ risk ≤ 10 ^ 104 := by
  have hM0 : 0 < M := by linarith
  have hL0 : 0 < L := by linarith
  have hE0 : 0 < E := by linarith
  have hK1 : M ≤ M * L := by nlinarith
  have hK2 : M * L ≤ 125 * M := by nlinarith
  obtain ⟨A, hA, hA0, hAc⟩ := liqPriceD_close direction E L hL1 hL2 (by linarith)
    (le_trans hE2 (by norm_num))
  rw [abs_le] at hAc
  have hZ1 : M - 3 * M / 2 ^ 53 ≤ S * E / L := by
    have h := div_le_div_of_nonneg_right hW1 hL0.le
    have e : (M * L - 3 * (M * L) / 2 ^ 53) / L = M - 3 * M / 2 ^ 53 := by
      field_simp
      ring
    rwa [e] at h
  have hW0 : 0 < S * E := mul_pos hS0 hE0
  have hQ : S * A = S * E * (A / E) := by
    rw [mul_assoc, mul_div_cancel₀ A hE0.ne.symm]
  have hZ : S * E * (1 / L) = S * E / L := by ring
  obtain ⟨V, hV, hVa, hVb, hV0⟩ := roundToDouble_pos_of_bounds (S * E) (1 / 10 ^ 12) (10 ^ 110)
    (by linarith) (by linarith) (by norm_num) (by norm_num)
  obtain ⟨EF, hEF, hEFa, hEFb, hEF0⟩ := roundToDouble_pos_of_bounds
    (V * (1152921504606847 / 2305843009213693952)) (1 / 10 ^ 12) (10 ^ 110)
    (by linarith) (by linarith) (by norm_num) (by norm_num)
  have hM : M * (1 - 4 / 1000 * L) = M - 4 / 1000 * (M * L) := by ring
  have hEFV : EF ≤ V := by linarith
  by_cases hd : direction = .long
  · rw [if_pos hd] at hAc
    have hQ1 : 3 / 1000 * (S * E) ≤ S * A := by
      rw [hQ, mul_comm (3 / 1000 : ℚ)]
      apply mul_le_mul_of_nonneg_left _ hW0.le
      have : 1 / L ≤ 1 := by
        rw [div_le_one hL0]
        exact hL1
      linarith [hAc.1]
    have hQ2 : S * A ≤ S * E - S * E / L + 4 / 1000 * (S * E) + 17 / 2 ^ 52 * (S * E) := by
      have h : S * E * (A / E) ≤ S * E * (1 - 1 / L + 4 / 1000 + 17 / 2 ^ 52) := by
        apply mul_le_mul_of_nonneg_left _ hW0.le
        linarith [hAc.2]
      have e : S * E * (1 - 1 / L + 4 / 1000 + 17 / 2 ^ 52) =
          S * E - S * E * (1 / L) + 4 / 1000 * (S * E) + 17 / 2 ^ 52 * (S * E) := by ring
      rw [e, hZ] at h
      rw [hQ]
      exact h
    obtain ⟨risk, hrisk, hr1, hr2⟩ := totalRiskD_of_long M (M * L) (S * E) (S * E / L) S V EF A
      hM1 hM2 hK1 hK2 hW1 hW2 hZ1 hVa hEFa hEFV hVb hQ1 hQ2
    refine ⟨V, A, risk, by rw [Dbl.mul_fin, hV], hV0, by linarith, hA, hA0, ?_,
      by rw [hM]; exact hr1, hr2⟩
    rw [feeRateD_eq, Dbl.mul_fin, hEF, hd]
    exact hrisk
  · rw [if_neg hd] at hAc
    have hQ2 : S * A ≤ 3 * (S * E) := by
      rw [hQ, mul_comm (3 : ℚ)]
      apply mul_le_mul_of_nonneg_left _ hW0.le
      have : 1 / L ≤ 1 := by
        rw [div_le_one hL0]
        exact hL1
      linarith [hAc.2]
    have hQ1 : S * E + S * E / L - 4 / 1000 * (S * E) - 17 / 2 ^ 52 * (S * E) ≤ S * A := by
      have h : S * E * (1 + 1 / L - 4 / 1000 - 17 / 2 ^ 52) ≤ S * E * (A / E) := by
        apply mul_le_mul_of_nonneg_left _ hW0.le
        linarith [hAc.1]
      have e : S * E * (1 + 1 / L - 4 / 1000 - 17 / 2 ^ 52) =
          S * E + S * E * (1 / L) - 4 / 1000 * (S * E) - 17 / 2 ^ 52 * (S * E) := by ring
      rw [e, hZ] at h
      rw [hQ]
      exact h
    obtain ⟨risk, hrisk, hr1, hr2⟩ := totalRiskD_of_short direction hd M (M * L) (S * E)
      (S * E / L) S V EF A hM1 hM2 hK1 hK2 hW1 hW2 hZ1 hVa hEFa hEFV hVb hQ1 hQ2
    refine ⟨V, A, risk, by rw [Dbl.mul_fin, hV], hV0, by linarith, hA, hA0, ?_,
      by rw [hM]; exact hr1, hr2⟩
    rw [feeRateD_eq, Dbl.mul_fin, hEF]
    exact hrisk
/-- Rounding a number of magnitude at most `B`, for a bound between 1 and
`10 ^ 299`: a finite double of magnitude at most `3 * B`. -/
theorem roundToDouble_fin_of_bounds (x B : ℚ) (h1 : -B ≤ x) (h2 : x ≤ B) (hB1 : 1 ≤ B)
    (hB2 : B ≤ 10 ^ 299) :
    ∃ y, roundToDouble x = .fin y ∧ -(3 * B) ≤ y ∧ y ≤ 3 * B := by
  have hx : |x| ≤ B := abs_le.2 ⟨h1, h2⟩
  have h300 : (10 : ℚ) ^ 299 ≤ 10 ^ 300 := pow_le_pow_right₀ (by norm_num) (by norm_num)
  obtain ⟨y, hy, hb⟩ := roundToDouble_fin x (le_trans hx (le_trans hB2 h300))
  have hy3 : |y| ≤ 3 * B := by linarith
  rw [abs_le] at hy3
  exact ⟨y, hy, hy3.1, hy3.2⟩

/-- The net profit of a position whose size, prices and entry value are
bounded: a finite number. -/
theorem pnlNetD_fin (direction : Direction) (S L E T V : ℚ) (hS0 : 0 < S) (hS2 : S ≤ 10 ^ 105)
    (hT0 : 0 < T) (hT2 : T ≤ 10 ^ 100) (hV : (Dbl.fin S).mul (.fin E) = .fin V)
    (hV0 : 0 < V) (hV2 : V ≤ 10 ^ 103) :
    ∃ net, (pnlLocalsD direction (.fin S) (.fin L) (.fin E) (.fin T)).netPnl = .fin net ∧
      |net| ≤ 10 ^ 210 := by
  have hST0 : 0 < S * T := mul_pos hS0 hT0
  have hST : S * T ≤ 10 ^ 105 * 10 ^ 100 := mul_le_mul hS2 hT2 hT0.le (by positivity)
  have e205 : (10 : ℚ) ^ 105 * 10 ^ 100 = 10 ^ 205 := by norm_num
  rw [e205] at hST
  obtain ⟨X, hX, hX1, hX2⟩ := roundToDouble_fin_of_bounds (S * T) (10 ^ 205)
    (by linarith) hST (by norm_num) (by norm_num)
  obtain ⟨EF, hEF, hEF1, hEF2⟩ := roundToDouble_fin_of_bounds
    (V * (1152921504606847 / 2305843009213693952)) (10 ^ 205)
    (by linarith) (by linarith) (by norm_num) (by norm_num)
  obtain ⟨XF, hXF, hXF1, hXF2⟩ := roundToDouble_fin_of_bounds
    (X * (1152921504606847 / 2305843009213693952)) (10 ^ 205)
    (by linarith) (by linarith) (by norm_num) (by norm_num)
  obtain ⟨TF, hTF, hTF1, hTF2⟩ := roundToDouble_fin_of_bounds (EF + XF) (10 ^ 206)
    (by linarith) (by linarith) (by norm_num) (by norm_num)
  unfold pnlLocalsD
  simp only []
  rw [hV, feeRateD_eq, Dbl.mul_fin S T, hX, Dbl.mul_fin V, hEF, Dbl.mul_fin X, hXF, Dbl.add_fin,
    hTF]
  by_cases hd : direction = .long
  · rw [if_pos hd, Dbl.sub_fin]
    obtain ⟨G, hG, hG1, hG2⟩ := roundToDouble_fin_of_bounds (X - V) (10 ^ 206)
      (by linarith) (by linarith) (by norm_num) (by norm_num)
    rw [hG, Dbl.sub_fin]
    obtain ⟨N, hN, hN1, hN2⟩ := roundToDouble_fin_of_bounds (G - TF) (10 ^ 207)
      (by linarith) (by linarith) (by norm_num) (by norm_num)
    exact ⟨N, hN, abs_le.2 ⟨by linarith, by linarith⟩⟩
  · rw [if_neg hd, Dbl.sub_fin]
    obtain ⟨G, hG, hG1, hG2⟩ := roundToDouble_fin_of_bounds (V - X) (10 ^ 206)
      (by linarith) (by linarith) (by norm_num) (by norm_num)
    rw [hG, Dbl.sub_fin]
    obtain ⟨N, hN, hN1, hN2⟩ := roundToDouble_fin_of_bounds (G - TF) (10 ^ 207)
      (by linarith) (by linarith) (by norm_num) (by norm_num)
    exact ⟨N, hN, abs_le.2 ⟨by linarith, by linarith⟩⟩
theorem resolveLeverageD_manual (direction : Direction) (manual : JsValueD)
    (parsedEntry parsedLiqPreset : Option Dbl) (lev : Dbl)
    (hm : isLeverageManuallySetD manual = true)
    (hp : parseValidFloatD manual MIN_LEVERAGE_D MAX_LEVERAGE_D false = some lev) :
    resolveLeverageD direction manual parsedEntry parsedLiqPreset =
      { currentError := none, leverageToUse := some lev, derivedLeverage := none } := by
  unfold resolveLeverageD
  rw [hm, if_pos rfl, hp]

theorem Dbl.lt_nan (a : Dbl) : a.lt .nan = false := by
  cases a <;> rfl

theorem Dbl.nan_add (b : Dbl) : Dbl.nan.add b = .nan := by
  cases b <;> rfl

theorem Dbl.nan_sub (b : Dbl) : Dbl.nan.sub b = .nan :=
  Dbl.nan_add b.neg

/-- With a position size of `Infinity` the risk/reward ratio reads `"N/A"`. -/
theorem riskRewardTextD_infinite_size (direction : Direction) (E T A : ℚ) (lev : Dbl)
    (hE : 0 < E) (hT : 0 < T) (usdtToTwd : Option Dbl)
    (hA : actualLiqPriceNumD direction (.fin E) lev = .fin A) (hA0 : 0 < A) :
    (pnlResultD direction usdtToTwd (.inf false) lev (.fin E) (.fin T)).rRatio = .text .na := by
  have hV : (Dbl.inf false).mul (.fin E) = .inf false := by
    simp [Dbl.mul, hE.ne.symm, not_lt.2 hE.le]
  have hX : (Dbl.inf false).mul (.fin T) = .inf false := by
    simp [Dbl.mul, hT.ne.symm, not_lt.2 hT.le]
  have hR : (Dbl.inf false).mul (.fin A) = .inf false := by
    simp [Dbl.mul, hA0.ne.symm, not_lt.2 hA0.le]
  have hsub : (Dbl.inf false).sub (.inf false) = .nan := by
    simp [Dbl.sub, Dbl.neg, Dbl.add]
  have hnet : (pnlLocalsD direction (.inf false) lev (.fin E) (.fin T)).netPnl = .nan := by
    unfold pnlLocalsD
    simp only [hV, hX, hsub, ite_self, Dbl.nan_sub]
  have hrisk : totalRiskD direction (.inf false) (.inf false) ((Dbl.inf false).mul feeRateD)
      (.fin A) = .nan := by
    unfold totalRiskD
    simp only [hR, hsub, ite_self, Dbl.nan_add]
  unfold pnlResultD riskRewardTextD
  simp only [hnet]
  have hloc : (pnlLocalsD direction (.inf false) lev (.fin E) (.fin T)).actualLiq = .fin A := hA
  have hev : (pnlLocalsD direction (.inf false) lev (.fin E) (.fin T)).entryValue =
      .inf false := hV
  rw [hloc, hev, hrisk]
  simp [Dbl.isNaN, Dbl.gt, Dbl.lt_nan]
/-- A finite leverage the leverage step resolves lies in `[1, 125]`. -/
theorem resolveLeverageD_bounds (direction : Direction) (manual : JsValueD)
    (parsedEntry parsedLiqPreset : Option Dbl) (L : ℚ)
    (h : (resolveLeverageD direction manual parsedEntry parsedLiqPreset).leverageToUse =
      some (.fin L)) : 1 ≤ L ∧ L ≤ 125 := by
  unfold resolveLeverageD at h
  by_cases hm : isLeverageManuallySetD manual = true
  · rw [if_pos hm] at h
    cases hp : parseValidFloatD manual MIN_LEVERAGE_D MAX_LEVERAGE_D false with
    | none =>
      rw [hp] at h
      cases h
    | some lev =>
      rw [hp] at h
      have hlev : lev = .fin L := Option.some.inj h
      rw [hlev] at hp
      have hw := parseValidFloatD_some hp rfl rfl
      simp only [withinLimitsD, MIN_LEVERAGE_D, MAX_LEVERAGE_D, Dbl.ge, Dbl.gt, Dbl.le, Dbl.lt,
        Bool.and_eq_true, decide_eq_true_eq] at hw
      exact ⟨hw.1.2, hw.2⟩
  · rw [if_neg hm] at h
    cases parsedEntry with
    | none => cases h
    | some entry =>
      cases parsedLiqPreset with
      | none => cases h
      | some liq =>
        simp only at h
        split at h
        · split at h
          · cases h
          · split at h
            · cases h
            · split at h
              · cases h
              · split at h
                · cases h
                · rename_i hr
                  have hlev : (Dbl.fin 1).div (derivationDenominatorD direction entry liq) =
                      .fin L := Option.some.inj h
                  rw [hlev] at hr
                  simp only [MIN_LEVERAGE_D, MAX_LEVERAGE_D, Dbl.gt, Dbl.lt, decide_eq_true_eq,
                    not_or, not_lt] at hr
                  exact hr
        · cases h
/-- A finite percentage the parser accepts lies in `[1, 100]`. -/
theorem parsedPercent_bounds {value : JsValueD} {x : ℚ}
    (h : parseValidFloatD value (.fin 1) (.fin 100) false = some (.fin x)) :
    1 ≤ x ∧ x ≤ 100 := by
  have hw := parseValidFloatD_some h rfl rfl
  simp only [withinLimitsD, Dbl.ge, Dbl.gt, Dbl.le, Dbl.lt, Bool.and_eq_true,
    decide_eq_true_eq] at hw
  exact ⟨hw.1.2, hw.2⟩

theorem calcPnlD_some (direction : Direction) (usdtToTwd : Option Dbl) (S E T : ℚ) (lev : Dbl)
    (hS : 0 < S) (hE : E ≠ 0) (hT : T ≠ 0) :
    calcPnlD direction usdtToTwd (.fin S) (some lev) (some (.fin E)) (some (.fin T)) =
      some (pnlResultD direction usdtToTwd (.fin S) lev (.fin E) (.fin T)) := by
  unfold calcPnlD
  have : ((Dbl.fin S).gt (.fin 0) && truthyD (some (.fin E)) && truthyD (some (.fin T))) =
      true := by
    simp [Dbl.gt, Dbl.lt, truthyD, hS, hE, hT]
  simp only [this, if_true]

theorem toFixed_ne_special (x : ℚ) (digits : Nat) :
    toFixed x digits ≠ .na ∧ toFixed x digits ≠ .infinite := by
  unfold toFixed
  split <;> exact ⟨by simp, by simp⟩
/-- The result of `parseValidFloat` with the lower bound 0.01 on a string
whose trimmed text starts with a numeral that rounds to a finite number from
the double nearest 0.01 on. -/
theorem parseValidFloatD_str_price (s : String) (neg : Bool) (m : ℕ) (e : ℤ)
    (rest : List Char) (x : ℚ)
    (hscan : scanFloat (jsTrim s.data) = some (neg, m, e, rest))
    (hr : roundToDouble (literalValue neg m e) = .fin x)
    (hx : 5764607523034235 / 576460752303423488 ≤ x) :
    parseValidFloatD (.str s) CENT_D (.inf false) false = some (.fin x) := by
  rw [parseValidFloatD_str_of_scan s neg m e rest (.fin x) _ _ _ hscan hr, CENT_D_eq]
  have h0 : 0 < x := by linarith
  simp [Dbl.isNaN, Dbl.le, Dbl.lt, Dbl.gt, not_le.2 h0, not_lt.2 hx]

/-- The flag `isLeverageManuallySet` for a text that starts with a numeral. -/
theorem isLeverageManuallySetD_of_scan (s : String) (r : Bool × ℕ × ℤ × List Char)
    (hne : s ≠ "") (hscan : scanFloat s.data = some r) :
    isLeverageManuallySetD (.str s) = true := by
  obtain ⟨neg, m, e, rest⟩ := r
  have h1 : JsValueD.str s ≠ JsValueD.str "" := by
    intro h
    exact hne (JsValueD.str.inj h)
  have h2 : parseFloatD (.str s) = roundToDouble (literalValue neg m e) := by
    show parseFloatCharsD s.data = _
    unfold parseFloatCharsD
    rw [hscan]
  unfold isLeverageManuallySetD
  rw [h2, roundToDouble_isNaN]
  simp [h1]

/-- With valid funds, the margin text `performCalculations` writes. -/
theorem performCalculationsD_margin (inp : InputsD) (st : StateD)
    (hf : truthyD inp.parsedFunds = true) :
    (performCalculationsD inp st).margin =
      if (truthyD inp.parsedFunds && truthyD inp.parsedPosPercent) = true
      then toFixedD (calcMarginD inp.parsedFunds inp.parsedPosPercent) 2
      else .text (.fixed false 0 2) := by
  unfold performCalculationsD
  simp only [hf, Bool.not_true, Bool.false_eq_true, if_false]
  by_cases he : (resolveLeverageD inp.direction inp.manualLeverageInput inp.parsedEntry
      inp.parsedLiqPreset).currentError.isSome = true
  · rw [if_pos he]
  · rw [if_neg he]

/-- Without valid funds `performCalculations` resets the error, the leverages
and the result record, raises the funds error and returns: the margin and the
position size keep their previous texts. -/
theorem performCalculationsD_invalidFunds (inp : InputsD) (st : StateD)
    (hf : truthyD inp.parsedFunds = false) :
    performCalculationsD inp st =
      { error := some .invalidFunds, margin := st.margin, derivedLeverage := none,
        finalLeverage := none, positionSize := st.positionSize, calculationResult := none } := by
  unfold performCalculationsD
  simp only [hf, Bool.not_false, if_true]
/-- The text `"Infinity"` is read as the number `Infinity`, which is a valid
price. -/
theorem parseValidFloatD_infinity_text :
    parseValidFloatD (.str "Infinity") CENT_D (.inf false) false = some (.inf false) := by
  have h1 : scanFloat (jsTrim "Infinity".data) = none := by decide
  have h2 : scanInfinity (jsTrim "Infinity".data) = some false := by decide
  have h3 : jsTrim "Infinity".data ≠ [] := by decide
  have hp : parseFloatCharsD (jsTrim "Infinity".data) = .inf false := by
    unfold parseFloatCharsD
    rw [h1, h2]
  unfold parseValidFloatD
  simp only [h3, if_false, hp]
  rw [CENT_D_eq]
  rfl

/-- The text `"1e400"` is read as the number `Infinity`: its value rounds to
no finite double. -/
theorem parseValidFloatD_overflow_text :
    parseValidFloatD (.str "1e400") CENT_D (.inf false) false = some (.inf false) := by
  have hs : scanFloat (jsTrim "1e400".data) = some (false, 1, 400, []) := by decide
  have hlit : literalValue false 1 400 = 10 ^ 400 := by
    have h10 : (10 : ℚ) ^ (400 : ℤ) = 10 ^ 400 := zpow_natCast 10 400
    unfold literalValue
    rw [h10, if_neg (by decide), Nat.cast_one, one_mul, one_mul]
  have hr : roundToDouble (literalValue false 1 400) = .inf false := by
    rw [hlit]
    apply roundToDouble_overflow
    calc (2 : ℚ) ^ 1024 ≤ 2 ^ 1200 := pow_le_pow_right₀ (by norm_num) (by norm_num)
      _ = (2 ^ 3) ^ 400 := by rw [← pow_mul]
      _ ≤ 10 ^ 400 := pow_le_pow_left₀ (by norm_num) (by norm_num) 400
  rw [parseValidFloatD_str_of_scan "1e400" false 1 400 [] _ _ _ _ hs hr, CENT_D_eq]
  rfl
/-- The leverage step for a finite entry price and the preset liquidation
price `Infinity`, on a position that is not long: the derived leverage is 0,
out of range. -/
theorem resolveLeverageD_infinite_preset (direction : Direction) (manual : JsValueD) (e : ℚ)
    (hman : isLeverageManuallySetD manual = false) (hd : ¬ direction = .long) (he : 0 < e) :
    resolveLeverageD direction manual (some (.fin e)) (some (.inf false)) =
      { currentError := some (.derivedOutOfRange (.text (.fixed false 0 2))),
        leverageToUse := none, derivedLeverage := some (.fin 0) } := by
  have ht : (truthyD (some (.fin e)) && truthyD (some (.inf false))) = true := by
    simp [truthyD, he.ne.symm]
  have h1 : ¬ (direction = .long ∧ (Dbl.inf false).ge (.fin e) = true) := fun h => hd h.1
  have h2 : ¬ (direction = .short ∧ (Dbl.inf false).le (.fin e) = true) := by
    rintro ⟨_, h⟩
    cases h
  have hden : derivationDenominatorD direction (.fin e) (.inf false) = .inf false := by
    unfold derivationDenominatorD
    rw [if_neg hd, MAINT_MARGIN_RATE_D_eq]
    simp [Dbl.div, Dbl.sub, Dbl.neg, Dbl.add, not_lt.2 he.le]
  have h3 : ¬ ((Dbl.inf false).le EPSILON_D = true) := by
    rw [EPSILON_D_eq]
    intro h
    cases h
  have htext : toFixedD (.fin 0) 2 = .text (.fixed false 0 2) := by
    show TextD.text (toFixed 0 2) = _
    rw [toFixed_eq_of_bounds 0 2 0 (by norm_num) (by norm_num) (by norm_num) (by norm_num)]
  unfold resolveLeverageD
  rw [hman]
  simp only [Bool.false_eq_true, if_false, ht, if_true]
  rw [if_neg h1, if_neg h2]
  simp only [hden]
  rw [if_neg h3]
  have hlev : (Dbl.fin 1).div (.inf false) = .fin 0 := rfl
  rw [hlev, htext]
  have hlt : (Dbl.fin 0).lt MIN_LEVERAGE_D = true := by
    simp [MIN_LEVERAGE_D, Dbl.lt]
  rw [if_pos (Or.inl hlt)]
/-! ## C1: the leverage round trip -/

/-- C1 (as amended), on the numbers of JavaScript. Leverage round trip: for
every leverage `L` with `1 ≤ L ≤ 125` and every entry price `E` of at most
`1e300` such that `E` and the liquidation price the forward formula gives for
`E` and `L` are both accepted by the input parser (both are at least 0.01),
feeding `E` and that liquidation price as entry price and preset liquidation
price, with valid funds and no manual leverage, makes the derivation recover a
leverage within `1e-9` of `L` (hence within the tolerance `1e-6`). The
derivation succeeds with that leverage when it lies in `[1, 125]`, which it
does for every `L` from `1 + 1e-9` to `125 - 1e-9`; otherwise, which can
happen only for `L` within `1e-9` of 1 or 125, it ends with the out-of-range
error and no leverage. -/
theorem C1_round_trip_double (inp : InputsD) (st : StateD) (e l : ℚ)
    (hfunds : truthyD inp.parsedFunds = true)
    (hman : isLeverageManuallySetD inp.manualLeverageInput = false)
    (hL1 : 1 ≤ l) (hL2 : l ≤ 125) (hE : e ≤ 10 ^ 300)
    (hentry : inp.parsedEntry = some (.fin e))
    (hliq : inp.parsedLiqPreset = some (liqPriceD inp.direction (.fin e) (.fin l))) :
    ∃ lev : ℚ,
      (performCalculationsD inp st).derivedLeverage = some (.fin lev) ∧
      |lev - l| ≤ 1 / 10 ^ 9 ∧
      ((1 ≤ lev ∧ lev ≤ 125 ∧ (performCalculationsD inp st).error = none ∧
          (performCalculationsD inp st).finalLeverage = some (.fin lev)) ∨
        ((lev < 1 ∨ 125 < lev) ∧
          (performCalculationsD inp st).error =
            some (.derivedOutOfRange (toFixedD (.fin lev) 2)) ∧
          (performCalculationsD inp st).finalLeverage = none)) ∧
      (1 + 1 / 10 ^ 9 ≤ l → l ≤ 125 - 1 / 10 ^ 9 →
        (performCalculationsD inp st).error = none ∧
        (performCalculationsD inp st).finalLeverage = some (.fin lev)) := by
  have he1 : 1 / 1000 ≤ e := by
    have := parsedPrice_ge hentry
    linarith
  obtain ⟨p, hp, _, _⟩ := liqPriceD_close inp.direction e l hL1 hL2 he1 hE
  obtain ⟨v, hvc, hres⟩ := resolveLeverageD_round_trip inp.direction inp.manualLeverageInput
    e l p hman hL1 hL2 he1 hE hp
  obtain ⟨herr, hder, hfin, _⟩ := performCalculationsD_resolved inp st hfunds
  rw [hentry, hliq, hp, hres] at herr hder hfin
  rw [abs_le] at hvc
  by_cases hout : v < 1 ∨ 125 < v
  · rw [if_pos hout] at herr hder hfin
    refine ⟨v, hder, abs_le.2 hvc, Or.inr ⟨hout, herr, hfin⟩, ?_⟩
    intro h1 h2
    rcases hout with h | h
    · linarith [hvc.1]
    · linarith [hvc.2]
  · rw [if_neg hout] at herr hder hfin
    rw [not_or, not_lt, not_lt] at hout
    exact ⟨v, hder, abs_le.2 hvc, Or.inl ⟨hout.1, hout.2, herr, hfin⟩, fun _ _ => ⟨herr, hfin⟩⟩

/-- C1, checked on a long position with entry price 50000 and leverage 10:
the derivation succeeds with a leverage within `1e-9` of 10. -/
theorem C1_round_trip_double_witness :
    ∃ lev : ℚ,
      (performCalculationsD (roundTripInputsD .long (.fin 50000) (.fin 10))
        initialResultStateD).finalLeverage = some (.fin lev) ∧
      |lev - 10| ≤ 1 / 10 ^ 9 ∧
      (performCalculationsD (roundTripInputsD .long (.fin 50000) (.fin 10))
        initialResultStateD).error = none := by
  obtain ⟨p, hp, _, hpc⟩ := liqPriceD_close .long 50000 10 (by norm_num) (by norm_num)
    (by norm_num) (by norm_num)
  rw [if_pos rfl, abs_le] at hpc
  have hentry : (roundTripInputsD .long (.fin 50000) (.fin 10)).parsedEntry =
      some (.fin 50000) := parseValidFloatD_num_price 50000 (by norm_num)
  have hliq : (roundTripInputsD .long (.fin 50000) (.fin 10)).parsedLiqPreset =
      some (liqPriceD (roundTripInputsD .long (.fin 50000) (.fin 10)).direction
        (.fin 50000) (.fin 10)) := by
    show parseValidFloatD (.num (liqPriceD .long (.fin 50000) (.fin 10))) CENT_D
      (.inf false) false = some (liqPriceD .long (.fin 50000) (.fin 10))
    rw [hp]
    exact parseValidFloatD_num_price p (by linarith [hpc.1])
  obtain ⟨lev, _, hclose, _, hsucc⟩ :=
    C1_round_trip_double (roundTripInputsD .long (.fin 50000) (.fin 10)) initialResultStateD
      50000 10 (roundTripInputsD_funds _ _ _) (by simp [roundTripInputsD, isLeverageManuallySetD])
      (by norm_num) (by norm_num) (by norm_num) hentry hliq
  exact ⟨lev, (hsucc (by norm_num) (by norm_num)).2, hclose,
    (hsucc (by norm_num) (by norm_num)).1⟩

/-- C1 as stated fails, in three ways. With entry price `E = 1` and leverage
`L = 1` on a long position the forward formula gives the liquidation price
0.004, the parser rejects it, and no leverage is recovered. With `E = 5` and
`L = 125` on a long position the forward formula gives the double 4.98, and
the derivation from 5 and 4.98 computes the leverage 125.00000000000162: it
ends with the out-of-range error (shown as `125.00x`) and no leverage. With
`E = 1e308` and `L = 1` on a short position the forward formula overflows to
`Infinity`, and the derivation computes the leverage 0: it ends with the
out-of-range error (shown as `0.00x`) and no leverage. -/
theorem C1_double_counterexample :
    liqPriceD .long (.fin 1) (.fin 1) = .fin (1152921504606847 / 288230376151711744) ∧
    (performCalculationsD (roundTripInputsD .long (.fin 1) (.fin 1))
      initialResultStateD).finalLeverage = none ∧
    liqPriceD .long (.fin 5) (.fin 125) = .fin (1401745384019067 / 281474976710656) ∧
    (performCalculationsD (roundTripInputsD .long (.fin 5) (.fin 125))
      initialResultStateD).derivedLeverage = some (.fin (4398046511104057 / 35184372088832)) ∧
    (performCalculationsD (roundTripInputsD .long (.fin 5) (.fin 125))
      initialResultStateD).error =
        some (.derivedOutOfRange (.text (.fixed false 12500 2))) ∧
    (performCalculationsD (roundTripInputsD .long (.fin 5) (.fin 125))
      initialResultStateD).finalLeverage = none ∧
    roundToDouble (10 ^ 308) = .fin (5010420900022432 * 2 ^ 971) ∧
    liqPriceD .short (.fin (5010420900022432 * 2 ^ 971)) (.fin 1) = .inf false ∧
    (performCalculationsD (roundTripInputsD .short (.fin (5010420900022432 * 2 ^ 971)) (.fin 1))
      initialResultStateD).error =
        some (.derivedOutOfRange (.text (.fixed false 0 2))) ∧
    (performCalculationsD (roundTripInputsD .short (.fin (5010420900022432 * 2 ^ 971)) (.fin 1))
      initialResultStateD).finalLeverage = none := by
  have hman : isLeverageManuallySetD (.str "") = false := by simp [isLeverageManuallySetD]
  have g1 : roundToDouble (1 / 1) = .fin 1 :=
    roundToDouble_cert _ _ 4503599627370496 (-52) (by norm_num) (by norm_num) (by norm_num)
      (by norm_num) (by norm_num) (by norm_num) (by norm_num)
  have g2 : roundToDouble (1 - 1) = .fin 0 := by
    rw [sub_self]
    exact roundToDouble_zero
  have g3 : roundToDouble (0 + 1152921504606847 / 288230376151711744) =
      .fin (1152921504606847 / 288230376151711744) :=
    roundToDouble_cert _ _ 4611686018427388 (-60) (by norm_num) (by norm_num) (by norm_num)
      (by norm_num) (by norm_num) (by norm_num) (by norm_num)
  have g4 : roundToDouble (1 * (1152921504606847 / 288230376151711744)) =
      .fin (1152921504606847 / 288230376151711744) :=
    roundToDouble_cert _ _ 4611686018427388 (-60) (by norm_num) (by norm_num) (by norm_num)
      (by norm_num) (by norm_num) (by norm_num) (by norm_num)
  have gliq : liqPriceD .long (.fin 1) (.fin 1) = .fin (1152921504606847 / 288230376151711744) := by
    unfold liqPriceD
    rw [if_pos rfl, MAINT_MARGIN_RATE_D_eq, Dbl.div_fin 1 1 (by norm_num), g1, Dbl.sub_fin, g2,
      Dbl.add_fin, g3, Dbl.mul_fin, g4]
  have h1 : roundToDouble (1 / 125) = .fin (1152921504606847 / 144115188075855872) :=
    roundToDouble_cert _ _ 4611686018427388 (-59) (by norm_num) (by norm_num) (by norm_num)
      (by norm_num) (by norm_num) (by norm_num) (by norm_num)
  have h2 : roundToDouble (1 - 1152921504606847 / 144115188075855872) =
      .fin (1116892707587883 / 1125899906842624) :=
    roundToDouble_cert _ _ 8935141660703064 (-53) (by norm_num) (by norm_num) (by norm_num)
      (by norm_num) (by norm_num) (by norm_num) (by norm_num)
  have h3 : roundToDouble
      (1116892707587883 / 1125899906842624 + 1152921504606847 / 288230376151711744) =
      .fin (2242792614430507 / 2251799813685248) :=
    roundToDouble_cert _ _ 8971170457722028 (-53) (by norm_num) (by norm_num) (by norm_num)
      (by norm_num) (by norm_num) (by norm_num) (by norm_num)
  have h4 : roundToDouble (5 * (2242792614430507 / 2251799813685248)) =
      .fin (1401745384019067 / 281474976710656) :=
    roundToDouble_cert_even _ _ 5606981536076268 (-50) (by norm_num) (by norm_num) (by norm_num)
      (by norm_num) (by norm_num) (by norm_num) (by norm_num) (by norm_num)
  have h5 : roundToDouble (1401745384019067 / 281474976710656 / 5) =
      .fin (8971170457722029 / 9007199254740992) :=
    roundToDouble_cert _ _ 8971170457722029 (-53) (by norm_num) (by norm_num) (by norm_num)
      (by norm_num) (by norm_num) (by norm_num) (by norm_num)
  have h6 : roundToDouble (1 + 1152921504606847 / 288230376151711744) =
      .fin (2260807012939989 / 2251799813685248) :=
    roundToDouble_cert _ _ 4521614025879978 (-52) (by norm_num) (by norm_num) (by norm_num)
      (by norm_num) (by norm_num) (by norm_num) (by norm_num)
  have h7 : roundToDouble
      (2260807012939989 / 2251799813685248 - 8971170457722029 / 9007199254740992) =
      .fin (72057594037927 / 9007199254740992) :=
    roundToDouble_cert _ _ 4611686018427328 (-59) (by norm_num) (by norm_num) (by norm_num)
      (by norm_num) (by norm_num) (by norm_num) (by norm_num)
  have h8 : roundToDouble (1 / (72057594037927 / 9007199254740992)) =
      .fin (4398046511104057 / 35184372088832) :=
    roundToDouble_cert _ _ 8796093022208114 (-46) (by norm_num) (by norm_num) (by norm_num)
      (by norm_num) (by norm_num) (by norm_num) (by norm_num)
  have hliq : liqPriceD .long (.fin 5) (.fin 125) = .fin (1401745384019067 / 281474976710656) := by
    unfold liqPriceD
    rw [if_pos rfl, MAINT_MARGIN_RATE_D_eq, Dbl.div_fin 1 125 (by norm_num), h1, Dbl.sub_fin, h2,
      Dbl.add_fin, h3, Dbl.mul_fin, h4]
  have hden : derivationDenominatorD .long (.fin 5) (.fin (1401745384019067 / 281474976710656)) =
      .fin (72057594037927 / 9007199254740992) := by
    unfold derivationDenominatorD
    rw [if_pos rfl, MAINT_MARGIN_RATE_D_eq, Dbl.add_fin, h6, Dbl.div_fin _ 5 (by norm_num), h5,
      Dbl.sub_fin, h7]
  have hres := resolveLeverageD_derive .long (.str "") 5 (1401745384019067 / 281474976710656)
    (72057594037927 / 9007199254740992) (4398046511104057 / 35184372088832) hman (by norm_num)
    (by norm_num) (fun _ => by norm_num) (fun h => by cases h) hden (by norm_num) h8
  rw [if_pos (Or.inr (by norm_num))] at hres
  have htext : toFixedD (.fin (4398046511104057 / 35184372088832)) 2 =
      .text (.fixed false 12500 2) := by
    show TextD.text (toFixed (4398046511104057 / 35184372088832) 2) = _
    rw [toFixed_eq_of_bounds _ 2 12500 (by norm_num) (by norm_num) (by norm_num) (by norm_num)]
  rw [htext] at hres
  have k1 : roundToDouble (10 ^ 308) = .fin (5010420900022432 * 2 ^ 971) :=
    roundToDouble_cert _ _ 5010420900022432 971 (by norm_num) (by norm_num) (by norm_num)
      (by norm_num) (by norm_num) (by norm_num) (by norm_num)
  have k2 : roundToDouble (1 + 1) = .fin 2 :=
    roundToDouble_cert _ _ 4503599627370496 (-51) (by norm_num) (by norm_num) (by norm_num)
      (by norm_num) (by norm_num) (by norm_num) (by norm_num)
  have k3 : roundToDouble (2 - 1152921504606847 / 288230376151711744) =
      .fin (4494592428115755 / 2251799813685248) :=
    roundToDouble_cert _ _ 8989184856231510 (-52) (by norm_num) (by norm_num) (by norm_num)
      (by norm_num) (by norm_num) (by norm_num) (by norm_num)
  have kliq : liqPriceD .short (.fin (5010420900022432 * 2 ^ 971)) (.fin 1) = .inf false := by
    unfold liqPriceD
    rw [if_neg (by decide), MAINT_MARGIN_RATE_D_eq, Dbl.div_fin 1 1 (by norm_num), g1,
      Dbl.add_fin, k2, Dbl.sub_fin, k3, Dbl.mul_fin, roundToDouble_overflow _ (by norm_num)]
  have hA : (performCalculationsD (roundTripInputsD .long (.fin 1) (.fin 1))
      initialResultStateD).finalLeverage = none := by
    obtain ⟨_, _, hfin, _⟩ := performCalculationsD_resolved
      (roundTripInputsD .long (.fin 1) (.fin 1)) initialResultStateD (roundTripInputsD_funds _ _ _)
    have hpl : (roundTripInputsD .long (.fin 1) (.fin 1)).parsedLiqPreset = none := by
      show parseValidFloatD (.num (liqPriceD .long (.fin 1) (.fin 1))) CENT_D
        (.inf false) false = none
      rw [gliq]
      exact parseValidFloatD_num_small _ (by norm_num)
    have hr := resolveLeverageD_incomplete
      (roundTripInputsD .long (.fin 1) (.fin 1)).direction
      (roundTripInputsD .long (.fin 1) (.fin 1)).manualLeverageInput
      (roundTripInputsD .long (.fin 1) (.fin 1)).parsedEntry none hman (Or.inr rfl)
    rw [hpl, hr] at hfin
    exact hfin
  have hB : (performCalculationsD (roundTripInputsD .long (.fin 5) (.fin 125))
        initialResultStateD).derivedLeverage = some (.fin (4398046511104057 / 35184372088832)) ∧
      (performCalculationsD (roundTripInputsD .long (.fin 5) (.fin 125))
        initialResultStateD).error =
          some (.derivedOutOfRange (.text (.fixed false 12500 2))) ∧
      (performCalculationsD (roundTripInputsD .long (.fin 5) (.fin 125))
        initialResultStateD).finalLeverage = none := by
    obtain ⟨herr, hder, hfin, _⟩ := performCalculationsD_resolved
      (roundTripInputsD .long (.fin 5) (.fin 125)) initialResultStateD
      (roundTripInputsD_funds _ _ _)
    have hpe : (roundTripInputsD .long (.fin 5) (.fin 125)).parsedEntry = some (.fin 5) :=
      parseValidFloatD_num_price 5 (by norm_num)
    have hpl : (roundTripInputsD .long (.fin 5) (.fin 125)).parsedLiqPreset =
        some (.fin (1401745384019067 / 281474976710656)) := by
      show parseValidFloatD (.num (liqPriceD .long (.fin 5) (.fin 125))) CENT_D
        (.inf false) false = _
      rw [hliq]
      exact parseValidFloatD_num_price _ (by norm_num)
    have hdir : (roundTripInputsD .long (.fin 5) (.fin 125)).direction = .long := rfl
    have hmi : (roundTripInputsD .long (.fin 5) (.fin 125)).manualLeverageInput = .str "" := rfl
    rw [hpe, hpl, hdir, hmi, hres] at herr hder hfin
    exact ⟨hder, herr, hfin⟩
  have hC : (performCalculationsD
        (roundTripInputsD .short (.fin (5010420900022432 * 2 ^ 971)) (.fin 1))
        initialResultStateD).error =
          some (.derivedOutOfRange (.text (.fixed false 0 2))) ∧
      (performCalculationsD (roundTripInputsD .short (.fin (5010420900022432 * 2 ^ 971)) (.fin 1))
        initialResultStateD).finalLeverage = none := by
    obtain ⟨herr, _, hfin, _⟩ := performCalculationsD_resolved
      (roundTripInputsD .short (.fin (5010420900022432 * 2 ^ 971)) (.fin 1)) initialResultStateD
      (roundTripInputsD_funds _ _ _)
    have hpe : (roundTripInputsD .short (.fin (5010420900022432 * 2 ^ 971)) (.fin 1)).parsedEntry =
        some (.fin (5010420900022432 * 2 ^ 971)) :=
      parseValidFloatD_num_price _ (by norm_num)
    have hpl :
        (roundTripInputsD .short (.fin (5010420900022432 * 2 ^ 971)) (.fin 1)).parsedLiqPreset =
        some (.inf false) := by
      show parseValidFloatD
        (.num (liqPriceD .short (.fin (5010420900022432 * 2 ^ 971)) (.fin 1))) CENT_D
        (.inf false) false = _
      rw [kliq]
      exact parseValidFloatD_num (.inf false) _ _ _ rfl (by rw [CENT_D_eq]; rfl)
    have hr := resolveLeverageD_infinite_preset
      (roundTripInputsD .short (.fin (5010420900022432 * 2 ^ 971)) (.fin 1)).direction
      (roundTripInputsD .short (.fin (5010420900022432 * 2 ^ 971)) (.fin 1)).manualLeverageInput
      (5010420900022432 * 2 ^ 971) hman (by decide) (by norm_num)
    rw [hpe, hpl, hr] at herr hfin
    exact ⟨herr, hfin⟩
  exact ⟨gliq, hA, hliq, hB.1, hB.2.1, hB.2.2, k1, kliq, hC⟩

/-! ## C2: only a leverage between 1 and 125 is used -/

/-- C2. Whatever the inputs and the state before: a leverage stored as
`finalLeverage` lies between 1 and 125; a result record is always computed from
the stored leverage (as are the position size and the liquidation price shown
with it); a manual leverage that is set but does not parse into `[1, 125]`, and
a derived leverage outside `[1, 125]`, end the calculation with an error; and
whenever the calculation ends with an error no leverage is stored, no result
record is produced and no position size is written (the value is never
clamped into the range). -/
theorem C2_leverage_within_bounds (inp : Inputs) (st : State) :
    (∀ l, (performCalculations inp st).finalLeverage = some l → 1 ≤ l ∧ l ≤ 125) ∧
    (∀ res, (performCalculations inp st).calculationResult = some res →
      ∃ l E T, (performCalculations inp st).finalLeverage = some l ∧ 1 ≤ l ∧ l ≤ 125 ∧
        inp.parsedEntry = some E ∧ inp.parsedTarget = some T ∧
        (performCalculations inp st).positionSize =
          toFixed (calcMargin inp.parsedFunds inp.parsedPosPercent * l / E) 6 ∧
        res = pnlResult inp.direction inp.usdtToTwd
          (calcMargin inp.parsedFunds inp.parsedPosPercent * l / E) l E T) ∧
    (truthy inp.parsedFunds = true → isLeverageManuallySet inp.manualLeverageInput = true →
      parseValidFloat inp.manualLeverageInput (some MIN_LEVERAGE) (some MAX_LEVERAGE) false = none →
      (performCalculations inp st).error = some .leverageOutOfRange) ∧
    (∀ E P, truthy inp.parsedFunds = true →
      isLeverageManuallySet inp.manualLeverageInput = false →
      inp.parsedEntry = some E → inp.parsedLiqPreset = some P →
      ¬ (inp.direction = .long ∧ P ≥ E) → ¬ (inp.direction = .short ∧ P ≤ E) →
      1 / 10 ^ 9 < derivationDenominator inp.direction E P →
      (1 / derivationDenominator inp.direction E P < 1 ∨
        125 < 1 / derivationDenominator inp.direction E P) →
      (performCalculations inp st).error =
        some (.derivedOutOfRange (toFixed (1 / derivationDenominator inp.direction E P) 2))) ∧
    ((performCalculations inp st).error ≠ none →
      (performCalculations inp st).finalLeverage = none ∧
      (performCalculations inp st).calculationResult = none ∧
      (performCalculations inp st).positionSize = st.positionSize) := by
  refine ⟨?_, ?_, ?_, ?_, ?_⟩
  · intro l hl
    rcases performCalculations_cases inp st with ⟨_, h⟩ | ⟨e, _, _, _, h⟩ | ⟨_, _, h⟩
    · rw [h] at hl; cases hl
    · rw [h] at hl; cases hl
    · rw [h] at hl
      have := resolveLeverage_bounds _ _ _ _ l hl
      simpa [MIN_LEVERAGE, MAX_LEVERAGE] using this
  · intro res hres
    rcases performCalculations_cases inp st with ⟨_, h⟩ | ⟨e, _, _, _, h⟩ | ⟨_, _, h⟩
    · rw [h] at hres; cases hres
    · rw [h] at hres; cases hres
    · rw [h] at hres ⊢
      simp only at hres ⊢
      obtain ⟨l, E, T, hl, hE, hT, hE0, _, hm, _, hsz, hr⟩ := calcPnl_some hres
      have hb := resolveLeverage_bounds _ _ _ _ l hl
      refine ⟨l, E, T, hl, by simpa [MIN_LEVERAGE] using hb.1,
        by simpa [MAX_LEVERAGE] using hb.2, hE, hT, ?_, hr⟩
      unfold sizeText
      rw [hsz, hl, hE]
      simp [hm, truthy, hE0]
  · intro hf hm hp
    have hr := resolveLeverage_manual_invalid inp.direction inp.manualLeverageInput
      inp.parsedEntry inp.parsedLiqPreset hm hp
    rw [performCalculations_leverageError inp st .leverageOutOfRange hf
      (by unfold resolution; rw [hr])]
  · intro E P hf hm hE hP hlong hshort hden hout
    have hE0 : E ≠ 0 := (parseValidFloat_pos hE).ne.symm
    have hP0 : P ≠ 0 := (parseValidFloat_pos hP).ne.symm
    have hr : (resolution inp).currentError =
        some (.derivedOutOfRange (toFixed (1 / derivationDenominator inp.direction E P) 2)) := by
      unfold resolution
      rw [hE, hP, resolveLeverage_derive _ _ _ _ hm hE0 hP0, if_neg hlong, if_neg hshort,
        if_neg (not_le.2 hden), if_pos (by simpa [MIN_LEVERAGE, MAX_LEVERAGE] using hout)]
    rw [performCalculations_leverageError inp st _ hf hr]
  · intro herr
    rcases performCalculations_cases inp st with ⟨_, h⟩ | ⟨e, _, _, _, h⟩ | ⟨_, _, h⟩
    · rw [h]; exact ⟨rfl, rfl, rfl⟩
    · rw [h]; exact ⟨rfl, rfl, rfl⟩
    · rw [h] at herr; exact absurd rfl herr

/-- C2, checked on a derived leverage below 1: long, entry price 50000 and
preset liquidation price 100 give the denominator 1.002 and the leverage
`1 / 1.002`; the calculation ends with the out-of-range error, which shows the
value as `1.00`. -/
theorem C2_leverage_within_bounds_witness :
    (performCalculations
      { example1 with direction := .long, manualLeverageInput := .str "",
                      entryPriceInput := .num 50000, liqPresetInput := .num 100 }
      initialResultState).error = some (.derivedOutOfRange (.fixed false 100 2)) := by
  have hd : derivationDenominator .long 50000 100 = 1002 / 1000 := by
    norm_num [derivationDenominator, MAINT_MARGIN_RATE]
  have h := (C2_leverage_within_bounds
    { example1 with direction := .long, manualLeverageInput := .str "",
                    entryPriceInput := .num 50000, liqPresetInput := .num 100 }
    initialResultState).2.2.2.1 50000 100
    (by
      show truthy example1.parsedFunds = true
      rw [example1_parsedFunds]
      exact truthy_of_parse example1_parsedFunds)
    (by decide)
    (by norm_num [Inputs.parsedEntry, parseValidFloat_num, geMin, leMax])
    (by norm_num [Inputs.parsedLiqPreset, parseValidFloat_num, geMin, leMax])
    (by norm_num) (by simp)
    (by
      show 1 / 10 ^ 9 < derivationDenominator .long 50000 100
      rw [hd]
      norm_num)
    (by
      show 1 / derivationDenominator .long 50000 100 < 1 ∨
        125 < 1 / derivationDenominator .long 50000 100
      rw [hd]
      norm_num)
  rw [h]
  show some (CalcError.derivedOutOfRange (toFixed (1 / derivationDenominator .long 50000 100) 2))
    = _
  rw [hd, toFixed_eq_of_bounds _ 2 100 (by norm_num) (by norm_num) (by norm_num) (by norm_num)]

/-! ## C3: the ordering of preset liquidation price and entry price -/

/-- C3 (as amended). For every input with valid funds, a valid entry price `E`
and a valid preset liquidation price `P`, and no manual leverage set: on a long
position with `P ≥ E`, and on a short position with `P ≤ E`,
`performCalculations` ends with the validation error of that direction, and no
leverage is derived or stored and no result is produced. -/
theorem C3_directional_ordering (inp : Inputs) (st : State) (E P : ℚ)
    (hfunds : truthy inp.parsedFunds = true)
    (hman : isLeverageManuallySet inp.manualLeverageInput = false)
    (hentry : inp.parsedEntry = some E) (hliq : inp.parsedLiqPreset = some P) :
    (inp.direction = .long → P ≥ E →
      (performCalculations inp st).error = some .longLiqNotBelowEntry ∧
      (performCalculations inp st).derivedLeverage = none ∧
      (performCalculations inp st).finalLeverage = none ∧
      (performCalculations inp st).calculationResult = none) ∧
    (inp.direction = .short → P ≤ E →
      (performCalculations inp st).error = some .shortLiqNotAboveEntry ∧
      (performCalculations inp st).derivedLeverage = none ∧
      (performCalculations inp st).finalLeverage = none ∧
      (performCalculations inp st).calculationResult = none) := by
  have hE0 : E ≠ 0 := (parseValidFloat_pos hentry).ne.symm
  have hP0 : P ≠ 0 := (parseValidFloat_pos hliq).ne.symm
  have hder := resolveLeverage_derive inp.direction inp.manualLeverageInput E P hman hE0 hP0
  constructor
  · intro hd hge
    have hr : resolution inp =
        { currentError := some .longLiqNotBelowEntry, leverageToUse := none,
          derivedLeverage := none } := by
      unfold resolution
      rw [hentry, hliq, hder, if_pos ⟨hd, hge⟩]
    rw [performCalculations_leverageError inp st .longLiqNotBelowEntry hfunds (by rw [hr]), hr]
    exact ⟨rfl, rfl, rfl, rfl⟩
  · intro hd hle
    have hr : resolution inp =
        { currentError := some .shortLiqNotAboveEntry, leverageToUse := none,
          derivedLeverage := none } := by
      unfold resolution
      rw [hentry, hliq, hder, if_neg (by rw [hd]; exact fun h => absurd h.1 (by decide)),
        if_pos ⟨hd, hle⟩]
    rw [performCalculations_leverageError inp st .shortLiqNotAboveEntry hfunds (by rw [hr]), hr]
    exact ⟨rfl, rfl, rfl, rfl⟩

/-- C3, checked on the third example of the specification: long, entry price
50000 and preset liquidation price 50000 give the error of the long
direction. -/
theorem C3_directional_ordering_witness :
    (performCalculations
      { direction := .long, manualLeverageInput := .str "", fundsInput := .str "1000",
        positionPercent := .num 10, entryPriceInput := .str "50000",
        liqPresetInput := .str "50000", targetPriceInput := .str "",
        usdtToTwd := none } initialResultState).error = some .longLiqNotBelowEntry := by
  have hf : parseValidFloat (.str "1000") (some (1 / 100)) none false = some 1000 :=
    parseValidFloat_str_of_scan _ false 1000 (0) []
      (by decide) (by norm_num [literalValue]) (by norm_num [withinLimits, geMin, leMax])
  have hp : parseValidFloat (.str "50000") (some (1 / 100)) none false = some 50000 :=
    parseValidFloat_str_of_scan _ false 50000 (0) []
      (by decide) (by norm_num [literalValue]) (by norm_num [withinLimits, geMin, leMax])
  exact ((C3_directional_ordering
    { direction := .long, manualLeverageInput := .str "", fundsInput := .str "1000",
      positionPercent := .num 10, entryPriceInput := .str "50000",
      liqPresetInput := .str "50000", targetPriceInput := .str "",
      usdtToTwd := none } initialResultState 50000 50000
    (by
      show truthy (parseValidFloat (.str "1000") (some (1 / 100)) none false) = true
      rw [hf]
      exact truthy_of_parse hf)
    (by decide) hp hp).1 rfl (le_refl _)).1

/-- C3 as stated fails: with a manual leverage of 10 the ordering of the two
prices is not looked at; long, entry price 50000 and preset liquidation price
50000 then give no error and the leverage 10. -/
theorem C3_counterexample :
    (performCalculations
      { direction := .long, manualLeverageInput := .num 10, fundsInput := .num 1000,
        positionPercent := .num 10, entryPriceInput := .num 50000,
        liqPresetInput := .num 50000, targetPriceInput := .str "",
        usdtToTwd := none } initialResultState).error = none ∧
    (performCalculations
      { direction := .long, manualLeverageInput := .num 10, fundsInput := .num 1000,
        positionPercent := .num 10, entryPriceInput := .num 50000,
        liqPresetInput := .num 50000, targetPriceInput := .str "",
        usdtToTwd := none } initialResultState).finalLeverage = some 10 := by
  have hf : truthy (Inputs.parsedFunds
      { direction := .long, manualLeverageInput := .num 10, fundsInput := .num 1000,
        positionPercent := .num 10, entryPriceInput := .num 50000,
        liqPresetInput := .num 50000, targetPriceInput := .str "",
        usdtToTwd := none }) = true := by
    norm_num [Inputs.parsedFunds, parseValidFloat_num, geMin, leMax, truthy]
  have hr : resolution
      { direction := .long, manualLeverageInput := .num 10, fundsInput := .num 1000,
        positionPercent := .num 10, entryPriceInput := .num 50000,
        liqPresetInput := .num 50000, targetPriceInput := .str "",
        usdtToTwd := none } =
      { currentError := none, leverageToUse := some 10, derivedLeverage := none } :=
    resolveLeverage_manual_valid _ _ _ _ 10 (by decide)
      (by norm_num [parseValidFloat_num, geMin, leMax, MIN_LEVERAGE, MAX_LEVERAGE])
  rw [performCalculations_noError _ _ hf (by rw [hr]), hr]
  exact ⟨rfl, rfl⟩

/-! ## C4: the bounds check on the derived leverage -/

/-- C4. For every input with valid funds where the leverage is derived (no
manual leverage set, valid entry price `E` and preset liquidation price `P`,
ordering valid for the direction): the derived value `1 / denominator` is
positive and below 250; if it is below 1 or above 125, `performCalculations`
ends with the out-of-range error, whose text shows that value (written with
two decimals, so at most 0.005 away from it), and no leverage is stored and
nothing is computed from it; if it lies in `[1, 125]` it is stored unchanged as
the leverage. -/
theorem C4_derived_leverage_check (inp : Inputs) (st : State) (E P : ℚ)
    (hfunds : truthy inp.parsedFunds = true)
    (hman : isLeverageManuallySet inp.manualLeverageInput = false)
    (hentry : inp.parsedEntry = some E) (hliq : inp.parsedLiqPreset = some P)
    (hord : (inp.direction = .long ∧ P < E) ∨ (inp.direction = .short ∧ E < P)) :
    (1 / derivationDenominator inp.direction E P < 1 ∨
        125 < 1 / derivationDenominator inp.direction E P →
      (performCalculations inp st).error =
        some (.derivedOutOfRange (toFixed (1 / derivationDenominator inp.direction E P) 2)) ∧
      (∃ v, (toFixed (1 / derivationDenominator inp.direction E P) 2).value = some v ∧
        |v - 1 / derivationDenominator inp.direction E P| ≤ 1 / 200) ∧
      (performCalculations inp st).finalLeverage = none ∧
      (performCalculations inp st).calculationResult = none ∧
      (performCalculations inp st).positionSize = st.positionSize) ∧
    (1 ≤ 1 / derivationDenominator inp.direction E P ∧
        1 / derivationDenominator inp.direction E P ≤ 125 →
      (performCalculations inp st).error = none ∧
      (performCalculations inp st).finalLeverage =
        some (1 / derivationDenominator inp.direction E P)) := by
  have hE : 0 < E := parseValidFloat_pos hentry
  have hP : 0 < P := parseValidFloat_pos hliq
  have hden := derivationDenominator_gt inp.direction E P hE hord
  have hden0 : 0 < derivationDenominator inp.direction E P :=
    lt_trans (by norm_num [MAINT_MARGIN_RATE]) hden
  have hden9 : ¬ derivationDenominator inp.direction E P ≤ 1 / 10 ^ 9 := by
    have : (1 : ℚ) / 10 ^ 9 < MAINT_MARGIN_RATE := by norm_num [MAINT_MARGIN_RATE]
    exact not_le.2 (lt_trans this hden)
  have hlong : ¬ (inp.direction = .long ∧ P ≥ E) := by
    rcases hord with ⟨_, h⟩ | ⟨hd, _⟩
    · exact fun h' => absurd h (not_lt.2 h'.2)
    · rw [hd]; exact fun h' => absurd h'.1 (by decide)
  have hshort : ¬ (inp.direction = .short ∧ P ≤ E) := by
    rcases hord with ⟨hd, _⟩ | ⟨_, h⟩
    · rw [hd]; exact fun h' => absurd h'.1 (by decide)
    · exact fun h' => absurd h (not_lt.2 h'.2)
  have hder := resolveLeverage_derive inp.direction inp.manualLeverageInput E P hman
    hE.ne.symm hP.ne.symm
  rw [if_neg hlong, if_neg hshort, if_neg hden9] at hder
  have hlev0 : 0 < 1 / derivationDenominator inp.direction E P := by positivity
  have hlev250 : 1 / derivationDenominator inp.direction E P < 250 := by
    rw [div_lt_iff₀ hden0]
    simp only [MAINT_MARGIN_RATE] at hden
    linarith
  constructor
  · intro hout
    have hr : resolution inp =
        { currentError :=
            some (.derivedOutOfRange (toFixed (1 / derivationDenominator inp.direction E P) 2)),
          leverageToUse := none,
          derivedLeverage := some (1 / derivationDenominator inp.direction E P) } := by
      unfold resolution
      rw [hentry, hliq, hder, if_pos (by simpa [MIN_LEVERAGE, MAX_LEVERAGE] using hout)]
    rw [performCalculations_leverageError inp st _ hfunds (by rw [hr])]
    refine ⟨rfl, ?_, rfl, rfl, rfl⟩
    have habs : |1 / derivationDenominator inp.direction E P| < (10 : ℚ) ^ 21 := by
      rw [abs_of_pos hlev0]
      exact lt_trans hlev250 (by norm_num)
    obtain ⟨v, hv, hclose⟩ := toFixed_value_close _ 2 habs
    exact ⟨v, hv, by norm_num at hclose ⊢; exact hclose⟩
  · intro hin
    have hr : resolution inp =
        { currentError := none,
          leverageToUse := some (1 / derivationDenominator inp.direction E P),
          derivedLeverage := some (1 / derivationDenominator inp.direction E P) } := by
      unfold resolution
      rw [hentry, hliq, hder, if_neg (by
        simp only [MIN_LEVERAGE, MAX_LEVERAGE, not_or, not_lt]
        exact hin)]
    rw [performCalculations_noError inp st hfunds (by rw [hr]), hr]
    exact ⟨rfl, rfl⟩

/-- C4, checked on the second example of the specification: long, entry price
50000 and preset liquidation price 45000 give the denominator 0.104 and the
accepted leverage `1 / 0.104 = 125 / 13`, about 9.615. -/
theorem C4_derived_leverage_check_witness :
    derivationDenominator .long 50000 45000 = 104 / 1000 ∧
    (performCalculations
      { direction := .long, manualLeverageInput := .str "", fundsInput := .str "1000",
        positionPercent := .num 10, entryPriceInput := .str "50000",
        liqPresetInput := .str "45000", targetPriceInput := .str "",
        usdtToTwd := none } initialResultState).finalLeverage = some (125 / 13) := by
  have hf : parseValidFloat (.str "1000") (some (1 / 100)) none false = some 1000 :=
    parseValidFloat_str_of_scan _ false 1000 0 []
      (by decide) (by norm_num [literalValue]) (by norm_num [withinLimits, geMin, leMax])
  have he : parseValidFloat (.str "50000") (some (1 / 100)) none false = some 50000 :=
    parseValidFloat_str_of_scan _ false 50000 0 []
      (by decide) (by norm_num [literalValue]) (by norm_num [withinLimits, geMin, leMax])
  have hp : parseValidFloat (.str "45000") (some (1 / 100)) none false = some 45000 :=
    parseValidFloat_str_of_scan _ false 45000 0 []
      (by decide) (by norm_num [literalValue]) (by norm_num [withinLimits, geMin, leMax])
  have hd : derivationDenominator .long 50000 45000 = 104 / 1000 := by
    norm_num [derivationDenominator, MAINT_MARGIN_RATE]
  have h := ((C4_derived_leverage_check
    { direction := .long, manualLeverageInput := .str "", fundsInput := .str "1000",
      positionPercent := .num 10, entryPriceInput := .str "50000",
      liqPresetInput := .str "45000", targetPriceInput := .str "",
      usdtToTwd := none } initialResultState 50000 45000
    (by
      show truthy (parseValidFloat (.str "1000") (some (1 / 100)) none false) = true
      rw [hf]
      exact truthy_of_parse hf)
    (by decide) he hp (Or.inl ⟨rfl, by norm_num⟩)).2 (by
      show 1 ≤ 1 / derivationDenominator .long 50000 45000 ∧
        1 / derivationDenominator .long 50000 45000 ≤ 125
      rw [hd]
      norm_num)).2
  refine ⟨hd, ?_⟩
  rw [h]
  show some (1 / derivationDenominator .long 50000 45000) = some (125 / 13)
  rw [hd]
  norm_num

/-! ## C5: missing funds -/

/-- C5 fails on the code. After the first example of the specification has
been calculated (margin `"100.00"`, position size `"0.016667"`), emptying the
funds field gives the funds error and resets leverage and result record, but
the early return leaves margin and position size as they were: they do not
read as their defaults `"0.00"` and `"0.000000"`. -/
theorem C5_funds_error_keeps_margin_and_size :
    (performCalculations { example1 with fundsInput := .str "" }
      (performCalculations example1 initialResultState)).error = some .invalidFunds ∧
    (performCalculations { example1 with fundsInput := .str "" }
      (performCalculations example1 initialResultState)).finalLeverage = none ∧
    (performCalculations { example1 with fundsInput := .str "" }
      (performCalculations example1 initialResultState)).calculationResult = none ∧
    (performCalculations { example1 with fundsInput := .str "" }
      (performCalculations example1 initialResultState)).margin = .fixed false 10000 2 ∧
    (performCalculations { example1 with fundsInput := .str "" }
      (performCalculations example1 initialResultState)).positionSize = .fixed false 16667 6 ∧
    initialResultState.margin = .fixed false 0 2 ∧
    initialResultState.positionSize = .fixed false 0 6 := by
  have hf : truthy (Inputs.parsedFunds { example1 with fundsInput := .str "" }) = false := by
    decide
  rw [performCalculations_invalidFunds _ _ hf]
  exact ⟨rfl, rfl, rfl, (example1_margin_size initialResultState).1,
    (example1_margin_size initialResultState).2, rfl, rfl⟩

/-! ## C6: the margin -/

/-- C6 fails on the code. The funds `"0.005"` are positive, which is what the
message of the funds error itself asks for ("請輸入有效的可用資金 (> 0)"), yet
the parser is called with the lower bound 0.01 and rejects them: at 100% the
funds error is raised and the margin stays `"0.00"`, where the claim has the
margin `F * p / 100 = 0.005` reported without a funds error. -/
theorem C6_positive_funds_rejected :
    (performCalculationsD
      { example1D with fundsInput := .str "0.005", positionPercent := .num (.fin 100) }
      initialResultStateD).error = some .invalidFunds ∧
    (performCalculationsD
      { example1D with fundsInput := .str "0.005", positionPercent := .num (.fin 100) }
      initialResultStateD).margin = .text (.fixed false 0 2) := by
  have hr : roundToDouble (literalValue false 5 (-3)) =
      .fin (5764607523034235 / 1152921504606846976) :=
    roundToDouble_cert _ _ 5764607523034235 (-60) (by norm_num)
      (by norm_num [literalValue]) (by norm_num [literalValue]) (by norm_num [literalValue])
      (by norm_num [literalValue]) (by norm_num) (by norm_num)
  have hp : parseValidFloatD (.str "0.005") CENT_D (.inf false) false = none := by
    rw [parseValidFloatD_str_of_scan "0.005" false 5 (-3) [] _ _ _ _ (by decide) hr, CENT_D_eq]
    simp only [Dbl.isNaN, Dbl.le, Dbl.lt, Dbl.gt]
    norm_num
  have hf : truthyD (InputsD.parsedFunds
      { example1D with fundsInput := .str "0.005", positionPercent := .num (.fin 100) }) =
      false := by
    show truthyD (parseValidFloatD (.str "0.005") CENT_D (.inf false) false) = false
    rw [hp]
    rfl
  rw [performCalculationsD_invalidFunds _ _ hf]
  exact ⟨rfl, rfl⟩

/-! ## C7: the contract of `parseValidFloat` -/

/-- C7 (as amended), on the numbers of JavaScript, for bounds that are not
`NaN`. `parseValidFloat` is a total function into `null` or a number. It
returns `null` for `NaN`, for a value that is neither a number nor a string,
for a blank string and for a string whose trimmed text starts with neither a
decimal numeral nor `Infinity`. A number stands for itself, a string for the
number `parseFloat` reads at the head of its trimmed text: the double nearest
to the value of the numeral it starts with (in particular, for a string
representation of `v` with white space around it, the double nearest to `v`),
or an infinity for the literal `Infinity`. For a value that stands for `d` the
result is `d` when `d` meets the sign condition and both bounds and `null`
otherwise. Every result that is not `null` is the number the value stands for,
is not `NaN` and meets the sign condition and both bounds. -/
theorem C7_parseValidFloat_double_contract (value : JsValueD) (min max : Dbl)
    (allowZero : Bool) (hmin : min.isNaN = false) (hmax : max.isNaN = false) :
    (value = .num .nan → parseValidFloatD value min max allowZero = none) ∧
    (∀ t, value = .other t → parseValidFloatD value min max allowZero = none) ∧
    (∀ d, value = .num d → d.isNaN = false → readsAsD value = some d) ∧
    (∀ s, value = .str s →
      jsTrim s.data = [] ∨
        (scanFloat (jsTrim s.data) = none ∧ scanInfinity (jsTrim s.data) = none) →
      parseValidFloatD value min max allowZero = none) ∧
    (∀ s neg m e rest, value = .str s → scanFloat (jsTrim s.data) = some (neg, m, e, rest) →
      readsAsD value = some (roundToDouble (literalValue neg m e))) ∧
    (∀ s neg, value = .str s → scanFloat (jsTrim s.data) = none →
      scanInfinity (jsTrim s.data) = some neg → readsAsD value = some (.inf neg)) ∧
    (∀ s v, value = .str s → representsNumber s = some v →
      (∀ pre post : List Char, (∀ c ∈ pre, isJsWhiteSpace c = true) →
        (∀ c ∈ post, isJsWhiteSpace c = true) →
        representsNumber (String.mk (pre ++ s.data ++ post)) = some v) ∧
      readsAsD value = some (roundToDouble v)) ∧
    (∀ d, readsAsD value = some d →
      ¬ ((if allowZero then d.ge (.fin 0) = true else d.gt (.fin 0) = true) ∧
        d.ge min = true ∧ d.le max = true) →
      parseValidFloatD value min max allowZero = none) ∧
    (∀ d, readsAsD value = some d →
      (if allowZero then d.ge (.fin 0) = true else d.gt (.fin 0) = true) →
      d.ge min = true → d.le max = true →
      parseValidFloatD value min max allowZero = some d) ∧
    (∀ r, parseValidFloatD value min max allowZero = some r →
      readsAsD value = some r ∧ r.isNaN = false ∧
      (if allowZero then r.ge (.fin 0) = true else r.gt (.fin 0) = true) ∧
      r.ge min = true ∧ r.le max = true) := by
  have hlim : ∀ d : Dbl, withinLimitsD d min max allowZero = true ↔
      ((if allowZero then d.ge (.fin 0) = true else d.gt (.fin 0) = true) ∧
        d.ge min = true ∧ d.le max = true) := by
    intro d
    unfold withinLimitsD
    cases allowZero <;> simp [and_assoc]
  have hscan : ∀ (s : String) neg m e rest,
      scanFloat (jsTrim s.data) = some (neg, m, e, rest) →
      readsAsD (.str s) = some (roundToDouble (literalValue neg m e)) := by
    intro s neg m e rest h
    have hne := scanFloat_ne_nil h
    simp only [readsAsD, hne, if_false, parseFloatCharsD, h, roundToDouble_isNaN,
      Bool.false_eq_true]
  refine ⟨?_, ?_, ?_, ?_, ?_, ?_, ?_, ?_, ?_, ?_⟩
  · rintro rfl
    rfl
  · rintro t rfl
    rfl
  · rintro d rfl hd
    simp only [readsAsD, hd, Bool.false_eq_true, if_false]
  · rintro s rfl h
    rw [parseValidFloatD_eq _ _ _ _ hmin hmax]
    rcases h with h | ⟨h1, h2⟩
    · simp only [readsAsD, h, if_true]
    · by_cases hb : jsTrim s.data = []
      · simp only [readsAsD, hb, if_true]
      · simp only [readsAsD, hb, if_false, parseFloatCharsD, h1, h2, Dbl.isNaN, if_true]
  · rintro s neg m e rest rfl h
    exact hscan s neg m e rest h
  · rintro s neg rfl h1 h2
    have hne : jsTrim s.data ≠ [] := by
      intro h0
      rw [h0] at h2
      cases h2
    simp only [readsAsD, hne, if_false, parseFloatCharsD, h1, h2, Dbl.isNaN,
      Bool.false_eq_true]
  · rintro s v rfl hrep
    constructor
    · intro pre post hpre hpost
      unfold representsNumber at hrep ⊢
      rw [jsTrim_pad pre s.data post hpre hpost]
      exact hrep
    · unfold representsNumber at hrep
      split at hrep
      · rename_i neg m e h
        cases hrep
        exact hscan s neg m e [] h
      · cases hrep
  · intro d hd hnot
    rw [parseValidFloatD_eq _ _ _ _ hmin hmax, hd]
    have : withinLimitsD d min max allowZero ≠ true := fun h => hnot ((hlim d).1 h)
    simp only
    rw [if_neg this]
  · intro d hd h1 h2 h3
    rw [parseValidFloatD_eq _ _ _ _ hmin hmax, hd]
    have : withinLimitsD d min max allowZero = true := (hlim d).2 ⟨h1, h2, h3⟩
    simp only [this, if_true]
  · intro r hr
    rw [parseValidFloatD_eq _ _ _ _ hmin hmax] at hr
    cases hread : readsAsD value with
    | none => rw [hread] at hr; cases hr
    | some d =>
      rw [hread] at hr
      simp only at hr
      split at hr
      · rename_i hw
        cases hr
        exact ⟨rfl, readsAsD_isNaN hread, (hlim _).1 hw⟩
      · cases hr

/-- C7, checked on the text `"  42.5 "` with the bounds 1 and 100. -/
theorem C7_parseValidFloat_double_contract_witness :
    parseValidFloatD (.str "  42.5 ") (.fin 1) (.fin 100) false = some (.fin (85 / 2)) := by
  have h : scanFloat (jsTrim "  42.5 ".data) = some (false, 425, -1, []) := by decide
  have hr : roundToDouble (literalValue false 425 (-1)) = .fin (85 / 2) :=
    roundToDouble_cert _ _ 5981343255101440 (-47) (by norm_num)
      (by norm_num [literalValue]) (by norm_num [literalValue]) (by norm_num [literalValue])
      (by norm_num [literalValue]) (by norm_num) (by norm_num)
  have hread := (C7_parseValidFloat_double_contract (.str "  42.5 ") (.fin 1) (.fin 100) false
    rfl rfl).2.2.2.2.1 "  42.5 " false 425 (-1) [] rfl h
  rw [hr] at hread
  exact (C7_parseValidFloat_double_contract (.str "  42.5 ") (.fin 1) (.fin 100) false
    rfl rfl).2.2.2.2.2.2.2.2.1 (.fin (85 / 2)) hread
    (by simp [Dbl.gt, Dbl.lt]) (by simp [Dbl.ge, Dbl.le]; norm_num)
    (by simp [Dbl.le]; norm_num)

/-- C7 as stated fails. `"12abc"` is not a string representation of a number,
yet `parseValidFloat` returns 12 for it; and `"1e-400"` is a string
representation of a number greater than zero, yet `parseValidFloat` returns
`null` for it with no bounds given, because `parseFloat` reads the double
nearest to it, which is 0. -/
theorem C7_double_counterexample :
    representsNumber "12abc" = none ∧
    parseValidFloatD (.str "12abc") (.inf true) (.inf false) false = some (.fin 12) ∧
    representsNumber "1e-400" = some (1 / 10 ^ 400) ∧
    parseValidFloatD (.str "1e-400") (.inf true) (.inf false) false = none := by
  have h12 : scanFloat (jsTrim "12abc".data) = some (false, 12, 0, ['a', 'b', 'c']) := by
    decide
  have hr12 : roundToDouble (literalValue false 12 0) = .fin 12 :=
    roundToDouble_cert _ _ 6755399441055744 (-49) (by norm_num)
      (by norm_num [literalValue]) (by norm_num [literalValue]) (by norm_num [literalValue])
      (by norm_num [literalValue]) (by norm_num) (by norm_num)
  have hs : scanFloat (jsTrim "1e-400".data) = some (false, 1, -400, []) := by decide
  have hlit : literalValue false 1 (-400) = 1 / 10 ^ 400 := by
    have h10 : (10 : ℚ) ^ (400 : ℤ) = 10 ^ 400 := zpow_natCast 10 400
    unfold literalValue
    rw [zpow_neg, h10, one_div, if_neg (by decide), Nat.cast_one, one_mul, one_mul]
  have hrs : roundToDouble (literalValue false 1 (-400)) = .fin 0 := by
    rw [hlit]
    apply roundToDouble_underflow _ (by positivity)
    rw [zpow_neg, ← one_div]
    have h1 : (2 : ℚ) ^ (1075 : ℤ) = 2 ^ 1075 := zpow_natCast 2 1075
    rw [h1]
    apply one_div_lt_one_div_of_lt (by positivity)
    calc (2 : ℚ) ^ 1075 < 2 ^ 1200 := pow_lt_pow_right₀ (by norm_num) (by norm_num)
      _ = (2 ^ 3) ^ 400 := by rw [← pow_mul]
      _ < 10 ^ 400 := pow_lt_pow_left₀ (by norm_num) (by norm_num) (by norm_num)
  refine ⟨by decide, ?_, ?_, ?_⟩
  · rw [parseValidFloatD_str_of_scan _ false 12 0 ['a', 'b', 'c'] _ _ _ _ h12 hr12]
    simp [Dbl.isNaN, Dbl.le, Dbl.lt, Dbl.gt]
  · unfold representsNumber
    rw [hs]
    show some (literalValue false 1 (-400)) = some (1 / 10 ^ 400)
    rw [hlit]
  · rw [parseValidFloatD_str_of_scan _ false 1 (-400) [] _ _ _ _ hs hrs]
    simp [Dbl.isNaN, Dbl.le, Dbl.lt, Dbl.gt]

/-! ## C8: position size, profit and loss, fees -/

/-- C8. For every input with valid funds `F`, percentage `p`, entry price `E`
and target price `T` and a resolved leverage `L`, `performCalculations` works
with `positionSize = (F * p / 100) * L / E`, `entryValue = positionSize * E`,
`exitValue = positionSize * T`, `grossPnl = exitValue - entryValue` on a long
position and `entryValue - exitValue` otherwise, `totalFee = 0.0005 *
entryValue + 0.0005 * exitValue` and `netPnl = grossPnl - totalFee`: it ends
without an error and writes the margin with two decimals, the position size
with six decimals and a result record with `grossPnl`, `totalFee` and `netPnl`
with two decimals. -/
theorem C8_position_and_pnl (inp : Inputs) (st : State) (F p E T L : ℚ)
    (hF : inp.parsedFunds = some F) (hp : inp.parsedPosPercent = some p)
    (hE : inp.parsedEntry = some E) (hT : inp.parsedTarget = some T)
    (hL : (performCalculations inp st).finalLeverage = some L) :
    ∃ positionSize entryValue exitValue grossPnl totalFee netPnl : ℚ,
      positionSize = (F * p / 100) * L / E ∧
      entryValue = positionSize * E ∧
      exitValue = positionSize * T ∧
      (inp.direction = .long → grossPnl = exitValue - entryValue) ∧
      (inp.direction ≠ .long → grossPnl = entryValue - exitValue) ∧
      totalFee = 5 / 10000 * entryValue + 5 / 10000 * exitValue ∧
      netPnl = grossPnl - totalFee ∧
      (performCalculations inp st).error = none ∧
      (performCalculations inp st).margin = toFixed (F * p / 100) 2 ∧
      (performCalculations inp st).positionSize = toFixed positionSize 6 ∧
      ∃ res, (performCalculations inp st).calculationResult = some res ∧
        res.grossPnl = toFixed grossPnl 2 ∧
        res.totalFee = toFixed totalFee 2 ∧
        res.netPnl = toFixed netPnl 2 := by
  have h := (performCalculations_full inp st F p E T L hF hp hE hT hL).2.2.2
  refine ⟨F * p / 100 * L / E, F * p / 100 * L / E * E, F * p / 100 * L / E * T,
    (pnlLocals inp.direction (F * p / 100 * L / E) L E T).grossPnl,
    (pnlLocals inp.direction (F * p / 100 * L / E) L E T).totalFee,
    (pnlLocals inp.direction (F * p / 100 * L / E) L E T).netPnl,
    rfl, rfl, rfl, ?_, ?_, ?_, rfl, ?_, ?_, ?_, ?_⟩
  · intro hd
    simp [pnlLocals, hd]
  · intro hd
    simp [pnlLocals, hd]
  · simp only [pnlLocals, feeRate, DEFAULT_FEE_RATE]
    ring
  · rw [h]
  · rw [h]
  · rw [h]
  · rw [h]
    exact ⟨_, rfl, rfl, rfl, rfl⟩

/-- C8, checked on the first example of the specification: short, funds 1000,
position 10%, entry price 60000, manual leverage 10, target price 58000 give
the margin `100.00`, the position size `0.016667` (exactly 1/60), the entry
value 1000, the exit value 2900/3 (966.6667), and the texts `33.33`, `0.98`
and `32.35` for gross profit, fees and net profit. -/
theorem C8_position_and_pnl_witness :
    (performCalculations example1 initialResultState).margin = .fixed false 10000 2 ∧
    (performCalculations example1 initialResultState).positionSize = .fixed false 16667 6 ∧
    ∃ res, (performCalculations example1 initialResultState).calculationResult = some res ∧
      res.grossPnl = .fixed false 3333 2 ∧
      res.totalFee = .fixed false 98 2 ∧
      res.netPnl = .fixed false 3235 2 := by
  obtain ⟨ps, ev, xv, g, fee, net, hps, hev, hxv, _, hg, hfee, hnet, _, hm, hsz, res, hres, h1,
      h2, h3⟩ :=
    C8_position_and_pnl example1 initialResultState 1000 10 60000 58000 10
      example1_parsedFunds example1_parsedPosPercent example1_parsedEntry example1_parsedTarget
      (example1_finalLeverage initialResultState)
  have hps' : ps = 1 / 60 := by rw [hps]; norm_num
  have hev' : ev = 1000 := by rw [hev, hps']; norm_num
  have hxv' : xv = 2900 / 3 := by rw [hxv, hps']; norm_num
  have hg' : g = 100 / 3 := by
    rw [hg (by decide), hev', hxv']
    norm_num
  have hfee' : fee = 59 / 60 := by rw [hfee, hev', hxv']; norm_num
  have hnet' : net = 647 / 20 := by rw [hnet, hg', hfee']; norm_num
  refine ⟨?_, ?_, res, hres, ?_, ?_, ?_⟩
  · rw [hm]
    exact toFixed_eq_of_bounds _ 2 10000 (by norm_num) (by norm_num) (by norm_num) (by norm_num)
  · rw [hsz, hps']
    exact toFixed_eq_of_bounds _ 6 16667 (by norm_num) (by norm_num) (by norm_num) (by norm_num)
  · rw [h1, hg']
    exact toFixed_eq_of_bounds _ 2 3333 (by norm_num) (by norm_num) (by norm_num) (by norm_num)
  · rw [h2, hfee']
    exact toFixed_eq_of_bounds _ 2 98 (by norm_num) (by norm_num) (by norm_num) (by norm_num)
  · rw [h3, hnet']
    exact toFixed_eq_of_bounds _ 2 3235 (by norm_num) (by norm_num) (by norm_num) (by norm_num)

/-! ## C9: the risk/reward ratio -/

/-- C9. In the risk/reward step, whatever the locals it works on (direction,
position size, entry value, entry fee, net profit, actual liquidation price),
with `totalRisk = potentialLoss + entryFee + riskExitValue * feeRate`: the
ratio is the text `"∞"` exactly when the actual liquidation price is
applicable, `totalRisk ≤ 1e-9` and `netPnl > 0`; it is `|netPnl| / totalRisk`
(written with two decimals) when the liquidation price is applicable and
`totalRisk > 1e-9`; and it is `"N/A"` when the liquidation price could not be
computed and when `totalRisk ≤ 1e-9` and `netPnl ≤ 0`. The liquidation price
is not applicable exactly when the computed price is not positive, and the
ratio of every result record `performCalculations` produces comes from this
step, applied to the locals of the calculation. -/
theorem C9_risk_reward_ratio (direction : Direction)
    (calculatedSize entryValue entryFee netPnl : ℚ) (actualLiq : Option ℚ) :
    (∀ liq, totalRisk direction calculatedSize entryValue entryFee liq =
      (if direction = .long then entryValue - calculatedSize * liq
        else calculatedSize * liq - entryValue) + entryFee +
        calculatedSize * liq * (5 / 10000)) ∧
    (riskRewardText direction calculatedSize entryValue entryFee netPnl actualLiq = .infinite ↔
      ∃ liq, actualLiq = some liq ∧
        totalRisk direction calculatedSize entryValue entryFee liq ≤ 1 / 10 ^ 9 ∧ 0 < netPnl) ∧
    (∀ liq, actualLiq = some liq →
      1 / 10 ^ 9 < totalRisk direction calculatedSize entryValue entryFee liq →
      riskRewardText direction calculatedSize entryValue entryFee netPnl actualLiq =
        toFixed (|netPnl| / totalRisk direction calculatedSize entryValue entryFee liq) 2) ∧
    (actualLiq = none →
      riskRewardText direction calculatedSize entryValue entryFee netPnl actualLiq = .na) ∧
    (∀ liq, actualLiq = some liq →
      totalRisk direction calculatedSize entryValue entryFee liq ≤ 1 / 10 ^ 9 → netPnl ≤ 0 →
      riskRewardText direction calculatedSize entryValue entryFee netPnl actualLiq = .na) ∧
    (∀ E L, actualLiqPriceNum direction E L = none ↔ liqPrice direction E L ≤ 0) ∧
    (∀ E L liq, actualLiqPriceNum direction E L = some liq ↔
      (liq = liqPrice direction E L ∧ 0 < liq)) ∧
    (∀ (inp : Inputs) (st : State) (res : CalcResult), inp.direction = direction →
      (performCalculations inp st).calculationResult = some res →
      ∃ size L E T, (performCalculations inp st).finalLeverage = some L ∧
        inp.parsedEntry = some E ∧ inp.parsedTarget = some T ∧
        size = calcMargin inp.parsedFunds inp.parsedPosPercent * L / E ∧
        res.rRatio = riskRewardText direction size (size * E) (size * E * feeRate)
          (pnlLocals direction size L E T).netPnl (actualLiqPriceNum direction E L) ∧
        (res.actualLiqPrice = .na ↔ actualLiqPriceNum direction E L = none)) := by
  have hfixed : ∀ (x : ℚ) (d : Nat), toFixed x d ≠ .infinite ∧ toFixed x d ≠ .na := by
    intro x d
    unfold toFixed
    split <;> exact ⟨by simp, by simp⟩
  refine ⟨?_, ?_, ?_, ?_, ?_, ?_, ?_, ?_⟩
  · intro liq
    simp only [totalRisk, feeRate, DEFAULT_FEE_RATE]
  · constructor
    · intro h
      cases actualLiq with
      | none => simp [riskRewardText] at h
      | some liq =>
        simp only [riskRewardText] at h
        split at h
        · exact absurd h (hfixed _ _).1
        · rename_i hrisk
          split at h
          · rename_i hnet
            exact ⟨liq, rfl, not_lt.1 hrisk, hnet⟩
          · cases h
    · rintro ⟨liq, rfl, hrisk, hnet⟩
      simp only [riskRewardText]
      rw [if_neg (not_lt.2 hrisk), if_pos hnet]
  · rintro liq rfl hrisk
    simp only [riskRewardText]
    rw [if_pos hrisk]
  · rintro rfl
    rfl
  · rintro liq rfl hrisk hnet
    simp only [riskRewardText]
    rw [if_neg (not_lt.2 hrisk), if_neg (not_lt.2 hnet)]
  · intro E L
    unfold actualLiqPriceNum
    by_cases h : liqPrice direction E L > 0
    · simp [h]
    · simp [h, not_lt.1 h]
  · intro E L liq
    unfold actualLiqPriceNum
    by_cases h : liqPrice direction E L > 0
    · rw [if_pos h]
      constructor
      · intro heq
        cases heq
        exact ⟨rfl, h⟩
      · rintro ⟨heq, _⟩
        rw [heq]
    · rw [if_neg h]
      constructor
      · intro heq
        cases heq
      · rintro ⟨heq, hpos⟩
        rw [heq] at hpos
        exact absurd hpos h
  · intro inp st res hd hres
    rcases performCalculations_cases inp st with ⟨_, h⟩ | ⟨e, _, _, _, h⟩ | ⟨_, _, h⟩
    · rw [h] at hres; cases hres
    · rw [h] at hres; cases hres
    · rw [h] at hres ⊢
      simp only at hres ⊢
      obtain ⟨l, E, T, hl, hE, hT, _, _, _, _, _, hr⟩ := calcPnl_some hres
      refine ⟨_, l, E, T, hl, hE, hT, rfl, ?_, ?_⟩
      · rw [hr, ← hd]
        rfl
      · rw [hr, ← hd]
        simp only [pnlResult, pnlLocals]
        cases hliq : actualLiqPriceNum inp.direction E l with
        | none => simp
        | some v => simp [(hfixed v 2).2]

/-- C9, checked on locals without any risk and with a net profit of 1 (the
ratio is `"∞"`), and on the same locals with a net loss (the ratio is
`"N/A"`). -/
theorem C9_risk_reward_ratio_witness :
    riskRewardText .long 0 0 0 1 (some 1) = .infinite ∧
    riskRewardText .long 0 0 0 (-1) (some 1) = .na :=
  ⟨(C9_risk_reward_ratio .long 0 0 0 1 (some 1)).2.1.2
      ⟨1, rfl, by norm_num [totalRisk], by norm_num⟩,
    (C9_risk_reward_ratio .long 0 0 0 (-1) (some 1)).2.2.2.2.1 1 rfl
      (by norm_num [totalRisk]) (by norm_num)⟩

/-! ## C10: no leverage to resolve -/

/-- C10 (as amended). For every input with valid funds in which no manual
leverage is set (the field is empty or does not read as a number) and the
inputs of the derivation are incomplete (entry price or preset liquidation
price missing or invalid), `performCalculations` reports no error: no leverage
is derived or stored, the position size is `"0.000000"`, no result record is
produced, and the margin is still reported. -/
theorem C10_leverage_unresolved (inp : Inputs) (st : State)
    (hfunds : truthy inp.parsedFunds = true)
    (hman : isLeverageManuallySet inp.manualLeverageInput = false)
    (hinc : inp.parsedEntry = none ∨ inp.parsedLiqPreset = none) :
    (performCalculations inp st).error = none ∧
    (performCalculations inp st).derivedLeverage = none ∧
    (performCalculations inp st).finalLeverage = none ∧
    (performCalculations inp st).positionSize = .fixed false 0 6 ∧
    (performCalculations inp st).calculationResult = none ∧
    (∀ F p, inp.parsedFunds = some F → inp.parsedPosPercent = some p →
      (performCalculations inp st).margin = toFixed (F * p / 100) 2) ∧
    (inp.parsedPosPercent = none → (performCalculations inp st).margin = .fixed false 0 2) := by
  have hr : resolution inp =
      { currentError := none, leverageToUse := none, derivedLeverage := none } := by
    apply resolveLeverage_incomplete _ _ _ _ hman
    rcases hinc with h | h
    · left; rw [h]; rfl
    · right; rw [h]; rfl
  rw [performCalculations_noError inp st hfunds (by rw [hr])]
  refine ⟨rfl, by rw [hr], by rw [hr], ?_, ?_, ?_, ?_⟩
  · simp [sizeText, hr]
  · simp [hr, calcPnl]
  · intro F p hF hp
    have hF0 : 0 < F := parseValidFloat_pos hF
    have hp0 : 0 < p := parseValidFloat_pos hp
    simp [marginText, hF, hp, calcMargin_some F p hF0 hp0, truthy, hF0.ne.symm, hp0.ne.symm]
  · intro hp
    simp [marginText, hp, truthy]

/-- C10, checked on funds 1000 at 10% with every other field empty: no error,
no leverage, and the margin `"100.00"`. -/
theorem C10_leverage_unresolved_witness :
    (performCalculations
      { example1 with manualLeverageInput := .str "", entryPriceInput := .str "",
                      targetPriceInput := .str "" }
      initialResultState).error = none ∧
    (performCalculations
      { example1 with manualLeverageInput := .str "", entryPriceInput := .str "",
                      targetPriceInput := .str "" }
      initialResultState).finalLeverage = none ∧
    (performCalculations
      { example1 with manualLeverageInput := .str "", entryPriceInput := .str "",
                      targetPriceInput := .str "" }
      initialResultState).margin = .fixed false 10000 2 := by
  have h := C10_leverage_unresolved
    { example1 with manualLeverageInput := .str "", entryPriceInput := .str "",
                    targetPriceInput := .str "" }
    initialResultState
    (by
      show truthy example1.parsedFunds = true
      rw [example1_parsedFunds]
      exact truthy_of_parse example1_parsedFunds)
    (by decide) (Or.inl (by decide))
  refine ⟨h.1, h.2.2.1, ?_⟩
  rw [h.2.2.2.2.2.1 1000 10 example1_parsedFunds example1_parsedPosPercent]
  exact toFixed_eq_of_bounds _ 2 10000 (by norm_num) (by norm_num) (by norm_num) (by norm_num)

/-- C10 as stated fails: a manual leverage of 200 is invalid and the entry
price is missing, yet `performCalculations` reports the error that the
leverage must lie between 1 and 125. -/
theorem C10_counterexample :
    (performCalculations
      { example1 with manualLeverageInput := .str "200", entryPriceInput := .str "" }
      initialResultState).error = some .leverageOutOfRange := by
  have hf : truthy (Inputs.parsedFunds
      { example1 with manualLeverageInput := .str "200", entryPriceInput := .str "" }) = true := by
    show truthy example1.parsedFunds = true
    rw [example1_parsedFunds]
    exact truthy_of_parse example1_parsedFunds
  have hp : parseValidFloat (.str "200") (some MIN_LEVERAGE) (some MAX_LEVERAGE) false = none :=
    parseValidFloat_str_rejected _ false 200 0 [] 200 (by decide) (by norm_num [literalValue])
      (by norm_num [withinLimits, geMin, leMax, MIN_LEVERAGE, MAX_LEVERAGE])
  have hr := resolveLeverage_manual_invalid .short (.str "200")
    (Inputs.parsedEntry
      { example1 with manualLeverageInput := .str "200", entryPriceInput := .str "" })
    (Inputs.parsedLiqPreset
      { example1 with manualLeverageInput := .str "200", entryPriceInput := .str "" })
    (by decide) hp
  rw [performCalculations_leverageError _ _ .leverageOutOfRange hf
    (congrArg Resolution.currentError hr)]

/-! ## C11: a valid manual leverage overrides the preset liquidation price -/

/-- C11. For every input with valid funds whose manual leverage parses to a
value `L` in `[1, 125]`, `performCalculations` ends without an error and uses
exactly `L` as the leverage (nothing is derived), and the whole state it
leaves (error, margin, leverage, position size and result record) is the same
for every value of the preset liquidation price, be it present, absent or
against the ordering of the direction. -/
theorem C11_manual_leverage_overrides_preset (inp : Inputs) (st : State) (L : ℚ)
    (liqPreset : JsValue)
    (hfunds : truthy inp.parsedFunds = true)
    (hman : parseValidFloat inp.manualLeverageInput (some MIN_LEVERAGE) (some MAX_LEVERAGE)
      false = some L) :
    (1 ≤ L ∧ L ≤ 125) ∧
    (performCalculations inp st).error = none ∧
    (performCalculations inp st).finalLeverage = some L ∧
    (performCalculations inp st).derivedLeverage = none ∧
    performCalculations { inp with liqPresetInput := liqPreset } st =
      performCalculations inp st := by
  have hset := isLeverageManuallySet_of_parse _ _ _ _ L hman
  have hb := parseValidFloat_some hman
  have hr : ∀ q : Option ℚ, resolveLeverage inp.direction inp.manualLeverageInput
      inp.parsedEntry q =
      { currentError := none, leverageToUse := some L, derivedLeverage := none } :=
    fun q => resolveLeverage_manual_valid _ _ _ _ L hset hman
  have h1 : resolution inp =
      { currentError := none, leverageToUse := some L, derivedLeverage := none } := hr _
  have h2 : resolution { inp with liqPresetInput := liqPreset } =
      { currentError := none, leverageToUse := some L, derivedLeverage := none } := hr _
  refine ⟨⟨by simpa [geMin, MIN_LEVERAGE] using hb.2.1, by simpa [leMax, MAX_LEVERAGE] using hb.2.2⟩,
    ?_, ?_, ?_, ?_⟩
  · rw [performCalculations_noError inp st hfunds (by rw [h1])]
  · rw [performCalculations_noError inp st hfunds (by rw [h1]), h1]
  · rw [performCalculations_noError inp st hfunds (by rw [h1]), h1]
  · rw [performCalculations_noError inp st hfunds (by rw [h1]),
      performCalculations_noError _ st (by exact hfunds) (by rw [h2])]
    simp only [sizeText, h1, h2]
    rfl

/-- C11, checked on the first example of the specification (short, entry
price 60000, manual leverage 10): a preset liquidation price of 60000, which
is against the ordering for a short position, changes nothing. -/
theorem C11_manual_leverage_overrides_preset_witness :
    (performCalculations example1 initialResultState).finalLeverage = some 10 ∧
    performCalculations { example1 with liqPresetInput := .str "60000" } initialResultState =
      performCalculations example1 initialResultState := by
  have h := C11_manual_leverage_overrides_preset example1 initialResultState 10 (.str "60000")
    (by
      rw [example1_parsedFunds]
      exact truthy_of_parse example1_parsedFunds)
    (parseValidFloat_str_of_scan _ false 10 0 []
      (by decide) (by norm_num [literalValue])
      (by norm_num [withinLimits, geMin, leMax, MIN_LEVERAGE, MAX_LEVERAGE]))
  exact ⟨h.2.2.1, h.2.2.2.2⟩

/-! ## C12: the stored exchange rate -/

theorem runFetches_append (outcomes : List FetchOutcome) (o : FetchOutcome) (s : RateState) :
    runFetches (outcomes ++ [o]) s = fetchExchangeRate o (runFetches outcomes s) := by
  simp [runFetches, List.foldl_append]

/-- C12 (as amended). After any sequence of fetch outcomes that is not empty,
the stored exchange rate is decided by the last outcome alone: it is the rate
of that outcome when it is a success (and the status is `"success"`), and it
is `null` when it is a failure (and the status is `"error"`), whatever was
stored before. A failure that follows a success therefore makes the rate
unavailable. -/
theorem C12_rate_follows_last_outcome (outcomes : List FetchOutcome) (o : FetchOutcome)
    (s : RateState) :
    (runFetches (outcomes ++ [o]) s).usdtToTwd = o.successRate ∧
    (∀ r, o.successRate = some r →
      runFetches (outcomes ++ [o]) s = { usdtToTwd := some r, twdFetchStatus := .success } ∧
      lastSuccessRate (outcomes ++ [o]) = some r) ∧
    (o.successRate = none →
      runFetches (outcomes ++ [o]) s = { usdtToTwd := none, twdFetchStatus := .error }) := by
  rw [runFetches_append]
  cases o with
  | rejected => simp [fetchExchangeRate, FetchOutcome.successRate]
  | notOk => simp [fetchExchangeRate, FetchOutcome.successRate]
  | body twd =>
    cases twd with
    | none => simp [fetchExchangeRate, FetchOutcome.successRate]
    | some v =>
      by_cases hv : v = 0
      · simp [fetchExchangeRate, FetchOutcome.successRate, hv]
      · simp [fetchExchangeRate, FetchOutcome.successRate, hv, lastSuccessRate]

/-- C12 as stated fails: after a success with the rate 32 followed by a
failure the sequence contains a success, whose rate 32 is the rate of the most
recent success, yet the stored rate is `null`. -/
theorem C12_counterexample :
    lastSuccessRate [.body (some 32), .rejected] = some 32 ∧
    (runFetches [.body (some 32), .rejected] initialRateState).usdtToTwd = none := by
  constructor
  · simp [lastSuccessRate, FetchOutcome.successRate]
  · simp [runFetches, fetchExchangeRate]

/-- C12, checked on a failure followed by a success with the rate 32: the
stored rate is 32 (the rate of the last outcome) and the status is
`"success"`. -/
theorem C12_rate_follows_last_outcome_witness :
    runFetches [.rejected, .body (some 32)] initialRateState =
      { usdtToTwd := some 32, twdFetchStatus := .success } :=
  ((C12_rate_follows_last_outcome [.rejected] (.body (some 32)) initialRateState).2.1 32
    (by simp [FetchOutcome.successRate])).1

/-! ## C13: the exchange rate only touches the local-currency profit -/

/-- C13. For every input and any two values of the exchange rate (absent
included), `performCalculations` leaves the same error, margin, derived and
final leverage and position size, and result records that agree in `grossPnl`,
`totalFee`, `netPnl`, risk/reward ratio and actual liquidation price (one is
produced exactly when the other is); only the field `netPnlTwd` depends on the
rate: it is `netPnl * rate`, written with two decimals, when the rate is
present and `"N/A"` when it is absent. -/
theorem C13_exchange_rate_frame (inp : Inputs) (st : State) (rate rate' : Option ℚ) :
    (performCalculations { inp with usdtToTwd := rate } st).error =
      (performCalculations { inp with usdtToTwd := rate' } st).error ∧
    (performCalculations { inp with usdtToTwd := rate } st).margin =
      (performCalculations { inp with usdtToTwd := rate' } st).margin ∧
    (performCalculations { inp with usdtToTwd := rate } st).derivedLeverage =
      (performCalculations { inp with usdtToTwd := rate' } st).derivedLeverage ∧
    (performCalculations { inp with usdtToTwd := rate } st).finalLeverage =
      (performCalculations { inp with usdtToTwd := rate' } st).finalLeverage ∧
    (performCalculations { inp with usdtToTwd := rate } st).positionSize =
      (performCalculations { inp with usdtToTwd := rate' } st).positionSize ∧
    ((performCalculations { inp with usdtToTwd := rate } st).calculationResult.map
        (fun res => { res with netPnlTwd := Text.na }) =
      (performCalculations { inp with usdtToTwd := rate' } st).calculationResult.map
        (fun res => { res with netPnlTwd := Text.na })) ∧
    (∀ res, (performCalculations { inp with usdtToTwd := rate } st).calculationResult = some res →
      ∃ size L E T grossPnl totalFee netPnl : ℚ,
        (performCalculations { inp with usdtToTwd := rate } st).finalLeverage = some L ∧
        inp.parsedEntry = some E ∧ inp.parsedTarget = some T ∧
        size = calcMargin inp.parsedFunds inp.parsedPosPercent * L / E ∧
        grossPnl = (if inp.direction = .long then size * T - size * E
          else size * E - size * T) ∧
        totalFee = size * E * (5 / 10000) + size * T * (5 / 10000) ∧
        netPnl = grossPnl - totalFee ∧
        res.netPnl = toFixed netPnl 2 ∧
        (∀ x, rate = some x → res.netPnlTwd = toFixed (netPnl * x) 2) ∧
        (rate = none → res.netPnlTwd = .na)) := by
  have key : ∀ r : Option ℚ,
      (truthy inp.parsedFunds = false ∧
        performCalculations { inp with usdtToTwd := r } st =
          { error := some .invalidFunds, margin := st.margin, derivedLeverage := none,
            finalLeverage := none, positionSize := st.positionSize,
            calculationResult := none }) ∨
      (∃ e, truthy inp.parsedFunds = true ∧ (resolution inp).currentError = some e ∧
        performCalculations { inp with usdtToTwd := r } st =
          { error := some e, margin := marginText inp,
            derivedLeverage := (resolution inp).derivedLeverage,
            finalLeverage := none, positionSize := st.positionSize,
            calculationResult := none }) ∨
      (truthy inp.parsedFunds = true ∧ (resolution inp).currentError = none ∧
        performCalculations { inp with usdtToTwd := r } st =
          { error := none, margin := marginText inp,
            derivedLeverage := (resolution inp).derivedLeverage,
            finalLeverage := (resolution inp).leverageToUse,
            positionSize := sizeText inp,
            calculationResult :=
              calcPnl inp.direction r
                (calcSize (calcMargin inp.parsedFunds inp.parsedPosPercent)
                  (resolution inp).leverageToUse inp.parsedEntry)
                (resolution inp).leverageToUse inp.parsedEntry inp.parsedTarget }) := by
    intro r
    rcases performCalculations_cases { inp with usdtToTwd := r } st with
      ⟨hf, h⟩ | ⟨e, hf, he, _, h⟩ | ⟨hf, he, h⟩
    · exact Or.inl ⟨hf, h⟩
    · exact Or.inr (Or.inl ⟨e, hf, he, h⟩)
    · exact Or.inr (Or.inr ⟨hf, he, h⟩)
  rcases key rate with ⟨hf, h⟩ | ⟨e, hf, he, h⟩ | ⟨hf, he, h⟩
  · rcases key rate' with ⟨_, h'⟩ | ⟨e', hf', _, _⟩ | ⟨hf', _, _⟩
    · rw [h, h']
      exact ⟨rfl, rfl, rfl, rfl, rfl, rfl, fun res hres => by cases hres⟩
    · exact absurd (hf.symm.trans hf') (by decide)
    · exact absurd (hf.symm.trans hf') (by decide)
  · rcases key rate' with ⟨hf', _⟩ | ⟨e', _, he', h'⟩ | ⟨_, he', _⟩
    · exact absurd (hf'.symm.trans hf) (by decide)
    · have hee : e = e' := Option.some.inj (he.symm.trans he')
      subst hee
      rw [h, h']
      exact ⟨rfl, rfl, rfl, rfl, rfl, rfl, fun res hres => by cases hres⟩
    · rw [he] at he'
      cases he'
  · rcases key rate' with ⟨hf', _⟩ | ⟨e', _, he', _⟩ | ⟨_, _, h'⟩
    · exact absurd (hf'.symm.trans hf) (by decide)
    · rw [he] at he'
      cases he'
    · rw [h, h']
      refine ⟨rfl, rfl, rfl, rfl, rfl, calcPnl_rate _ _ _ _ _ _ _, ?_⟩
      intro res hres
      simp only at hres
      obtain ⟨l, E, T, hl, hE, hT, _, _, _, _, _, hr⟩ := calcPnl_some hres
      refine ⟨_, l, E, T, _, _, _, hl, hE, hT, rfl, rfl, rfl, rfl, ?_, ?_, ?_⟩
      · rw [hr]
        simp only [pnlResult, pnlLocals, feeRate, DEFAULT_FEE_RATE]
      · intro x hx
        rw [hr, hx]
        simp only [pnlResult, pnlLocals, feeRate, DEFAULT_FEE_RATE]
      · intro hx
        rw [hr, hx]
        simp only [pnlResult]

/-- C13, checked on the first example of the specification: with the rate 32
and without a rate the error is the same and the result records agree but for
`netPnlTwd`, which reads `1035.20` (32.35 times 32) with the rate 32. -/
theorem C13_exchange_rate_frame_witness :
    (performCalculations { example1 with usdtToTwd := some 32 } initialResultState).error =
      (performCalculations { example1 with usdtToTwd := none } initialResultState).error ∧
    (performCalculations { example1 with usdtToTwd := some 32 }
      initialResultState).calculationResult.map (fun res => { res with netPnlTwd := Text.na }) =
    (performCalculations { example1 with usdtToTwd := none }
      initialResultState).calculationResult.map (fun res => { res with netPnlTwd := Text.na }) ∧
    (∀ res, (performCalculations { example1 with usdtToTwd := some 32 }
      initialResultState).calculationResult = some res →
      res.netPnlTwd = .fixed false 103520 2) := by
  have h := C13_exchange_rate_frame example1 initialResultState (some 32) none
  refine ⟨h.1, h.2.2.2.2.2.1, ?_⟩
  intro res hres
  obtain ⟨size, L, E, T, g, fee, net, hL, hE, hT, hsize, hg, hfee, hnet, _, htwd, _⟩ :=
    h.2.2.2.2.2.2 res hres
  have hL10 : L = 10 := by
    have h1 : (performCalculations example1 initialResultState).finalLeverage = some L := by
      rw [← hL]
      exact h.2.2.2.1.symm
    rw [example1_finalLeverage] at h1
    exact (Option.some.inj h1).symm
  have hE' : E = 60000 := by
    rw [example1_parsedEntry] at hE
    exact (Option.some.inj hE).symm
  have hT' : T = 58000 := by
    rw [example1_parsedTarget] at hT
    exact (Option.some.inj hT).symm
  have hsz : size = 1 / 60 := by
    rw [hsize, example1_parsedFunds, example1_parsedPosPercent,
      calcMargin_some 1000 10 (by norm_num) (by norm_num), hL10, hE']
    norm_num
  have hnet' : net = 647 / 20 := by
    rw [hnet, hg, hfee, hsz, hE', hT', if_neg (by decide)]
    norm_num
  rw [htwd 32 rfl, hnet']
  exact toFixed_eq_of_bounds _ 2 103520 (by norm_num) (by norm_num) (by norm_num) (by norm_num)

/-! ## C14: the risk/reward ratio of a produced result is a finite number -/

/-- C14 (as amended), on the numbers of JavaScript. Whenever the funds `F`,
the percentage, the entry price `E` and the target price `T` are valid, with
`F`, `E` and `T` at most `1e100`, and a leverage `L` is resolved, then `L` lies
in `[1, 125]` and `performCalculations` produces a result record; the margin,
the position size, the liquidation price, the total risk and the net profit
it computes are finite numbers, the liquidation price is strictly positive and
`totalRisk ≥ margin * (1 - 0.004 * L) ≥ margin / 2 > 1e-9`, so the record
shows the liquidation price and the ratio `|netPnl| / totalRisk` as numbers
(with two decimals): neither reads `"N/A"` and the ratio never reads `"∞"`,
whatever the direction. -/
theorem C14_ratio_finite_double (inp : InputsD) (st : StateD) (F p E T L : ℚ)
    (hF : inp.parsedFunds = some (.fin F)) (hp : inp.parsedPosPercent = some (.fin p))
    (hE : inp.parsedEntry = some (.fin E)) (hT : inp.parsedTarget = some (.fin T))
    (hL : (performCalculationsD inp st).finalLeverage = some (.fin L))
    (hFb : F ≤ 10 ^ 100) (hEb : E ≤ 10 ^ 100) (hTb : T ≤ 10 ^ 100) :
    1 ≤ L ∧ L ≤ 125 ∧
    ∃ (res : CalcResultD) (margin size liqP entryValue risk net ratio : ℚ),
      (performCalculationsD inp st).calculationResult = some res ∧
      calcMarginD inp.parsedFunds inp.parsedPosPercent = .fin margin ∧
      calcSizeD (.fin margin) (some (.fin L)) (some (.fin E)) = .fin size ∧
      actualLiqPriceNumD inp.direction (.fin E) (.fin L) = .fin liqP ∧ 0 < liqP ∧
      (Dbl.fin size).mul (.fin E) = .fin entryValue ∧
      totalRiskD inp.direction (.fin size) (.fin entryValue)
        ((Dbl.fin entryValue).mul feeRateD) (.fin liqP) = .fin risk ∧
      margin * (1 - 4 / 1000 * L) ≤ risk ∧
      margin / 2 ≤ margin * (1 - 4 / 1000 * L) ∧
      1 / 10 ^ 9 < margin / 2 ∧
      (pnlLocalsD inp.direction (.fin size) (.fin L) (.fin E) (.fin T)).netPnl = .fin net ∧
      (Dbl.fin |net|).div (.fin risk) = .fin ratio ∧
      res.actualLiqPrice = .text (toFixed liqP 2) ∧
      res.rRatio = .text (toFixed ratio 2) ∧
      res.actualLiqPrice ≠ .text .na ∧ res.rRatio ≠ .text .na ∧
      res.rRatio ≠ .text .infinite := by
  have hF1 : 1 / 100 ≤ F := by
    have := parsedPrice_ge hF
    linarith
  have hE1 : 1 / 100 ≤ E := by
    have := parsedPrice_ge hE
    linarith
  have hT1 : 1 / 100 ≤ T := by
    have := parsedPrice_ge hT
    linarith
  have hE0 : 0 < E := by linarith
  have hT0 : 0 < T := by linarith
  obtain ⟨hp1, hp2⟩ := parsedPercent_bounds hp
  have hfunds : truthyD inp.parsedFunds = true := by
    rw [hF]
    have : F ≠ 0 := by linarith
    simp [truthyD, this]
  obtain ⟨_, _, hfin, hres⟩ := performCalculationsD_resolved inp st hfunds
  rw [hL] at hfin
  by_cases herr : (resolveLeverageD inp.direction inp.manualLeverageInput inp.parsedEntry
      inp.parsedLiqPreset).currentError.isSome = true
  · rw [if_pos herr] at hfin
    cases hfin
  rw [if_neg herr] at hfin hres
  obtain ⟨hL1, hL2⟩ := resolveLeverageD_bounds _ _ _ _ L hfin.symm
  refine ⟨hL1, hL2, ?_⟩
  obtain ⟨M, hM, hM1, hM2⟩ := calcMarginD_bounds F p hF1 hFb hp1 hp2
  obtain ⟨S, hS, hS1, hS2, hW1, hW2⟩ := calcSizeD_bounds M L E hM1 hM2 hL1 hL2 hE1 hEb
  have hS0 : 0 < S := lt_of_lt_of_le (by positivity) hS1
  obtain ⟨V, A, risk, hV, hV0, hV2, hA, hA0, hrisk, hr1, hr2⟩ :=
    totalRiskD_bounds inp.direction M L E S hM1 hM2 hL1 hL2 hE1 hEb hS0 hW1 hW2
  obtain ⟨net, hnet, hnetb⟩ := pnlNetD_fin inp.direction S L E T V hS0 hS2 hT0 hTb hV hV0 hV2
  have hM0 : 0 < M := by linarith
  have hhalf : M / 2 ≤ M * (1 - 4 / 1000 * L) := by
    have : (1 : ℚ) / 2 ≤ 1 - 4 / 1000 * L := by linarith
    nlinarith
  have hsmall : 1 / 10 ^ 9 < M / 2 := by
    have : (1 : ℚ) / 10 ^ 9 < 9 / 10 ^ 5 / 2 := by norm_num
    linarith
  have hrisk0 : 0 < risk := by linarith
  have hratio_le : |net| / risk ≤ 10 ^ 210 * 10 ^ 9 := by
    rw [div_le_iff₀ hrisk0]
    have h1 : (10 : ℚ) ^ 210 ≤ 10 ^ 210 * 10 ^ 9 * risk := by
      have : (1 : ℚ) ≤ 10 ^ 9 * risk := by
        have := mul_le_mul_of_nonneg_left (le_of_lt (lt_of_lt_of_le hsmall
          (le_trans hhalf hr1))) (by positivity : (0 : ℚ) ≤ 10 ^ 9)
        have e : (10 : ℚ) ^ 9 * (1 / 10 ^ 9) = 1 := by norm_num
        rw [e] at this
        exact this
      calc (10 : ℚ) ^ 210 = 10 ^ 210 * 1 := by ring
        _ ≤ 10 ^ 210 * (10 ^ 9 * risk) := mul_le_mul_of_nonneg_left this (by positivity)
        _ = 10 ^ 210 * 10 ^ 9 * risk := by ring
    exact le_trans hnetb h1
  have hratio_nonneg : 0 ≤ |net| / risk := div_nonneg (abs_nonneg net) hrisk0.le
  obtain ⟨ratio, hratio, _⟩ := roundToDouble_fin (|net| / risk) (by
    rw [abs_of_nonneg hratio_nonneg]
    exact le_trans hratio_le (by norm_num))
  have hact : actualLiqPriceNumD inp.direction (.fin E) (.fin L) = .fin A := by
    unfold actualLiqPriceNumD
    rw [hA]
    simp [Dbl.gt, Dbl.lt, hA0]
  have hdiv : (Dbl.fin |net|).div (.fin risk) = .fin ratio := by
    rw [Dbl.div_fin _ _ hrisk0.ne.symm, hratio]
  have hgt : (Dbl.fin risk).gt EPSILON_D = true := by
    rw [EPSILON_D_eq]
    have : (4835703278458517 : ℚ) / 4835703278458516698824704 < risk := by
      have h2 : (4835703278458517 : ℚ) / 4835703278458516698824704 < 9 / 10 ^ 5 / 2 := by
        norm_num
      linarith
    simp [Dbl.gt, Dbl.lt, this]
  rw [← hfin, hF, hp, hM, hE, hT, hS, calcPnlD_some _ _ S E T _ hS0 hE0.ne.symm hT0.ne.symm]
    at hres
  have hliqtext : (pnlResultD inp.direction inp.usdtToTwd (.fin S) (.fin L) (.fin E)
      (.fin T)).actualLiqPrice = .text (toFixed A 2) := by
    unfold pnlResultD
    simp only []
    have : (pnlLocalsD inp.direction (.fin S) (.fin L) (.fin E) (.fin T)).actualLiq =
        .fin A := hact
    rw [this]
    rfl
  have hratiotext : (pnlResultD inp.direction inp.usdtToTwd (.fin S) (.fin L) (.fin E)
      (.fin T)).rRatio = .text (toFixed ratio 2) := by
    unfold pnlResultD riskRewardTextD
    simp only []
    have h1 : (pnlLocalsD inp.direction (.fin S) (.fin L) (.fin E) (.fin T)).actualLiq =
        .fin A := hact
    have h2 : (pnlLocalsD inp.direction (.fin S) (.fin L) (.fin E) (.fin T)).entryValue =
        .fin V := hV
    rw [h1, h2, hrisk, hnet]
    simp only [Dbl.isNaN, Bool.false_eq_true, if_false, hgt, if_true, Dbl.abs, hdiv]
    rfl
  refine ⟨_, M, S, A, V, risk, net, ratio, hres, ?_, hS, hact, hA0, hV, hrisk, hr1, hhalf,
    hsmall, hnet, hdiv, hliqtext, hratiotext, ?_, ?_, ?_⟩
  · rw [hF, hp, hM]
  · rw [hliqtext]
    intro h
    exact (toFixed_ne_special A 2).1 (TextD.text.inj h)
  · rw [hratiotext]
    intro h
    exact (toFixed_ne_special ratio 2).1 (TextD.text.inj h)
  · rw [hratiotext]
    intro h
    exact (toFixed_ne_special ratio 2).2 (TextD.text.inj h)

/-- C14, checked on the first example of the specification (funds 1000 at
10%, entry price 60000, target price 58000, manual leverage 10, short): a
result record is produced whose liquidation price and ratio are numbers. -/
theorem C14_ratio_finite_double_witness :
    ∃ res, (performCalculationsD example1D initialResultStateD).calculationResult = some res ∧
      res.actualLiqPrice ≠ .text .na ∧ res.rRatio ≠ .text .na ∧
      res.rRatio ≠ .text .infinite := by
  have hF : example1D.parsedFunds = some (.fin 1000) :=
    parseValidFloatD_str_price "1000" false 1000 0 [] 1000 (by decide)
      (roundToDouble_cert _ _ 8796093022208000 (-43) (by norm_num)
        (by norm_num [literalValue]) (by norm_num [literalValue]) (by norm_num [literalValue])
        (by norm_num [literalValue]) (by norm_num) (by norm_num))
      (by norm_num)
  have hE : example1D.parsedEntry = some (.fin 60000) :=
    parseValidFloatD_str_price "60000" false 60000 0 [] 60000 (by decide)
      (roundToDouble_cert _ _ 8246337208320000 (-37) (by norm_num)
        (by norm_num [literalValue]) (by norm_num [literalValue]) (by norm_num [literalValue])
        (by norm_num [literalValue]) (by norm_num) (by norm_num))
      (by norm_num)
  have hT : example1D.parsedTarget = some (.fin 58000) :=
    parseValidFloatD_str_price "58000" false 58000 0 [] 58000 (by decide)
      (roundToDouble_cert _ _ 7971459301376000 (-37) (by norm_num)
        (by norm_num [literalValue]) (by norm_num [literalValue]) (by norm_num [literalValue])
        (by norm_num [literalValue]) (by norm_num) (by norm_num))
      (by norm_num)
  have hp : example1D.parsedPosPercent = some (.fin 10) :=
    parseValidFloatD_num (.fin 10) _ _ _ rfl (by
      simp only [withinLimitsD, Dbl.gt, Dbl.lt, Dbl.ge, Dbl.le, Bool.false_eq_true, if_false,
        Bool.and_eq_true, decide_eq_true_eq]
      norm_num)
  have hm : isLeverageManuallySetD (.str "10") = true :=
    isLeverageManuallySetD_of_scan "10" (false, 10, 0, []) (by decide) (by decide)
  have hlev : parseValidFloatD (.str "10") MIN_LEVERAGE_D MAX_LEVERAGE_D false =
      some (.fin 10) := by
    rw [parseValidFloatD_str_of_scan "10" false 10 0 [] (.fin 10) _ _ _ (by decide)
      (roundToDouble_cert _ _ 5629499534213120 (-49) (by norm_num)
        (by norm_num [literalValue]) (by norm_num [literalValue]) (by norm_num [literalValue])
        (by norm_num [literalValue]) (by norm_num) (by norm_num))]
    simp only [MIN_LEVERAGE_D, MAX_LEVERAGE_D, Dbl.isNaN, Dbl.le, Dbl.lt, Dbl.gt]
    norm_num
  have hfunds : truthyD example1D.parsedFunds = true := by
    rw [hF]
    simp [truthyD]
  have hL : (performCalculationsD example1D initialResultStateD).finalLeverage =
      some (.fin 10) := by
    obtain ⟨_, _, hfin, _⟩ := performCalculationsD_resolved example1D initialResultStateD hfunds
    have hr := resolveLeverageD_manual example1D.direction example1D.manualLeverageInput
      example1D.parsedEntry example1D.parsedLiqPreset (.fin 10) hm hlev
    rw [hr] at hfin
    exact hfin
  obtain ⟨_, _, res, _, _, _, _, _, _, _, hres, _, _, _, _, _, _, _, _, _, _, _, _, _, h1, h2,
      h3⟩ :=
    C14_ratio_finite_double example1D initialResultStateD 1000 10 60000 58000 10 hF hp hE hT hL
      (by norm_num) (by norm_num) (by norm_num)
  exact ⟨res, hres, h1, h2, h3⟩

/-- C14 as stated fails: with funds of `1e308` at 100% and the manual leverage
125 (entry price 60000, target price 58000, short) the funds, the percentage,
the prices and the leverage are all valid and a result record is produced, but
`1e308 * 100` overflows: the margin reads `"Infinity"`, the position size is
infinite, the net profit and the total risk are `NaN`, and the ratio of the
record reads `"N/A"`. -/
theorem C14_double_counterexample :
    (performCalculationsD overflowInputsD initialResultStateD).error = none ∧
    (performCalculationsD overflowInputsD initialResultStateD).finalLeverage =
      some (.fin 125) ∧
    (performCalculationsD overflowInputsD initialResultStateD).margin = .infinityText false ∧
    ∃ res, (performCalculationsD overflowInputsD initialResultStateD).calculationResult =
        some res ∧ res.rRatio = .text .na := by
  have hF : overflowInputsD.parsedFunds = some (.fin (5010420900022432 * 2 ^ 971)) :=
    parseValidFloatD_str_price "1e308" false 1 308 [] _ (by decide)
      (roundToDouble_cert _ _ 5010420900022432 971 (by norm_num)
        (by norm_num [literalValue]) (by norm_num [literalValue]) (by norm_num [literalValue])
        (by norm_num [literalValue]) (by norm_num) (by norm_num))
      (by norm_num)
  have hE : overflowInputsD.parsedEntry = some (.fin 60000) :=
    parseValidFloatD_str_price "60000" false 60000 0 [] 60000 (by decide)
      (roundToDouble_cert _ _ 8246337208320000 (-37) (by norm_num)
        (by norm_num [literalValue]) (by norm_num [literalValue]) (by norm_num [literalValue])
        (by norm_num [literalValue]) (by norm_num) (by norm_num))
      (by norm_num)
  have hT : overflowInputsD.parsedTarget = some (.fin 58000) :=
    parseValidFloatD_str_price "58000" false 58000 0 [] 58000 (by decide)
      (roundToDouble_cert _ _ 7971459301376000 (-37) (by norm_num)
        (by norm_num [literalValue]) (by norm_num [literalValue]) (by norm_num [literalValue])
        (by norm_num [literalValue]) (by norm_num) (by norm_num))
      (by norm_num)
  have hp : overflowInputsD.parsedPosPercent = some (.fin 100) :=
    parseValidFloatD_num (.fin 100) _ _ _ rfl (by
      simp only [withinLimitsD, Dbl.gt, Dbl.lt, Dbl.ge, Dbl.le, Bool.false_eq_true, if_false,
        Bool.and_eq_true, decide_eq_true_eq]
      norm_num)
  have hm : isLeverageManuallySetD (.str "125") = true :=
    isLeverageManuallySetD_of_scan "125" (false, 125, 0, []) (by decide) (by decide)
  have hlev : parseValidFloatD (.str "125") MIN_LEVERAGE_D MAX_LEVERAGE_D false =
      some (.fin 125) := by
    rw [parseValidFloatD_str_of_scan "125" false 125 0 [] (.fin 125) _ _ _ (by decide)
      (roundToDouble_cert _ _ 8796093022208000 (-46) (by norm_num)
        (by norm_num [literalValue]) (by norm_num [literalValue]) (by norm_num [literalValue])
        (by norm_num [literalValue]) (by norm_num) (by norm_num))]
    simp only [MIN_LEVERAGE_D, MAX_LEVERAGE_D, Dbl.isNaN, Dbl.le, Dbl.lt, Dbl.gt]
    norm_num
  have hfunds : truthyD overflowInputsD.parsedFunds = true := by
    rw [hF]
    simp [truthyD]
  have hmargin : calcMarginD overflowInputsD.parsedFunds overflowInputsD.parsedPosPercent =
      .inf false := by
    rw [hF, hp]
    unfold calcMarginD
    have ht : (truthyD (some (.fin (5010420900022432 * 2 ^ 971))) &&
        truthyD (some (.fin 100))) = true := by
      simp [truthyD]
    simp only [ht, if_true]
    rw [Dbl.mul_fin, roundToDouble_overflow _ (by norm_num)]
    simp [Dbl.div]
  have hr := resolveLeverageD_manual overflowInputsD.direction
    overflowInputsD.manualLeverageInput overflowInputsD.parsedEntry
    overflowInputsD.parsedLiqPreset (.fin 125) hm hlev
  obtain ⟨herr, _, hfin, hres⟩ :=
    performCalculationsD_resolved overflowInputsD initialResultStateD hfunds
  have hmt := performCalculationsD_margin overflowInputsD initialResultStateD hfunds
  rw [hr] at herr hfin hres
  have hsize : calcSizeD (.inf false) (some (.fin 125)) (some (.fin 60000)) = .inf false := by
    unfold calcSizeD
    simp [Dbl.gt, Dbl.lt, truthyD, Dbl.mul, Dbl.div]
    norm_num
  obtain ⟨A, hA, hA0, _⟩ := liqPriceD_close .short 60000 125 (by norm_num) (by norm_num)
    (by norm_num) (by norm_num)
  have hact : actualLiqPriceNumD .short (.fin 60000) (.fin 125) = .fin A := by
    unfold actualLiqPriceNumD
    rw [hA]
    simp [Dbl.gt, Dbl.lt, hA0]
  refine ⟨herr, hfin, ?_, ?_⟩
  · rw [hmt, hmargin, hfunds, hp]
    simp [truthyD, toFixedD]
  · simp only [Option.isSome_none, Bool.false_eq_true, if_false] at hres
    rw [hmargin, hE, hT, hsize] at hres
    have hpnl : calcPnlD overflowInputsD.direction overflowInputsD.usdtToTwd (.inf false)
        (some (.fin 125)) (some (.fin 60000)) (some (.fin 58000)) =
        some (pnlResultD .short none (.inf false) (.fin 125) (.fin 60000) (.fin 58000)) := by
      unfold calcPnlD
      simp [Dbl.gt, Dbl.lt, truthyD]
      rfl
    rw [hpnl] at hres
    exact ⟨_, hres, riskRewardTextD_infinite_size .short 60000 58000 A (.fin 125)
      (by norm_num) (by norm_num) none hact hA0⟩

/-! ## C15: the denominator of the derivation is never degenerate -/

/-- C15. On a long or short position, for every valid entry price `E` and
preset liquidation price `P` that pass the ordering check (long: `P < E`;
short: `P > E`), the denominator of the leverage derivation is strictly
greater than the maintenance margin rate 0.004, hence greater than `1e-9`, and
the derived value `1 / denominator` lies strictly between 0 and 250.
Consequently `performCalculations` never ends with the error of the
degenerate denominator, and every leverage it derives lies strictly between 0
and 250. -/
theorem C15_denominator_never_degenerate (inp : Inputs) (st : State)
    (hdir : inp.direction = .long ∨ inp.direction = .short) :
    (∀ E P, inp.parsedEntry = some E → inp.parsedLiqPreset = some P →
      (inp.direction = .long ∧ P < E) ∨ (inp.direction = .short ∧ E < P) →
      4 / 1000 < derivationDenominator inp.direction E P ∧
      1 / 10 ^ 9 < derivationDenominator inp.direction E P ∧
      0 < 1 / derivationDenominator inp.direction E P ∧
      1 / derivationDenominator inp.direction E P < 250) ∧
    (performCalculations inp st).error ≠ some .cannotDerive ∧
    (∀ l, (performCalculations inp st).derivedLeverage = some l → 0 < l ∧ l < 250) := by
  have hres := resolveLeverage_not_degenerate inp.direction inp.manualLeverageInput
    inp.parsedEntry inp.parsedLiqPreset hdir (fun E hE => parseValidFloat_pos hE)
  refine ⟨?_, ?_, ?_⟩
  · intro E P hE _ hord
    have hden := derivationDenominator_gt inp.direction E P (parseValidFloat_pos hE) hord
    simp only [MAINT_MARGIN_RATE] at hden
    have hden0 : 0 < derivationDenominator inp.direction E P := by linarith
    refine ⟨hden, by linarith, by positivity, ?_⟩
    rw [div_lt_iff₀ hden0]
    linarith
  · rcases performCalculations_cases inp st with ⟨_, h⟩ | ⟨e, _, he, _, h⟩ | ⟨_, _, h⟩
    · rw [h]
      simp
    · rw [h]
      intro hcontra
      have : (resolution inp).currentError = some .cannotDerive := by
        rw [he]
        exact hcontra
      exact hres.1 this
    · rw [h]
      simp
  · intro l hl
    rcases performCalculations_cases inp st with ⟨_, h⟩ | ⟨e, _, _, _, h⟩ | ⟨_, _, h⟩
    · rw [h] at hl
      cases hl
    · rw [h] at hl
      exact hres.2 l hl
    · rw [h] at hl
      exact hres.2 l hl

/-- C15, checked on the second example of the specification: long, entry price
50000 and preset liquidation price 45000 give a denominator above 0.004, no
error of the degenerate denominator, and a derived leverage between 0 and
250. -/
theorem C15_denominator_never_degenerate_witness :
    4 / 1000 < derivationDenominator .long 50000 45000 ∧
    (performCalculations
      { example1 with direction := .long, manualLeverageInput := .str "",
                      entryPriceInput := .num 50000, liqPresetInput := .num 45000 }
      initialResultState).error ≠ some .cannotDerive := by
  have h := C15_denominator_never_degenerate
    { example1 with direction := .long, manualLeverageInput := .str "",
                    entryPriceInput := .num 50000, liqPresetInput := .num 45000 }
    initialResultState (Or.inl rfl)
  exact ⟨(h.1 50000 45000
      (by norm_num [Inputs.parsedEntry, parseValidFloat_num, geMin, leMax])
      (by norm_num [Inputs.parsedLiqPreset, parseValidFloat_num, geMin, leMax])
      (Or.inl ⟨rfl, by norm_num⟩)).1, h.2.1⟩

end BtcCalculator
